import Mathlib

/-!
# Nabla: verification development

Shallow embedding of `CCPUMeshPackerV2::commit`
(`include/nbl/asset/utils/CCPUMeshPackerV2.h`) and theorems about it.

Machine integers are natural numbers; every narrowing the source performs
(`uint16_t`, `uint32_t`, `size_t` locals) is an explicit `%`.
Pointers are positions: `mdiBuffPtr` is a slot of the indirect-draw buffer,
`cdotOut` a row of the offset-table array, `dstAttrPtr` a byte position of the
unified vertex buffer.  A store through a pointer is recorded, in program order,
in the state, together with the loop indices of the iteration that issued it.
-/

namespace Nabla

/-! ## Data model -/

/-- Width of `uint16_t`. -/
def U16 : Nat := 65536

/-- Width of `uint32_t`. -/
def U32 : Nat := 4294967296

/-- Width of `size_t` (64-bit target). -/
def USIZE : Nat := 18446744073709551616

/-- The two input rates `commit` distinguishes. -/
inductive E_VERTEX_INPUT_RATE where
  | EVIR_PER_VERTEX
  | EVIR_PER_INSTANCE
  deriving DecidableEq, Repr

/-- One entry of `SVertexInputParams::attributes`. -/
structure SVertexInputAttribParams where
  binding : Nat
  format : Nat
  deriving DecidableEq, Repr

/-- The vertex input description read through
`(*it)->getPipeline()->getVertexInputParams()`: the enabled-attribute mask, the
attribute array and the input rate of every binding. -/
structure SVertexInputParams where
  enabledAttribFlags : Nat
  attributes : Nat → SVertexInputAttribParams
  bindings : Nat → E_VERTEX_INPUT_RATE

/-- What `commit` observes of one mesh buffer `*it`.

* `ranges` is `constructTriangleBatches(*it, idxBufferParams).ranges`, each
  iterator given as its position in the triangle array;
* `usedVertices i` is the `size()` of the map returned by
  `constructNewIndicesFromTriangleBatchAndUpdateUnifiedIndexBuffer` for batch `i`;
* `triangleCount` is the number of triangles of the mesh buffer (its index
  count divided by three); `commit` itself never reads it. -/
structure ICPUMeshBuffer where
  vertexInputParams : SVertexInputParams
  getInstanceCount : Nat
  ranges : List Nat
  usedVertices : Nat → Nat
  triangleCount : Nat

/-- One entry of `ReservedAllocationMeshBuffers::attribAllocParams`. -/
structure AttribAllocParams where
  offset : Nat
  deriving DecidableEq, Repr

/-- The fields of a reserved-allocation record that `commit` reads. -/
structure ReservedAllocationMeshBuffers where
  mdiAllocationOffset : Nat
  indexAllocationOffset : Nat
  attribAllocParams : Nat → AttribAllocParams

/-- The members and constants of the packer that `commit` consults and whose
declarations live in the base classes: the invalid-address sentinel, the number
of attribute slots, the byte size of a format, and the virtual-attribute
configuration (`utbs t f` is `utbs[t].find(f)`, `none` standing for `end()`). -/
structure CCPUMeshPackerV2 where
  INVALID_ADDRESS : Nat
  MAX_ATTR_BUF_BINDING_COUNT : Nat
  getTexelOrBlockBytesize : Nat → Nat
  getUTBArrayTypeFromFormat : Nat → Nat
  utbs : Nat → Nat → Option Nat

/-- The indirect-draw structure `MDIStructType` as `commit` fills it.  The type is a
template argument whose default is `DrawElementsIndirectCommand_t`, with five members
of 32 bits: each member holds the value assigned to it, narrowed to 32 bits. -/
structure MDIStruct where
  count : Nat
  instanceCount : Nat
  firstIndex : Nat
  baseVertex : Nat
  baseInstance : Nat
  deriving DecidableEq, Repr

/-- The two constructor arguments of `VirtualAttribute(vaArrayElement, vaOffset)`. -/
structure VirtualAttribute where
  arrayElement : Nat
  offset : Nat
  deriving DecidableEq, Repr

/-- The output descriptor `IMeshPackerBase::PackedMeshBufferData`. -/
structure PackedMeshBufferData where
  mdiParameterOffset : Nat
  mdiParameterCount : Nat
  deriving DecidableEq, Repr

/-- A store `*mdiBuffPtr = MDIData` issued for batch `batch` of the mesh buffer
at position `mb` of the range. -/
structure MDIStore where
  mb : Nat
  batch : Nat
  slot : Nat
  cmd : MDIStruct
  deriving DecidableEq, Repr

/-- A store `cdotOut->attribInfo[location] = VirtualAttribute(..)`. -/
structure CDOTStore where
  mb : Nat
  batch : Nat
  row : Nat
  location : Nat
  va : VirtualAttribute
  deriving DecidableEq, Repr

/-- A store `pmbd = { .. }` into `*(pmbdOut + index)`. -/
structure PMBDStore where
  index : Nat
  pmbd : PackedMeshBufferData
  deriving DecidableEq, Repr

/-- A call of `deinterleaveAndCopyAttribute` (per-vertex rate) or of
`deinterleaveAndCopyPerInstanceAttribute` (per-instance rate) with destination
`dst`, a byte position of the unified vertex buffer. -/
structure AttribCopy where
  mb : Nat
  batch : Nat
  location : Nat
  inputRate : E_VERTEX_INPUT_RATE
  dst : Nat
  deriving DecidableEq, Repr

/-- The locals of `commit` and the effects recorded so far. -/
structure CommitState where
  mdiBuffPtr : Nat
  cdotOut : Nat
  batchCntTotal : Nat
  batchFirstIdx : Nat
  verticesAddedCnt : Nat
  instancesAddedCnt : Nat
  mdiStores : List MDIStore
  cdotStores : List CDOTStore
  pmbdStores : List PMBDStore
  attribCopies : List AttribCopy
  deriving DecidableEq, Repr

/-- How a loop body ends: the loop goes on, `commit` leaves through a
`return 0u;`, or the behaviour is undefined (a read past the end of `ranges`,
a division by zero). -/
inductive Flow where
  | next (s : CommitState)
  | fail (s : CommitState)
  | undefined
  deriving DecidableEq, Repr

/-! ## `commit` -/

/-- Test `mbVtxInputParams.enabledAttribFlags & attrBit`, where `attrBit` is the
`uint16_t` obtained from `0x0001` by `location` left shifts. -/
def attribEnabled (mb : ICPUMeshBuffer) (location : Nat) : Bool :=
  Nat.land mb.vertexInputParams.enabledAttribFlags (2 ^ location % U16) != 0

/-- Local `attribSize` of the attribute loop. -/
def attribSizeOf (P : CCPUMeshPackerV2) (mb : ICPUMeshBuffer) (location : Nat) : Nat :=
  P.getTexelOrBlockBytesize (mb.vertexInputParams.attributes location).format % U32

/-- Local `inputRate` of the attribute loop. -/
def inputRateOf (mb : ICPUMeshBuffer) (location : Nat) : E_VERTEX_INPUT_RATE :=
  mb.vertexInputParams.bindings ((mb.vertexInputParams.attributes location).binding % U32)

/-- Result of `utb.find(attribFormat)` for the attribute at `location`. -/
def utbFind (P : CCPUMeshPackerV2) (mb : ICPUMeshBuffer) (location : Nat) : Option Nat :=
  P.utbs (P.getUTBArrayTypeFromFormat (mb.vertexInputParams.attributes location).format)
    (mb.vertexInputParams.attributes location).format

/-- The counter that positions the data of the attribute: `verticesAddedCnt`
for the per-vertex rate, `instancesAddedCnt` for the per-instance rate. -/
def runningCount (rate : E_VERTEX_INPUT_RATE) (s : CommitState) : Nat :=
  match rate with
  | .EVIR_PER_VERTEX => s.verticesAddedCnt
  | .EVIR_PER_INSTANCE => s.instancesAddedCnt

/-- Body of the attribute loop (lines 117-156) for one `location`. -/
def attribStep (P : CCPUMeshPackerV2) (mb : ICPUMeshBuffer) (ramb : ReservedAllocationMeshBuffers)
    (mbIdx batch location : Nat) (s : CommitState) : Flow :=
  if attribEnabled mb location = false then .next s
  else if (ramb.attribAllocParams location).offset = P.INVALID_ADDRESS then .fail s
  else
    let attribSize := attribSizeOf P mb location
    let inputRate := inputRateOf mb location
    let currBatchOffset := runningCount inputRate s * attribSize % USIZE % U32
    let dstAttrPtr := (ramb.attribAllocParams location).offset + currBatchOffset
    let s1 : CommitState :=
      { s with attribCopies := s.attribCopies ++ [⟨mbIdx, batch, location, inputRate, dstAttrPtr⟩] }
    match utbFind P mb location with
    | none => .fail s1
    | some second =>
      if attribSize = 0 then .undefined
      else
        let vaArrayElement := second % U16
        let vaOffset :=
          ((ramb.attribAllocParams location).offset / attribSize + runningCount inputRate s) % USIZE % U32
        .next { s1 with
          cdotStores := s1.cdotStores ++ [⟨mbIdx, batch, s1.cdotOut, location, ⟨vaArrayElement, vaOffset⟩⟩] }

/-- The attribute loop over the given locations, in order. -/
def attribLoop (P : CCPUMeshPackerV2) (mb : ICPUMeshBuffer) (ramb : ReservedAllocationMeshBuffers)
    (mbIdx batch : Nat) : List Nat → CommitState → Flow
  | [], s => .next s
  | location :: rest, s =>
    match attribStep P mb ramb mbIdx batch location s with
    | .next s1 => attribLoop P mb ramb mbIdx batch rest s1
    | r => r

/-- Local `triangleInBatchCnt`: `std::distance(batchBegin, batchEnd)` narrowed
to `uint32_t`. -/
def triangleInBatchCnt (batchBegin batchEnd : Nat) : Nat :=
  (((batchEnd : Int) - (batchBegin : Int)) % (U32 : Int)).toNat

/-- Body of the batch loop (lines 107-174) for batch `i`. -/
def batchStep (P : CCPUMeshPackerV2) (mb : ICPUMeshBuffer) (ramb : ReservedAllocationMeshBuffers)
    (mbIdx i : Nat) (s : CommitState) : Flow :=
  match mb.ranges.get? i, mb.ranges.get? (i + 1) with
  | some batchBegin, some batchEnd =>
    let idxInBatchCnt := 3 * triangleInBatchCnt batchBegin batchEnd % U32
    match attribLoop P mb ramb mbIdx i (List.range P.MAX_ATTR_BUF_BINDING_COUNT) s with
    | .next s1 =>
      let MDIData : MDIStruct :=
        { count := idxInBatchCnt
          instanceCount := mb.getInstanceCount % U32
          firstIndex := s1.batchFirstIdx % U32
          baseVertex := 0
          baseInstance := 0 }
      .next { s1 with
        verticesAddedCnt := (s1.verticesAddedCnt + mb.usedVertices i) % USIZE
        cdotOut := s1.cdotOut + 1
        mdiStores := s1.mdiStores ++ [⟨mbIdx, i, s1.mdiBuffPtr, MDIData⟩]
        mdiBuffPtr := s1.mdiBuffPtr + 1
        batchFirstIdx := (s1.batchFirstIdx + idxInBatchCnt) % USIZE }
    | r => r
  | _, _ => .undefined

/-- The batch loop `for (uint32_t i = ..; i < batchCnt; i++)` with `n` iterations
left, the next one being batch `i`. -/
def batchLoop (P : CCPUMeshPackerV2) (mb : ICPUMeshBuffer) (ramb : ReservedAllocationMeshBuffers)
    (mbIdx : Nat) : Nat → Nat → CommitState → Flow
  | 0, _, s => .next s
  | n + 1, i, s =>
    match batchStep P mb ramb mbIdx i s with
    | .next s1 => batchLoop P mb ramb mbIdx n (i + 1) s1
    | r => r

/-- Local `batchCnt`: `triangleBatches.ranges.size() - 1u`, computed in `size_t`
(the subtraction wraps around when `size()` is `0`) and narrowed to `uint32_t`. -/
def batchCnt (mb : ICPUMeshBuffer) : Nat :=
  (if 1 ≤ mb.ranges.length then mb.ranges.length - 1
    else mb.ranges.length + USIZE - 1) % USIZE % U32

/-- Body of the mesh-buffer loop (lines 84-182) for the mesh buffer at position
`i` of the range, from the point where the local `batchCnt` has its value. -/
def meshStepWith (P : CCPUMeshPackerV2) (rambIn : Nat → ReservedAllocationMeshBuffers)
    (i : Nat) (mb : ICPUMeshBuffer) (batchCnt : Nat) (s : CommitState) : Flow :=
  let ramb := rambIn i
  let s0 : CommitState :=
    { s with
      batchFirstIdx := ramb.indexAllocationOffset % USIZE
      verticesAddedCnt := 0
      instancesAddedCnt := 0 }
  match batchLoop P mb ramb i batchCnt 0 s0 with
  | .next s1 =>
    .next { s1 with
      instancesAddedCnt := (s1.instancesAddedCnt + mb.getInstanceCount % U32) % USIZE
      pmbdStores := s1.pmbdStores ++
        [⟨i, ⟨((rambIn 0).mdiAllocationOffset + s1.batchCntTotal) % U32, batchCnt⟩⟩]
      batchCntTotal := (s1.batchCntTotal + batchCnt) % U32 }
  | r => r

/-- Body of the mesh-buffer loop (lines 84-182) for the mesh buffer at position
`i` of the range. -/
def meshStep (P : CCPUMeshPackerV2) (rambIn : Nat → ReservedAllocationMeshBuffers)
    (i : Nat) (mb : ICPUMeshBuffer) (s : CommitState) : Flow :=
  meshStepWith P rambIn i mb (batchCnt mb) s

/-- The loop over the range `mbBegin .. mbEnd`, `i` being the position of the
first mesh buffer of the list. -/
def meshLoop (P : CCPUMeshPackerV2) (rambIn : Nat → ReservedAllocationMeshBuffers) :
    Nat → List ICPUMeshBuffer → CommitState → Flow
  | _, [], s => .next s
  | i, mb :: rest, s =>
    match meshStep P rambIn i mb s with
    | .next s1 => meshLoop P rambIn (i + 1) rest s1
    | r => r

/-- State of `commit` before the first iteration (lines 78-81). -/
def initState (rambIn : Nat → ReservedAllocationMeshBuffers) : CommitState :=
  { mdiBuffPtr := (rambIn 0).mdiAllocationOffset
    cdotOut := 0
    batchCntTotal := 0
    batchFirstIdx := 0
    verticesAddedCnt := 0
    instancesAddedCnt := 0
    mdiStores := []
    cdotStores := []
    pmbdStores := []
    attribCopies := [] }

/-- How `commit` runs on the range `mbs`. -/
def commitFlow (P : CCPUMeshPackerV2) (rambIn : Nat → ReservedAllocationMeshBuffers)
    (mbs : List ICPUMeshBuffer) : Flow :=
  meshLoop P rambIn 0 mbs (initState rambIn)

/-- The function `commit`: the value it returns and the state it leaves, or `none` when
its behaviour is undefined. -/
def commit (P : CCPUMeshPackerV2) (rambIn : Nat → ReservedAllocationMeshBuffers)
    (mbs : List ICPUMeshBuffer) : Option (Nat × CommitState) :=
  match commitFlow P rambIn mbs with
  | .next s => some (s.batchCntTotal, s)
  | .fail s => some (0, s)
  | .undefined => none


/-! ## Conditions on the input -/

/-- The attribute loop passes `location` without leaving `commit`: when the slot is
enabled, its reserved offset is not the sentinel, its format is registered, and
the byte size of the format is not zero (the division of line 152). -/
def AttribOK (P : CCPUMeshPackerV2) (mb : ICPUMeshBuffer) (ramb : ReservedAllocationMeshBuffers)
    (location : Nat) : Prop :=
  attribEnabled mb location = true →
    (ramb.attribAllocParams location).offset ≠ P.INVALID_ADDRESS ∧
    (utbFind P mb location).isSome = true ∧
    attribSizeOf P mb location ≠ 0

instance (P : CCPUMeshPackerV2) (mb : ICPUMeshBuffer) (ramb : ReservedAllocationMeshBuffers)
    (location : Nat) : Decidable (AttribOK P mb ramb location) :=
  inferInstanceAs (Decidable (attribEnabled mb location = true →
    (ramb.attribAllocParams location).offset ≠ P.INVALID_ADDRESS ∧
    (utbFind P mb location).isSome = true ∧
    attribSizeOf P mb location ≠ 0))

/-- Every attribute slot of the mesh buffer passes the attribute loop. -/
def MeshOK (P : CCPUMeshPackerV2) (mb : ICPUMeshBuffer) (ramb : ReservedAllocationMeshBuffers) : Prop :=
  ∀ location, location < P.MAX_ATTR_BUF_BINDING_COUNT → AttribOK P mb ramb location

instance (P : CCPUMeshPackerV2) (mb : ICPUMeshBuffer) (ramb : ReservedAllocationMeshBuffers) :
    Decidable (MeshOK P mb ramb) :=
  inferInstanceAs (Decidable
    (∀ location, location < P.MAX_ATTR_BUF_BINDING_COUNT → AttribOK P mb ramb location))

/-- No mesh buffer of the range reaches a failure branch of `commit`: every enabled
attribute has a valid reserved offset and a registered format of non-zero size,
and the partitioner returned at least one boundary. -/
def NoFailure (P : CCPUMeshPackerV2) (rambIn : Nat → ReservedAllocationMeshBuffers)
    (mbs : List ICPUMeshBuffer) : Prop :=
  ∀ i (h : i < mbs.length), (mbs.get ⟨i, h⟩).ranges ≠ [] ∧ MeshOK P (mbs.get ⟨i, h⟩) (rambIn i)

instance (P : CCPUMeshPackerV2) (rambIn : Nat → ReservedAllocationMeshBuffers)
    (mbs : List ICPUMeshBuffer) : Decidable (NoFailure P rambIn mbs) :=
  inferInstanceAs (Decidable (∀ i (h : i < mbs.length),
    (mbs.get ⟨i, h⟩).ranges ≠ [] ∧ MeshOK P (mbs.get ⟨i, h⟩) (rambIn i)))

/-- Modelled from the spec: the contract of the partitioner `constructTriangleBatches`
(§4.2), whose definition is not among the sources.  The boundaries it returns are
increasing, the first is `0` and the last is the triangle count of the mesh buffer. -/
def Partitioned (mb : ICPUMeshBuffer) : Prop :=
  mb.ranges.getD 0 0 = 0 ∧ mb.ranges.getD (mb.ranges.length - 1) 0 = mb.triangleCount ∧
    ∀ b, b < mb.ranges.length - 1 → mb.ranges.getD b 0 ≤ mb.ranges.getD (b + 1) 0

instance (mb : ICPUMeshBuffer) : Decidable (Partitioned mb) :=
  inferInstanceAs (Decidable
    (mb.ranges.getD 0 0 = 0 ∧ mb.ranges.getD (mb.ranges.length - 1) 0 = mb.triangleCount ∧
      ∀ b, b < mb.ranges.length - 1 → mb.ranges.getD b 0 ≤ mb.ranges.getD (b + 1) 0))

/-! ## Closed forms -/

/-- Sum of `f 0 .. f (n - 1)`. -/
def sumUpTo (f : Nat → Nat) : Nat → Nat
  | 0 => 0
  | n + 1 => sumUpTo f n + f n

/-- Boundary `b` of the mesh buffer (`0` past the end of `ranges`). -/
def boundary (mb : ICPUMeshBuffer) (b : Nat) : Nat := mb.ranges.getD b 0

/-- Value of `idxInBatchCnt` in batch `b`. -/
def idxCntOf (mb : ICPUMeshBuffer) (b : Nat) : Nat :=
  3 * triangleInBatchCnt (boundary mb b) (boundary mb (b + 1)) % U32

/-- Value of `batchFirstIdx` when batch `b` starts. -/
def firstIdxOf (ramb : ReservedAllocationMeshBuffers) (mb : ICPUMeshBuffer) (b : Nat) : Nat :=
  (ramb.indexAllocationOffset + sumUpTo (idxCntOf mb) b) % USIZE

/-- Value of `verticesAddedCnt` when batch `b` starts. -/
def verticesBefore (mb : ICPUMeshBuffer) (b : Nat) : Nat :=
  sumUpTo mb.usedVertices b % USIZE

/-- The copy issued for an enabled `location` when the counters are `V` and `I`. -/
def copyOf (P : CCPUMeshPackerV2) (mb : ICPUMeshBuffer) (ramb : ReservedAllocationMeshBuffers)
    (mbIdx batch V I location : Nat) : AttribCopy :=
  ⟨mbIdx, batch, location, inputRateOf mb location,
    (ramb.attribAllocParams location).offset +
      (match inputRateOf mb location with
        | .EVIR_PER_VERTEX => V
        | .EVIR_PER_INSTANCE => I) * attribSizeOf P mb location % USIZE % U32⟩

/-- The offset-table store issued for an enabled `location`. -/
def cdotOf (P : CCPUMeshPackerV2) (mb : ICPUMeshBuffer) (ramb : ReservedAllocationMeshBuffers)
    (mbIdx batch row V I location : Nat) : CDOTStore :=
  ⟨mbIdx, batch, row, location,
    ⟨(utbFind P mb location).getD 0 % U16,
      ((ramb.attribAllocParams location).offset / attribSizeOf P mb location +
        (match inputRateOf mb location with
          | .EVIR_PER_VERTEX => V
          | .EVIR_PER_INSTANCE => I)) % USIZE % U32⟩⟩

/-- The enabled locations among `locs`. -/
def enabledLocs (mb : ICPUMeshBuffer) (locs : List Nat) : List Nat :=
  locs.filter (fun l => attribEnabled mb l)

/-- The indirect-draw store of batch `b`, `ptr` being the slot of batch `0`. -/
def mdiOf (mb : ICPUMeshBuffer) (ramb : ReservedAllocationMeshBuffers) (mbIdx ptr b : Nat) : MDIStore :=
  ⟨mbIdx, b, ptr + b,
    ⟨idxCntOf mb b, mb.getInstanceCount % U32, firstIdxOf ramb mb b % U32, 0, 0⟩⟩

/-- The copies of batch `b`. -/
def copiesOfBatch (P : CCPUMeshPackerV2) (mb : ICPUMeshBuffer) (ramb : ReservedAllocationMeshBuffers)
    (mbIdx b : Nat) : List AttribCopy :=
  (enabledLocs mb (List.range P.MAX_ATTR_BUF_BINDING_COUNT)).map
    (copyOf P mb ramb mbIdx b (verticesBefore mb b) 0)

/-- The offset-table stores of batch `b`, `row` being the row of batch `0`. -/
def cdotOfBatch (P : CCPUMeshPackerV2) (mb : ICPUMeshBuffer) (ramb : ReservedAllocationMeshBuffers)
    (mbIdx row b : Nat) : List CDOTStore :=
  (enabledLocs mb (List.range P.MAX_ATTR_BUF_BINDING_COUNT)).map
    (cdotOf P mb ramb mbIdx b (row + b) (verticesBefore mb b) 0)

/-- The indirect-draw stores of the mesh buffers of a range, the first being at
position `i` and its first batch at slot `ptr`. -/
def mdiStoresFrom (rambIn : Nat → ReservedAllocationMeshBuffers) :
    Nat → Nat → List ICPUMeshBuffer → List MDIStore
  | _, _, [] => []
  | i, ptr, mb :: rest =>
    (List.range' 0 (batchCnt mb)).map (mdiOf mb (rambIn i) i ptr) ++
      mdiStoresFrom rambIn (i + 1) (ptr + batchCnt mb) rest

/-- The copies of the mesh buffers of a range. -/
def copiesFrom (P : CCPUMeshPackerV2) (rambIn : Nat → ReservedAllocationMeshBuffers) :
    Nat → List ICPUMeshBuffer → List AttribCopy
  | _, [] => []
  | i, mb :: rest =>
    (List.range' 0 (batchCnt mb)).flatMap (copiesOfBatch P mb (rambIn i) i) ++
      copiesFrom P rambIn (i + 1) rest

/-- The offset-table stores of the mesh buffers of a range. -/
def cdotStoresFrom (P : CCPUMeshPackerV2) (rambIn : Nat → ReservedAllocationMeshBuffers) :
    Nat → Nat → List ICPUMeshBuffer → List CDOTStore
  | _, _, [] => []
  | i, row, mb :: rest =>
    (List.range' 0 (batchCnt mb)).flatMap (cdotOfBatch P mb (rambIn i) i row) ++
      cdotStoresFrom P rambIn (i + 1) (row + batchCnt mb) rest

/-- Number of batches of the range: the sum, over its mesh buffers, of the number of
batch boundaries minus one. -/
def numBatches (mbs : List ICPUMeshBuffer) : Nat :=
  (mbs.map (fun mb => mb.ranges.length - 1)).sum

/-- Sum of the `batchCnt` of the mesh buffers. -/
def totalBatches (mbs : List ICPUMeshBuffer) : Nat :=
  (mbs.map batchCnt).sum

/-- The descriptor stores of the mesh buffers of a range, `tot` batches having been
counted before the first. -/
def pmbdStoresFrom (base : Nat) : Nat → Nat → List ICPUMeshBuffer → List PMBDStore
  | _, _, [] => []
  | i, tot, mb :: rest =>
    ⟨i, ⟨(base + tot % U32) % U32, batchCnt mb⟩⟩ ::
      pmbdStoresFrom base (i + 1) (tot + batchCnt mb) rest

/-- The element count that positions the data of batch `k` for the attribute at
`location`: the value of `verticesAddedCnt` (the unique vertices of the batches
before `k`) for the per-vertex rate, the value of `instancesAddedCnt` (always `0`
inside the batch loop) for the per-instance rate. -/
def runningCountAt (mb : ICPUMeshBuffer) (k location : Nat) : Nat :=
  match inputRateOf mb location with
  | .EVIR_PER_VERTEX => sumUpTo mb.usedVertices k
  | .EVIR_PER_INSTANCE => 0

/-- The values that `commit` computes for the attribute at `location` fit the integer
types it computes them in: the registered id fits `uint16_t`; the bytes of the
attribute and its last element offset fit `uint32_t`. -/
def AttribFits (P : CCPUMeshPackerV2) (mb : ICPUMeshBuffer) (ramb : ReservedAllocationMeshBuffers)
    (location : Nat) : Prop :=
  (utbFind P mb location).getD 0 < U16 ∧
    runningCountAt mb (mb.ranges.length - 1) location * attribSizeOf P mb location < U32 ∧
    (ramb.attribAllocParams location).offset / attribSizeOf P mb location +
      runningCountAt mb (mb.ranges.length - 1) location < U32

instance (P : CCPUMeshPackerV2) (mb : ICPUMeshBuffer) (ramb : ReservedAllocationMeshBuffers)
    (location : Nat) : Decidable (AttribFits P mb ramb location) :=
  inferInstanceAs (Decidable (_ ∧ _ ∧ _))

/-! ## Test inputs -/

/-- A packer configuration: sentinel `0xFFFFFFFF`, sixteen attribute slots, every
format four bytes wide, format `1` registered with id `7` and no other. -/
def examplePacker : CCPUMeshPackerV2 :=
  { INVALID_ADDRESS := 4294967295
    MAX_ATTR_BUF_BINDING_COUNT := 16
    getTexelOrBlockBytesize := fun _ => 4
    getUTBArrayTypeFromFormat := fun _ => 0
    utbs := fun _ f => if f = 1 then some 7 else none }

/-- Vertex input with attribute `0` enabled, of the given format and rate. -/
def exampleInput (format : Nat) (rate : E_VERTEX_INPUT_RATE) : SVertexInputParams :=
  { enabledAttribFlags := 1
    attributes := fun _ => ⟨0, format⟩
    bindings := fun _ => rate }

/-- A mesh buffer with the given batch boundaries, two unique vertices per batch. -/
def exampleMesh (format : Nat) (rate : E_VERTEX_INPUT_RATE) (ranges : List Nat) : ICPUMeshBuffer :=
  { vertexInputParams := exampleInput format rate
    getInstanceCount := 1
    ranges := ranges
    usedVertices := fun _ => 2
    triangleCount := ranges.getLastD 0 }

/-- Reserved allocations: indirect-draw slot `5`, index offset `10 * (i + 1)`,
attribute offset `100 * (i + 1)` for every slot. -/
def exampleRamb (i : Nat) : ReservedAllocationMeshBuffers :=
  { mdiAllocationOffset := 5
    indexAllocationOffset := 10 * (i + 1)
    attribAllocParams := fun _ => ⟨100 * (i + 1)⟩ }


/-- Reserved allocations as `exampleRamb`, except that every attribute offset of
the mesh buffer at position `bad` is the sentinel of `examplePacker`. -/
def rambWithInvalid (bad : Nat) (i : Nat) : ReservedAllocationMeshBuffers :=
  { mdiAllocationOffset := 5
    indexAllocationOffset := 10 * (i + 1)
    attribAllocParams := fun _ => ⟨if i = bad then 4294967295 else 100 * (i + 1)⟩ }

/-- A range of two mesh buffers: one batch of one triangle, then no batch at all
(a single boundary); the attribute of the second has format `format`. -/
def rangeWithEmptyMesh (format : Nat) : List ICPUMeshBuffer :=
  [exampleMesh 1 .EVIR_PER_VERTEX [0, 1], exampleMesh format .EVIR_PER_VERTEX [0]]

/-- A range of two mesh buffers with one batch of one triangle each; the attribute of
the second has format `format`. -/
def rangeOfTwo (format : Nat) : List ICPUMeshBuffer :=
  [exampleMesh 1 .EVIR_PER_VERTEX [0, 1], exampleMesh format .EVIR_PER_VERTEX [0, 1]]

/-- Reserved allocations with every attribute at byte offset `off`. -/
def rambAt (off : Nat) (i : Nat) : ReservedAllocationMeshBuffers :=
  { mdiAllocationOffset := 5
    indexAllocationOffset := 10 * (i + 1)
    attribAllocParams := fun _ => ⟨off⟩ }

/-! ## The indirect-draw buffer as memory -/

/-- Content of the indirect-draw buffer after the recorded stores, `buf` being its
content before: the last store to a slot wins. -/
def mdiBufferAfter (buf : Nat → MDIStruct) : List MDIStore → Nat → MDIStruct
  | [], slot => buf slot
  | e :: rest, slot => mdiBufferAfter (fun k => if k = e.slot then e.cmd else buf k) rest slot

/-- An indirect-draw buffer filled with zeros. -/
def zeroMDIBuffer : Nat → MDIStruct := fun _ => ⟨0, 0, 0, 0, 0⟩

/-- Sum of the `count` members of the stored indirect-draw commands. -/
def sumCounts (stores : List MDIStore) : Nat :=
  (stores.map (fun e => e.cmd.count)).sum

/-- Number of triangles of the mesh buffers of the range. -/
def totalTriangles (mbs : List ICPUMeshBuffer) : Nat :=
  (mbs.map (fun mb => mb.triangleCount)).sum

/-! ## The loops, when no failure branch is reached -/

theorem attribLoop_ok (P : CCPUMeshPackerV2) (mb : ICPUMeshBuffer)
    (ramb : ReservedAllocationMeshBuffers) (mbIdx batch : Nat) (locs : List Nat) :
    ∀ s : CommitState, (∀ l ∈ locs, AttribOK P mb ramb l) →
      attribLoop P mb ramb mbIdx batch locs s = .next
        { s with
          attribCopies := s.attribCopies ++ (enabledLocs mb locs).map
            (copyOf P mb ramb mbIdx batch s.verticesAddedCnt s.instancesAddedCnt)
          cdotStores := s.cdotStores ++ (enabledLocs mb locs).map
            (cdotOf P mb ramb mbIdx batch s.cdotOut s.verticesAddedCnt s.instancesAddedCnt) } := by
  induction locs with
  | nil => intro s _; simp [attribLoop, enabledLocs]
  | cons l rest ih =>
    intro s h
    have hl := h l (List.mem_cons_self _ _)
    have hrest : ∀ l ∈ rest, AttribOK P mb ramb l := fun x hx => h x (List.mem_cons_of_mem _ hx)
    by_cases hen : attribEnabled mb l = true
    · obtain ⟨h1, h2, h3⟩ := hl hen
      obtain ⟨v, hv⟩ := Option.isSome_iff_exists.mp h2
      simp only [attribLoop, attribStep, hen, h1, hv, h3, if_false, Bool.true_eq_false]
      rw [ih _ hrest]
      simp [enabledLocs, List.filter_cons, hen, copyOf, cdotOf, runningCount, hv]
    · have hen2 : attribEnabled mb l = false := by simpa using hen
      simp only [attribLoop, attribStep, hen2, if_true]
      rw [ih _ hrest]
      simp [enabledLocs, List.filter_cons, hen2]


/-- State after the body of the batch loop ran for batch `i` without leaving `commit`. -/
def batchStepResult (P : CCPUMeshPackerV2) (mb : ICPUMeshBuffer)
    (ramb : ReservedAllocationMeshBuffers) (mbIdx i : Nat) (s : CommitState) : CommitState :=
  { s with
    attribCopies := s.attribCopies ++
      (enabledLocs mb (List.range P.MAX_ATTR_BUF_BINDING_COUNT)).map
        (copyOf P mb ramb mbIdx i s.verticesAddedCnt s.instancesAddedCnt)
    cdotStores := s.cdotStores ++
      (enabledLocs mb (List.range P.MAX_ATTR_BUF_BINDING_COUNT)).map
        (cdotOf P mb ramb mbIdx i s.cdotOut s.verticesAddedCnt s.instancesAddedCnt)
    verticesAddedCnt := (s.verticesAddedCnt + mb.usedVertices i) % USIZE
    cdotOut := s.cdotOut + 1
    mdiStores := s.mdiStores ++
      [⟨mbIdx, i, s.mdiBuffPtr,
        ⟨idxCntOf mb i, mb.getInstanceCount % U32, s.batchFirstIdx % U32, 0, 0⟩⟩]
    mdiBuffPtr := s.mdiBuffPtr + 1
    batchFirstIdx := (s.batchFirstIdx + idxCntOf mb i) % USIZE }

theorem batchStep_ok (P : CCPUMeshPackerV2) (mb : ICPUMeshBuffer)
    (ramb : ReservedAllocationMeshBuffers) (mbIdx i : Nat) (s : CommitState)
    (hok : MeshOK P mb ramb) (hi : i + 1 < mb.ranges.length) :
    batchStep P mb ramb mbIdx i s = .next (batchStepResult P mb ramb mbIdx i s) := by
  have h0 : i < mb.ranges.length := by omega
  have hloop := attribLoop_ok P mb ramb mbIdx i (List.range P.MAX_ATTR_BUF_BINDING_COUNT) s
    (fun l hl => hok l (List.mem_range.mp hl))
  simp only [batchStep, List.get?_eq_get h0, List.get?_eq_get hi, hloop, idxCntOf, boundary,
    batchStepResult]
  simp [List.getD_eq_getElem?_getD, List.getElem?_eq_getElem h0, List.getElem?_eq_getElem hi]

theorem verticesBefore_succ (mb : ICPUMeshBuffer) (i : Nat) :
    (verticesBefore mb i + mb.usedVertices i) % USIZE = verticesBefore mb (i + 1) := by
  simp [verticesBefore, sumUpTo, Nat.mod_add_mod]

theorem firstIdxOf_succ (ramb : ReservedAllocationMeshBuffers) (mb : ICPUMeshBuffer) (i : Nat) :
    (firstIdxOf ramb mb i + idxCntOf mb i) % USIZE = firstIdxOf ramb mb (i + 1) := by
  simp [firstIdxOf, sumUpTo, Nat.mod_add_mod, Nat.add_assoc]

theorem batchLoop_ok (P : CCPUMeshPackerV2) (mb : ICPUMeshBuffer)
    (ramb : ReservedAllocationMeshBuffers) (mbIdx ptr row : Nat) (hok : MeshOK P mb ramb) :
    ∀ (n i : Nat) (s : CommitState), i + n < mb.ranges.length →
      s.mdiBuffPtr = ptr + i → s.cdotOut = row + i →
      s.verticesAddedCnt = verticesBefore mb i → s.batchFirstIdx = firstIdxOf ramb mb i →
      s.instancesAddedCnt = 0 →
      ∃ s', batchLoop P mb ramb mbIdx n i s = .next s' ∧
        s'.mdiBuffPtr = ptr + (i + n) ∧ s'.cdotOut = row + (i + n) ∧
        s'.batchCntTotal = s.batchCntTotal ∧ s'.instancesAddedCnt = 0 ∧
        s'.pmbdStores = s.pmbdStores ∧
        s'.mdiStores = s.mdiStores ++ (List.range' i n).map (mdiOf mb ramb mbIdx ptr) ∧
        s'.attribCopies = s.attribCopies ++
          (List.range' i n).flatMap (copiesOfBatch P mb ramb mbIdx) ∧
        s'.cdotStores = s.cdotStores ++
          (List.range' i n).flatMap (cdotOfBatch P mb ramb mbIdx row) := by
  intro n
  induction n with
  | zero =>
    intro i s _ h1 h2 _ _ h5
    exact ⟨s, by simp [batchLoop], by simpa using h1, by simpa using h2, rfl, h5, rfl,
      by simp, by simp, by simp⟩
  | succ n ih =>
    intro i s hlen h1 h2 h3 h4 h5
    have hstep := batchStep_ok P mb ramb mbIdx i s hok (by omega)
    simp only [batchLoop, hstep]
    obtain ⟨s', hs', g1, g2, g3, g4, g5, g6, g7, g8⟩ :=
      ih (i + 1) (batchStepResult P mb ramb mbIdx i s) (by omega)
        (by simp [batchStepResult, h1]; omega) (by simp [batchStepResult, h2]; omega)
        (by simp [batchStepResult, h3, verticesBefore_succ])
        (by simp [batchStepResult, h4, firstIdxOf_succ]) (by simpa [batchStepResult] using h5)
    refine ⟨s', hs', ?_, ?_, ?_, g4, ?_, ?_, ?_, ?_⟩
    · rw [g1]; omega
    · rw [g2]; omega
    · simpa [batchStepResult] using g3
    · simpa [batchStepResult] using g5
    · rw [g6]; simp [batchStepResult, List.range'_succ, mdiOf, h1, h4]
    · rw [g7]; simp [batchStepResult, List.range'_succ, copiesOfBatch, h3, h5]
    · rw [g8]; simp [batchStepResult, List.range'_succ, cdotOfBatch, h2, h3, h5]


theorem batchCnt_lt (mb : ICPUMeshBuffer) (h : mb.ranges ≠ []) : batchCnt mb < mb.ranges.length := by
  have hpos : 1 ≤ mb.ranges.length := List.length_pos.mpr h
  simp only [batchCnt, if_pos hpos, USIZE, U32]
  omega

theorem meshStepWith_ok (P : CCPUMeshPackerV2) (rambIn : Nat → ReservedAllocationMeshBuffers)
    (i : Nat) (mb : ICPUMeshBuffer) (n : Nat) (s : CommitState)
    (hn : n < mb.ranges.length) (hok : MeshOK P mb (rambIn i)) :
    ∃ s', meshStepWith P rambIn i mb n s = .next s' ∧
      s'.mdiBuffPtr = s.mdiBuffPtr + n ∧ s'.cdotOut = s.cdotOut + n ∧
      s'.batchCntTotal = (s.batchCntTotal + n) % U32 ∧
      s'.pmbdStores = s.pmbdStores ++
        [⟨i, ⟨((rambIn 0).mdiAllocationOffset + s.batchCntTotal) % U32, n⟩⟩] ∧
      s'.mdiStores = s.mdiStores ++
        (List.range' 0 n).map (mdiOf mb (rambIn i) i s.mdiBuffPtr) ∧
      s'.attribCopies = s.attribCopies ++
        (List.range' 0 n).flatMap (copiesOfBatch P mb (rambIn i) i) ∧
      s'.cdotStores = s.cdotStores ++
        (List.range' 0 n).flatMap (cdotOfBatch P mb (rambIn i) i s.cdotOut) := by
  obtain ⟨s1, hs1, g1, g2, g3, _, g5, g6, g7, g8⟩ :=
    batchLoop_ok P mb (rambIn i) i s.mdiBuffPtr s.cdotOut hok n 0
      { s with
        batchFirstIdx := (rambIn i).indexAllocationOffset % USIZE
        verticesAddedCnt := 0
        instancesAddedCnt := 0 }
      (by omega) rfl rfl
      (by simp only [verticesBefore, sumUpTo, Nat.zero_mod])
      (by simp only [firstIdxOf, sumUpTo, Nat.add_zero]) rfl
  have hm : meshStepWith P rambIn i mb n s = .next
      { s1 with
        instancesAddedCnt := (s1.instancesAddedCnt + mb.getInstanceCount % U32) % USIZE
        pmbdStores := s1.pmbdStores ++
          [⟨i, ⟨((rambIn 0).mdiAllocationOffset + s1.batchCntTotal) % U32, n⟩⟩]
        batchCntTotal := (s1.batchCntTotal + n) % U32 } := by
    unfold meshStepWith
    dsimp only
    rw [hs1]
  refine ⟨_, hm, ?_, ?_, ?_, ?_, ?_, ?_, ?_⟩
  · simpa using g1
  · simpa using g2
  · simp [g3]
  · simp [g5, g3]
  · simpa using g6
  · simpa using g7
  · simpa using g8

theorem meshStep_ok (P : CCPUMeshPackerV2) (rambIn : Nat → ReservedAllocationMeshBuffers)
    (i : Nat) (mb : ICPUMeshBuffer) (s : CommitState)
    (hne : mb.ranges ≠ []) (hok : MeshOK P mb (rambIn i)) :
    ∃ s', meshStep P rambIn i mb s = .next s' ∧
      s'.mdiBuffPtr = s.mdiBuffPtr + batchCnt mb ∧ s'.cdotOut = s.cdotOut + batchCnt mb ∧
      s'.batchCntTotal = (s.batchCntTotal + batchCnt mb) % U32 ∧
      s'.pmbdStores = s.pmbdStores ++
        [⟨i, ⟨((rambIn 0).mdiAllocationOffset + s.batchCntTotal) % U32, batchCnt mb⟩⟩] ∧
      s'.mdiStores = s.mdiStores ++
        (List.range' 0 (batchCnt mb)).map (mdiOf mb (rambIn i) i s.mdiBuffPtr) ∧
      s'.attribCopies = s.attribCopies ++
        (List.range' 0 (batchCnt mb)).flatMap (copiesOfBatch P mb (rambIn i) i) ∧
      s'.cdotStores = s.cdotStores ++
        (List.range' 0 (batchCnt mb)).flatMap (cdotOfBatch P mb (rambIn i) i s.cdotOut) :=
  meshStepWith_ok P rambIn i mb (batchCnt mb) s (batchCnt_lt mb hne) hok

theorem meshLoop_ok (P : CCPUMeshPackerV2) (rambIn : Nat → ReservedAllocationMeshBuffers) :
    ∀ (mbs : List ICPUMeshBuffer) (i tot : Nat) (s : CommitState),
      (∀ j (h : j < mbs.length),
        (mbs.get ⟨j, h⟩).ranges ≠ [] ∧ MeshOK P (mbs.get ⟨j, h⟩) (rambIn (i + j))) →
      s.batchCntTotal = tot % U32 →
      ∃ s', meshLoop P rambIn i mbs s = .next s' ∧
        s'.batchCntTotal = (tot + totalBatches mbs) % U32 ∧
        s'.mdiBuffPtr = s.mdiBuffPtr + totalBatches mbs ∧
        s'.cdotOut = s.cdotOut + totalBatches mbs ∧
        s'.mdiStores = s.mdiStores ++ mdiStoresFrom rambIn i s.mdiBuffPtr mbs ∧
        s'.pmbdStores = s.pmbdStores ++
          pmbdStoresFrom (rambIn 0).mdiAllocationOffset i tot mbs ∧
        s'.attribCopies = s.attribCopies ++ copiesFrom P rambIn i mbs ∧
        s'.cdotStores = s.cdotStores ++ cdotStoresFrom P rambIn i s.cdotOut mbs := by
  intro mbs
  induction mbs with
  | nil =>
    intro i tot s _ htot
    exact ⟨s, by simp [meshLoop], by simpa [totalBatches] using htot, by simp [totalBatches],
      by simp [totalBatches], by simp [mdiStoresFrom], by simp [pmbdStoresFrom],
      by simp [copiesFrom], by simp [cdotStoresFrom]⟩
  | cons mb rest ih =>
    intro i tot s h htot
    have h0 := h 0 (by simp)
    obtain ⟨s1, hs1, g1, g2, g3, g4, g5, g6, g7⟩ :=
      meshStep_ok P rambIn i mb s h0.1 (by simpa using h0.2)
    have hrest : ∀ j (hj : j < rest.length),
        (rest.get ⟨j, hj⟩).ranges ≠ [] ∧ MeshOK P (rest.get ⟨j, hj⟩) (rambIn (i + 1 + j)) := by
      intro j hj
      have := h (j + 1) (by simpa using hj)
      simpa [Nat.add_assoc, Nat.add_comm 1 j] using this
    obtain ⟨s', hs', k1, k2, k3, k4, k5, k6, k7⟩ :=
      ih (i + 1) (tot + batchCnt mb) s1 hrest (by rw [g3, htot, Nat.mod_add_mod])
    have hloop : meshLoop P rambIn i (mb :: rest) s = .next s' := by
      rw [meshLoop, hs1]
      exact hs'
    refine ⟨s', hloop, ?_, ?_, ?_, ?_, ?_, ?_, ?_⟩
    · rw [k1]; simp [totalBatches, Nat.add_assoc]
    · rw [k2, g1]; simp [totalBatches, Nat.add_assoc]
    · rw [k3, g2]; simp [totalBatches, Nat.add_assoc]
    · rw [k4, g5, g1]; simp [mdiStoresFrom]
    · rw [k5, g4, htot]; simp [pmbdStoresFrom]
    · rw [k6, g6]; simp [copiesFrom]
    · rw [k7, g7, g2]; simp [cdotStoresFrom]

theorem commit_ok (P : CCPUMeshPackerV2) (rambIn : Nat → ReservedAllocationMeshBuffers)
    (mbs : List ICPUMeshBuffer) (h : NoFailure P rambIn mbs) :
    ∃ s, commit P rambIn mbs = some (totalBatches mbs % U32, s) ∧
      s.mdiBuffPtr = (rambIn 0).mdiAllocationOffset + totalBatches mbs ∧
      s.cdotOut = totalBatches mbs ∧
      s.mdiStores = mdiStoresFrom rambIn 0 (rambIn 0).mdiAllocationOffset mbs ∧
      s.pmbdStores = pmbdStoresFrom (rambIn 0).mdiAllocationOffset 0 0 mbs ∧
      s.attribCopies = copiesFrom P rambIn 0 mbs ∧
      s.cdotStores = cdotStoresFrom P rambIn 0 0 mbs := by
  obtain ⟨s, hs, g1, g2, g3, g4, g5, g6, g7⟩ :=
    meshLoop_ok P rambIn mbs 0 0 (initState rambIn) (by simpa [NoFailure] using h) rfl
  refine ⟨s, ?_, ?_, ?_, ?_, ?_, ?_, ?_⟩
  · simp [commit, commitFlow, hs, g1]
  · simpa [initState] using g2
  · simpa [initState] using g3
  · simpa [initState] using g4
  · simpa [initState] using g5
  · simpa [initState] using g6
  · simpa [initState] using g7


/-! ## The loops, when a failure branch is reached -/

/-- The attribute at `location` makes `commit` leave through a `return 0u;`: it is
enabled and its reserved offset is the sentinel, or its format is not registered. -/
def AttribBad (P : CCPUMeshPackerV2) (mb : ICPUMeshBuffer) (ramb : ReservedAllocationMeshBuffers)
    (location : Nat) : Prop :=
  attribEnabled mb location = true ∧
    ((ramb.attribAllocParams location).offset = P.INVALID_ADDRESS ∨ utbFind P mb location = none)

instance (P : CCPUMeshPackerV2) (mb : ICPUMeshBuffer) (ramb : ReservedAllocationMeshBuffers)
    (location : Nat) : Decidable (AttribBad P mb ramb location) :=
  inferInstanceAs (Decidable (attribEnabled mb location = true ∧
    ((ramb.attribAllocParams location).offset = P.INVALID_ADDRESS ∨ utbFind P mb location = none)))

/-- The mesh buffer causes no undefined behaviour: the partitioner returned at least
one boundary and every enabled attribute has a format of non-zero byte size. -/
def MeshDefined (P : CCPUMeshPackerV2) (mb : ICPUMeshBuffer) : Prop :=
  mb.ranges ≠ [] ∧
    ∀ location, location < P.MAX_ATTR_BUF_BINDING_COUNT →
      attribEnabled mb location = true → attribSizeOf P mb location ≠ 0

instance (P : CCPUMeshPackerV2) (mb : ICPUMeshBuffer) : Decidable (MeshDefined P mb) :=
  inferInstanceAs (Decidable (mb.ranges ≠ [] ∧
    ∀ location, location < P.MAX_ATTR_BUF_BINDING_COUNT →
      attribEnabled mb location = true → attribSizeOf P mb location ≠ 0))

/-- The fields of the state that the attribute loop leaves alone. -/
def SameOutside (s s' : CommitState) : Prop :=
  s'.mdiStores = s.mdiStores ∧ s'.pmbdStores = s.pmbdStores ∧ s'.mdiBuffPtr = s.mdiBuffPtr ∧
    s'.cdotOut = s.cdotOut ∧ s'.batchCntTotal = s.batchCntTotal

theorem attribStep_cases (P : CCPUMeshPackerV2) (mb : ICPUMeshBuffer)
    (ramb : ReservedAllocationMeshBuffers) (mbIdx batch l : Nat) (s : CommitState)
    (hsize : attribEnabled mb l = true → attribSizeOf P mb l ≠ 0) :
    (AttribBad P mb ramb l ∧ ∃ s', attribStep P mb ramb mbIdx batch l s = .fail s' ∧ SameOutside s s') ∨
    (¬ AttribBad P mb ramb l ∧ ∃ s', attribStep P mb ramb mbIdx batch l s = .next s' ∧ SameOutside s s') := by
  by_cases hen : attribEnabled mb l = true
  · by_cases hoff : (ramb.attribAllocParams l).offset = P.INVALID_ADDRESS
    · left
      refine ⟨⟨hen, Or.inl hoff⟩, ?_⟩
      simp only [attribStep, hen, hoff, if_true, Bool.true_eq_false, if_false]
      exact ⟨_, rfl, rfl, rfl, rfl, rfl, rfl⟩
    · cases hfind : utbFind P mb l with
      | none =>
        left
        refine ⟨⟨hen, Or.inr hfind⟩, ?_⟩
        simp only [attribStep, hen, hoff, hfind, Bool.true_eq_false, if_false]
        exact ⟨_, rfl, rfl, rfl, rfl, rfl, rfl⟩
      | some v =>
        right
        refine ⟨?_, ?_⟩
        · rintro ⟨_, h | h⟩
          · exact hoff h
          · rw [hfind] at h; cases h
        · simp only [attribStep, hen, hoff, hfind, hsize hen, Bool.true_eq_false, if_false]
          exact ⟨_, rfl, rfl, rfl, rfl, rfl, rfl⟩
  · right
    have hen2 : attribEnabled mb l = false := by simpa using hen
    refine ⟨fun h => hen h.1, ?_⟩
    simp only [attribStep, hen2, if_true]
    exact ⟨_, rfl, rfl, rfl, rfl, rfl, rfl⟩

theorem SameOutside.trans {a b c : CommitState} (h1 : SameOutside a b) (h2 : SameOutside b c) :
    SameOutside a c := by
  obtain ⟨a1, a2, a3, a4, a5⟩ := h1
  obtain ⟨b1, b2, b3, b4, b5⟩ := h2
  exact ⟨b1.trans a1, b2.trans a2, b3.trans a3, b4.trans a4, b5.trans a5⟩

theorem attribLoop_cases (P : CCPUMeshPackerV2) (mb : ICPUMeshBuffer)
    (ramb : ReservedAllocationMeshBuffers) (mbIdx batch : Nat) (locs : List Nat) :
    ∀ s : CommitState, (∀ l ∈ locs, attribEnabled mb l = true → attribSizeOf P mb l ≠ 0) →
      ((∃ l ∈ locs, AttribBad P mb ramb l) ∧
        ∃ s', attribLoop P mb ramb mbIdx batch locs s = .fail s' ∧ SameOutside s s') ∨
      ((∀ l ∈ locs, ¬ AttribBad P mb ramb l) ∧
        ∃ s', attribLoop P mb ramb mbIdx batch locs s = .next s' ∧ SameOutside s s') := by
  induction locs with
  | nil =>
    intro s _
    right
    exact ⟨by simp, s, by simp [attribLoop], rfl, rfl, rfl, rfl, rfl⟩
  | cons l rest ih =>
    intro s h
    rcases attribStep_cases P mb ramb mbIdx batch l s (h l (List.mem_cons_self _ _)) with
      ⟨hbad, s1, hs1, hsame⟩ | ⟨hgood, s1, hs1, hsame⟩
    · left
      exact ⟨⟨l, List.mem_cons_self _ _, hbad⟩, s1, by simp only [attribLoop, hs1], hsame⟩
    · rcases ih s1 (fun x hx => h x (List.mem_cons_of_mem _ hx)) with
        ⟨⟨x, hx, hxbad⟩, s2, hs2, hsame2⟩ | ⟨hall, s2, hs2, hsame2⟩
      · left
        exact ⟨⟨x, List.mem_cons_of_mem _ hx, hxbad⟩, s2, by simp only [attribLoop, hs1, hs2],
          hsame.trans hsame2⟩
      · right
        refine ⟨?_, s2, by simp only [attribLoop, hs1, hs2], hsame.trans hsame2⟩
        intro x hx
        rcases List.mem_cons.mp hx with rfl | hx'
        · exact hgood
        · exact hall x hx'

/-- Some attribute slot of the mesh buffer makes `commit` leave through `return 0u;`. -/
def MeshBad (P : CCPUMeshPackerV2) (mb : ICPUMeshBuffer) (ramb : ReservedAllocationMeshBuffers) : Prop :=
  ∃ location, location < P.MAX_ATTR_BUF_BINDING_COUNT ∧ AttribBad P mb ramb location

instance (P : CCPUMeshPackerV2) (mb : ICPUMeshBuffer) (ramb : ReservedAllocationMeshBuffers) :
    Decidable (MeshBad P mb ramb) :=
  inferInstanceAs (Decidable
    (∃ location, location < P.MAX_ATTR_BUF_BINDING_COUNT ∧ AttribBad P mb ramb location))

theorem batchStep_cases (P : CCPUMeshPackerV2) (mb : ICPUMeshBuffer)
    (ramb : ReservedAllocationMeshBuffers) (mbIdx i : Nat) (s : CommitState)
    (hdef : MeshDefined P mb) (hi : i + 1 < mb.ranges.length) :
    (MeshBad P mb ramb ∧ ∃ s', batchStep P mb ramb mbIdx i s = .fail s' ∧ s'.mdiStores = s.mdiStores) ∨
    (¬ MeshBad P mb ramb ∧ ∃ s', batchStep P mb ramb mbIdx i s = .next s') := by
  have h0 : i < mb.ranges.length := by omega
  rcases attribLoop_cases P mb ramb mbIdx i (List.range P.MAX_ATTR_BUF_BINDING_COUNT) s
      (fun l hl => hdef.2 l (List.mem_range.mp hl)) with
    ⟨⟨l, hl, hbad⟩, s1, hs1, hsame⟩ | ⟨hall, s1, hs1, _⟩
  · left
    refine ⟨⟨l, List.mem_range.mp hl, hbad⟩, s1, ?_, hsame.1⟩
    simp only [batchStep, List.get?_eq_get h0, List.get?_eq_get hi, hs1]
  · right
    refine ⟨?_, ?_⟩
    · rintro ⟨l, hl, hbad⟩
      exact hall l (List.mem_range.mpr hl) hbad
    · simp only [batchStep, List.get?_eq_get h0, List.get?_eq_get hi, hs1]
      exact ⟨_, rfl⟩

theorem batchLoop_cases (P : CCPUMeshPackerV2) (mb : ICPUMeshBuffer)
    (ramb : ReservedAllocationMeshBuffers) (mbIdx : Nat) (hdef : MeshDefined P mb) :
    ∀ (n i : Nat) (s : CommitState), i + n < mb.ranges.length →
      (MeshBad P mb ramb ∧ 1 ≤ n ∧
        ∃ s', batchLoop P mb ramb mbIdx n i s = .fail s' ∧ s'.mdiStores = s.mdiStores) ∨
      ((¬ MeshBad P mb ramb ∨ n = 0) ∧ ∃ s', batchLoop P mb ramb mbIdx n i s = .next s') := by
  intro n
  induction n with
  | zero =>
    intro i s _
    right
    exact ⟨Or.inr rfl, s, by simp [batchLoop]⟩
  | succ n ih =>
    intro i s hlen
    rcases batchStep_cases P mb ramb mbIdx i s hdef (by omega) with
      ⟨hbad, s1, hs1, hst⟩ | ⟨hgood, s1, hs1⟩
    · left
      exact ⟨hbad, by omega, s1, by simp only [batchLoop, hs1], hst⟩
    · right
      rcases ih (i + 1) s1 (by omega) with ⟨hbad, _, _⟩ | ⟨_, s2, hs2⟩
      · exact absurd hbad hgood
      · exact ⟨Or.inl hgood, s2, by simp only [batchLoop, hs1, hs2]⟩

theorem meshStepWith_cases (P : CCPUMeshPackerV2) (rambIn : Nat → ReservedAllocationMeshBuffers)
    (i : Nat) (mb : ICPUMeshBuffer) (n : Nat) (s : CommitState)
    (hdef : MeshDefined P mb) (hn : n < mb.ranges.length) :
    (MeshBad P mb (rambIn i) ∧ 1 ≤ n ∧
      ∃ s', meshStepWith P rambIn i mb n s = .fail s' ∧ s'.mdiStores = s.mdiStores) ∨
    ((¬ MeshBad P mb (rambIn i) ∨ n = 0) ∧ ∃ s', meshStepWith P rambIn i mb n s = .next s') := by
  rcases batchLoop_cases P mb (rambIn i) i hdef n 0
      { s with
        batchFirstIdx := (rambIn i).indexAllocationOffset % USIZE
        verticesAddedCnt := 0
        instancesAddedCnt := 0 } (by omega) with
    ⟨hbad, hn1, s1, hs1, hst⟩ | ⟨hgood, s1, hs1⟩
  · left
    refine ⟨hbad, hn1, s1, ?_, hst⟩
    unfold meshStepWith
    dsimp only
    rw [hs1]
  · right
    refine ⟨hgood, ?_⟩
    unfold meshStepWith
    dsimp only
    rw [hs1]
    exact ⟨_, rfl⟩

theorem meshStep_cases (P : CCPUMeshPackerV2) (rambIn : Nat → ReservedAllocationMeshBuffers)
    (i : Nat) (mb : ICPUMeshBuffer) (s : CommitState) (hdef : MeshDefined P mb) :
    (MeshBad P mb (rambIn i) ∧ 1 ≤ batchCnt mb ∧
      ∃ s', meshStep P rambIn i mb s = .fail s' ∧ s'.mdiStores = s.mdiStores) ∨
    ((¬ MeshBad P mb (rambIn i) ∨ batchCnt mb = 0) ∧ ∃ s', meshStep P rambIn i mb s = .next s') :=
  meshStepWith_cases P rambIn i mb (batchCnt mb) s hdef (batchCnt_lt mb hdef.1)

theorem meshLoop_fail_of_bad (P : CCPUMeshPackerV2) (rambIn : Nat → ReservedAllocationMeshBuffers) :
    ∀ (mbs : List ICPUMeshBuffer) (i : Nat) (s : CommitState),
      (∀ mb ∈ mbs, MeshDefined P mb) →
      (∃ j, ∃ hj : j < mbs.length,
        MeshBad P (mbs.get ⟨j, hj⟩) (rambIn (i + j)) ∧ 1 ≤ batchCnt (mbs.get ⟨j, hj⟩)) →
      ∃ s', meshLoop P rambIn i mbs s = .fail s' := by
  intro mbs
  induction mbs with
  | nil =>
    rintro i s _ ⟨j, hj, _⟩
    simp at hj
  | cons mb rest ih =>
    rintro i s hdef ⟨j, hj, hbad, hcnt⟩
    rcases meshStep_cases P rambIn i mb s (hdef mb (List.mem_cons_self _ _)) with
      ⟨_, _, s1, hs1, _⟩ | ⟨hgood, s1, hs1⟩
    · exact ⟨s1, by rw [meshLoop, hs1]⟩
    · cases j with
      | zero =>
        exfalso
        rcases hgood with h | h
        · exact h (by simpa using hbad)
        · have : 1 ≤ batchCnt mb := by simpa using hcnt
          omega
      | succ j =>
        obtain ⟨s2, hs2⟩ := ih (i + 1) s1 (fun x hx => hdef x (List.mem_cons_of_mem _ hx))
          ⟨j, by simpa using hj, by simpa [Nat.add_assoc, Nat.add_comm 1 j] using hbad,
            by simpa using hcnt⟩
        exact ⟨s2, by rw [meshLoop, hs1]; exact hs2⟩

theorem meshLoop_fail_at (P : CCPUMeshPackerV2) (rambIn : Nat → ReservedAllocationMeshBuffers) :
    ∀ (mbs : List ICPUMeshBuffer) (i : Nat) (s : CommitState) (j : Nat) (hj : j < mbs.length),
      (∀ k (hk : k < j), (mbs.get ⟨k, by omega⟩).ranges ≠ [] ∧
        MeshOK P (mbs.get ⟨k, by omega⟩) (rambIn (i + k))) →
      MeshDefined P (mbs.get ⟨j, hj⟩) →
      MeshBad P (mbs.get ⟨j, hj⟩) (rambIn (i + j)) → 1 ≤ batchCnt (mbs.get ⟨j, hj⟩) →
      ∃ s', meshLoop P rambIn i mbs s = .fail s' ∧
        s'.mdiStores = s.mdiStores ++ mdiStoresFrom rambIn i s.mdiBuffPtr (mbs.take j) := by
  intro mbs
  induction mbs with
  | nil => intro i s j hj; simp at hj
  | cons mb rest ih =>
    intro i s j hj hpre hdef hbad hcnt
    cases j with
    | zero =>
      rcases meshStep_cases P rambIn i mb s (by simpa using hdef) with
        ⟨_, _, s1, hs1, hst⟩ | ⟨hgood, _, _⟩
      · exact ⟨s1, by rw [meshLoop, hs1], by simp [hst, mdiStoresFrom]⟩
      · exfalso
        rcases hgood with h | h
        · exact h (by simpa using hbad)
        · have : 1 ≤ batchCnt mb := by simpa using hcnt
          omega
    | succ j =>
      have h0 := hpre 0 (by omega)
      obtain ⟨s1, hs1, g1, _, _, _, g5, _, _⟩ :=
        meshStep_ok P rambIn i mb s (by simpa using h0.1) (by simpa using h0.2)
      obtain ⟨s2, hs2, hst⟩ := ih (i + 1) s1 j (by simpa using hj)
        (fun k hk => by
          have := hpre (k + 1) (by omega)
          simpa [Nat.add_assoc, Nat.add_comm 1 k] using this)
        (by simpa using hdef)
        (by simpa [Nat.add_assoc, Nat.add_comm 1 j] using hbad) (by simpa using hcnt)
      refine ⟨s2, by rw [meshLoop, hs1]; exact hs2, ?_⟩
      rw [hst, g5, g1]
      simp [mdiStoresFrom]

theorem mdiBufferAfter_nil (buf : Nat → MDIStruct) : mdiBufferAfter buf [] = buf := by
  funext slot
  rfl

/-! ## Counting batches -/

theorem batchCnt_eq (mb : ICPUMeshBuffer) (h : mb.ranges ≠ []) (hfit : mb.ranges.length - 1 < U32) :
    batchCnt mb = mb.ranges.length - 1 := by
  have hpos : 1 ≤ mb.ranges.length := List.length_pos.mpr h
  simp only [batchCnt, if_pos hpos, USIZE, U32] at *
  omega

theorem totalBatches_eq (mbs : List ICPUMeshBuffer) (h : ∀ mb ∈ mbs, mb.ranges ≠ [])
    (hfit : numBatches mbs < U32) : totalBatches mbs = numBatches mbs := by
  induction mbs with
  | nil => rfl
  | cons mb rest ih =>
    have h1 : numBatches (mb :: rest) = (mb.ranges.length - 1) + numBatches rest := by
      simp [numBatches]
    have h2 : totalBatches (mb :: rest) = batchCnt mb + totalBatches rest := by
      simp [totalBatches]
    rw [h1] at hfit
    rw [h1, h2, ih (fun x hx => h x (List.mem_cons_of_mem _ hx)) (by omega),
      batchCnt_eq mb (h mb (List.mem_cons_self _ _)) (by omega)]

theorem NoFailure.ranges_ne {P : CCPUMeshPackerV2} {rambIn : Nat → ReservedAllocationMeshBuffers}
    {mbs : List ICPUMeshBuffer} (h : NoFailure P rambIn mbs) : ∀ mb ∈ mbs, mb.ranges ≠ [] := by
  intro mb hmb
  obtain ⟨n, hn⟩ := List.mem_iff_get.mp hmb
  rw [← hn]
  exact (h n.1 n.2).1

theorem length_mdiStoresFrom (rambIn : Nat → ReservedAllocationMeshBuffers) :
    ∀ (mbs : List ICPUMeshBuffer) (i ptr : Nat),
      (mdiStoresFrom rambIn i ptr mbs).length = totalBatches mbs := by
  intro mbs
  induction mbs with
  | nil => intro i ptr; rfl
  | cons mb rest ih => intro i ptr; simp [mdiStoresFrom, totalBatches, ih]

/-! ## Claims -/

/-- C1: on a range on which `commit` reaches no failure branch, `commit` returns the
number of batches of the range, the sum over its mesh buffers of the number of
batch boundaries minus one (a number that fits the `uint32_t` result), and this is
the number of indirect-draw commands it stored. -/
theorem commit_returns_total_batches (P : CCPUMeshPackerV2)
    (rambIn : Nat → ReservedAllocationMeshBuffers) (mbs : List ICPUMeshBuffer)
    (h : NoFailure P rambIn mbs) (hfit : numBatches mbs < U32) :
    ∃ s, commit P rambIn mbs = some (numBatches mbs, s) ∧
      s.mdiStores.length = numBatches mbs := by
  obtain ⟨s, hs, _, _, g3, _⟩ := commit_ok P rambIn mbs h
  have htot := totalBatches_eq mbs h.ranges_ne hfit
  refine ⟨s, ?_, ?_⟩
  · rw [hs, htot, Nat.mod_eq_of_lt hfit]
  · rw [g3, length_mdiStoresFrom, htot]

/-- Witness of C1: two mesh buffers with two batches each. -/
theorem commit_returns_total_batches_witness :
    NoFailure examplePacker exampleRamb
        [exampleMesh 1 .EVIR_PER_VERTEX [0, 2, 5], exampleMesh 1 .EVIR_PER_INSTANCE [0, 1, 2]] ∧
      numBatches
        [exampleMesh 1 .EVIR_PER_VERTEX [0, 2, 5], exampleMesh 1 .EVIR_PER_INSTANCE [0, 1, 2]] < U32 ∧
      ∃ s, commit examplePacker exampleRamb
          [exampleMesh 1 .EVIR_PER_VERTEX [0, 2, 5], exampleMesh 1 .EVIR_PER_INSTANCE [0, 1, 2]] =
            some (numBatches
              [exampleMesh 1 .EVIR_PER_VERTEX [0, 2, 5], exampleMesh 1 .EVIR_PER_INSTANCE [0, 1, 2]], s) ∧
        s.mdiStores.length = numBatches
          [exampleMesh 1 .EVIR_PER_VERTEX [0, 2, 5], exampleMesh 1 .EVIR_PER_INSTANCE [0, 1, 2]] :=
  ⟨by decide, by decide, commit_returns_total_batches _ _ _ (by decide) (by decide)⟩


/-- C8: on an empty range `commit` returns `0` and stores no descriptor, no
offset-table entry and no indirect-draw command (and issues no copy). -/
theorem commit_empty_range (P : CCPUMeshPackerV2) (rambIn : Nat → ReservedAllocationMeshBuffers) :
    ∃ s, commit P rambIn [] = some (0, s) ∧
      s.pmbdStores = [] ∧ s.cdotStores = [] ∧ s.mdiStores = [] ∧ s.attribCopies = [] ∧
      s.cdotOut = 0 ∧ s.mdiBuffPtr = (rambIn 0).mdiAllocationOffset :=
  ⟨initState rambIn, rfl, rfl, rfl, rfl, rfl, rfl, rfl⟩

/-- C10 (the code at the failing input): a mesh buffer with two batches and a
per-instance attribute of four bytes at reserved offset `100`, one instance.  Both
batches copy the attribute to byte `100`: `instancesAddedCnt` is `0` in every batch. -/
theorem commit_perInstance_batches_share_destination :
    (commit examplePacker exampleRamb [exampleMesh 1 .EVIR_PER_INSTANCE [0, 1, 2]]).map
        (fun r => r.2.attribCopies) =
      some [⟨0, 0, 0, .EVIR_PER_INSTANCE, 100⟩, ⟨0, 1, 0, .EVIR_PER_INSTANCE, 100⟩] := by
  decide


/-- C5, counterexample: the second mesh buffer of the range has its enabled attribute
`0` reserved at the sentinel, but it has no batch; `commit` returns `1`, not `0`. -/
theorem commit_invalid_offset_unchecked_without_batches :
    attribEnabled ((rangeWithEmptyMesh 1).get ⟨1, by decide⟩) 0 = true ∧
      ((rambWithInvalid 1 1).attribAllocParams 0).offset = examplePacker.INVALID_ADDRESS ∧
      (commit examplePacker (rambWithInvalid 1) (rangeWithEmptyMesh 1)).map Prod.fst = some 1 := by
  decide

/-- C5, amended: if a mesh buffer of the range whose batch loop runs at least once has
an enabled attribute slot reserved at the sentinel, `commit` returns `0`, provided no
mesh buffer of the range makes the behaviour undefined. -/
theorem commit_returns_zero_of_invalid_offset (P : CCPUMeshPackerV2)
    (rambIn : Nat → ReservedAllocationMeshBuffers) (mbs : List ICPUMeshBuffer)
    (hdef : ∀ mb ∈ mbs, MeshDefined P mb) (j : Nat) (hj : j < mbs.length)
    (hcnt : 1 ≤ batchCnt (mbs.get ⟨j, hj⟩))
    (location : Nat) (hloc : location < P.MAX_ATTR_BUF_BINDING_COUNT)
    (hen : attribEnabled (mbs.get ⟨j, hj⟩) location = true)
    (hoff : ((rambIn j).attribAllocParams location).offset = P.INVALID_ADDRESS) :
    ∃ s, commit P rambIn mbs = some (0, s) := by
  obtain ⟨s, hs⟩ := meshLoop_fail_of_bad P rambIn mbs 0 (initState rambIn) hdef
    ⟨j, hj, ⟨location, hloc, hen, Or.inl (by simpa using hoff)⟩, hcnt⟩
  exact ⟨s, by simp [commit, commitFlow, hs]⟩

/-- Witness of C5, amended: the second mesh buffer has one batch and its attribute is
reserved at the sentinel. -/
theorem commit_returns_zero_of_invalid_offset_witness :
    (∀ mb ∈ rangeOfTwo 1, MeshDefined examplePacker mb) ∧
      ((rambWithInvalid 1 1).attribAllocParams 0).offset = examplePacker.INVALID_ADDRESS ∧
      ∃ s, commit examplePacker (rambWithInvalid 1) (rangeOfTwo 1) = some (0, s) :=
  ⟨by decide, by decide,
    commit_returns_zero_of_invalid_offset examplePacker (rambWithInvalid 1) (rangeOfTwo 1)
      (by decide) 1 (by decide) (by decide) 0 (by decide) (by decide) (by decide)⟩

/-- C6, counterexample: the second mesh buffer of the range has its enabled attribute
`0` in the unregistered format `2`, but it has no batch; `commit` returns `1`, not `0`. -/
theorem commit_unregistered_format_unchecked_without_batches :
    attribEnabled ((rangeWithEmptyMesh 2).get ⟨1, by decide⟩) 0 = true ∧
      utbFind examplePacker ((rangeWithEmptyMesh 2).get ⟨1, by decide⟩) 0 = none ∧
      (commit examplePacker exampleRamb (rangeWithEmptyMesh 2)).map Prod.fst = some 1 := by
  decide

/-- C6, amended: if a mesh buffer of the range whose batch loop runs at least once has
an enabled attribute whose format has no entry in the table selected for it, `commit`
returns `0`, provided no mesh buffer of the range makes the behaviour undefined. -/
theorem commit_returns_zero_of_unregistered_format (P : CCPUMeshPackerV2)
    (rambIn : Nat → ReservedAllocationMeshBuffers) (mbs : List ICPUMeshBuffer)
    (hdef : ∀ mb ∈ mbs, MeshDefined P mb) (j : Nat) (hj : j < mbs.length)
    (hcnt : 1 ≤ batchCnt (mbs.get ⟨j, hj⟩))
    (location : Nat) (hloc : location < P.MAX_ATTR_BUF_BINDING_COUNT)
    (hen : attribEnabled (mbs.get ⟨j, hj⟩) location = true)
    (hfind : utbFind P (mbs.get ⟨j, hj⟩) location = none) :
    ∃ s, commit P rambIn mbs = some (0, s) := by
  obtain ⟨s, hs⟩ := meshLoop_fail_of_bad P rambIn mbs 0 (initState rambIn) hdef
    ⟨j, hj, ⟨location, hloc, hen, Or.inr hfind⟩, hcnt⟩
  exact ⟨s, by simp [commit, commitFlow, hs]⟩

/-- Witness of C6, amended: the second mesh buffer has one batch and its attribute has
the unregistered format `2`. -/
theorem commit_returns_zero_of_unregistered_format_witness :
    (∀ mb ∈ rangeOfTwo 2, MeshDefined examplePacker mb) ∧
      utbFind examplePacker ((rangeOfTwo 2).get ⟨1, by decide⟩) 0 = none ∧
      ∃ s, commit examplePacker exampleRamb (rangeOfTwo 2) = some (0, s) :=
  ⟨by decide, by decide,
    commit_returns_zero_of_unregistered_format examplePacker exampleRamb (rangeOfTwo 2)
      (by decide) 1 (by decide) (by decide) 0 (by decide) (by decide) (by decide)⟩

/-- C7, counterexample: the second mesh buffer fails (unregistered format) after the
first one has been processed; `commit` returns `0`, yet one indirect-draw command has
been stored, and slot `5` of a buffer that held zeros now holds a command of count `3`. -/
theorem commit_failure_leaves_earlier_commands :
    (commit examplePacker exampleRamb (rangeOfTwo 2)).map
        (fun r => (r.1, r.2.mdiStores, mdiBufferAfter zeroMDIBuffer r.2.mdiStores 5)) =
      some (0, [⟨0, 0, 5, ⟨3, 1, 10, 0, 0⟩⟩], ⟨3, 1, 10, 0, 0⟩) ∧
      zeroMDIBuffer 5 = ⟨0, 0, 0, 0, 0⟩ := by
  decide

/-- C7, amended: when `commit` returns `0` because mesh buffer `j` reaches a failure
branch, the mesh buffers before it having reached none, the indirect-draw commands it
has stored are exactly those of the mesh buffers before `j`, one per batch; when these
have no batch (in particular when `j` is the first of the range) nothing has been
stored and the indirect-draw buffer is the same as before the call. -/
theorem commit_failure_keeps_commands_of_earlier_meshes (P : CCPUMeshPackerV2)
    (rambIn : Nat → ReservedAllocationMeshBuffers) (mbs : List ICPUMeshBuffer)
    (j : Nat) (hj : j < mbs.length)
    (hpre : ∀ k (hk : k < j), (mbs.get ⟨k, by omega⟩).ranges ≠ [] ∧
      MeshOK P (mbs.get ⟨k, by omega⟩) (rambIn k))
    (hdef : MeshDefined P (mbs.get ⟨j, hj⟩))
    (hbad : MeshBad P (mbs.get ⟨j, hj⟩) (rambIn j)) (hcnt : 1 ≤ batchCnt (mbs.get ⟨j, hj⟩)) :
    ∃ s, commit P rambIn mbs = some (0, s) ∧
      s.mdiStores = mdiStoresFrom rambIn 0 (rambIn 0).mdiAllocationOffset (mbs.take j) ∧
      s.mdiStores.length = totalBatches (mbs.take j) ∧
      (totalBatches (mbs.take j) = 0 → ∀ buf, mdiBufferAfter buf s.mdiStores = buf) := by
  obtain ⟨s, hs, hst⟩ := meshLoop_fail_at P rambIn mbs 0 (initState rambIn) j hj
    (fun k hk => by simpa using hpre k hk) hdef (by simpa using hbad) hcnt
  have hst' : s.mdiStores = mdiStoresFrom rambIn 0 (rambIn 0).mdiAllocationOffset (mbs.take j) := by
    simpa [initState] using hst
  have hlen : s.mdiStores.length = totalBatches (mbs.take j) := by
    rw [hst', length_mdiStoresFrom]
  refine ⟨s, by simp [commit, commitFlow, hs], hst', hlen, ?_⟩
  intro h0 buf
  have hnil : s.mdiStores = [] := List.length_eq_zero.mp (by rw [hlen, h0])
  rw [hnil, mdiBufferAfter_nil]

/-- Witness of C7, amended: the second mesh buffer fails after the first has stored
its single command. -/
theorem commit_failure_keeps_commands_of_earlier_meshes_witness :
    MeshBad examplePacker ((rangeOfTwo 2).get ⟨1, by decide⟩) (exampleRamb 1) ∧
      ∃ s, commit examplePacker exampleRamb (rangeOfTwo 2) = some (0, s) ∧
        s.mdiStores = mdiStoresFrom exampleRamb 0 (exampleRamb 0).mdiAllocationOffset
          ((rangeOfTwo 2).take 1) ∧
        s.mdiStores.length = totalBatches ((rangeOfTwo 2).take 1) ∧
        (totalBatches ((rangeOfTwo 2).take 1) = 0 →
          ∀ buf, mdiBufferAfter buf s.mdiStores = buf) :=
  ⟨by decide,
    commit_failure_keeps_commands_of_earlier_meshes examplePacker exampleRamb (rangeOfTwo 2)
      1 (by decide) (by decide) (by decide) (by decide) (by decide)⟩


/-! ## Reading the closed forms -/

theorem totalBatches_cons (mb : ICPUMeshBuffer) (rest : List ICPUMeshBuffer) :
    totalBatches (mb :: rest) = batchCnt mb + totalBatches rest := by
  simp [totalBatches]

theorem mem_mdiStoresFrom (rambIn : Nat → ReservedAllocationMeshBuffers) :
    ∀ (mbs : List ICPUMeshBuffer) (i ptr : Nat) (e : MDIStore),
      e ∈ mdiStoresFrom rambIn i ptr mbs ↔
        ∃ j, ∃ hj : j < mbs.length, ∃ b, b < batchCnt (mbs.get ⟨j, hj⟩) ∧
          e = mdiOf (mbs.get ⟨j, hj⟩) (rambIn (i + j)) (i + j)
            (ptr + totalBatches (mbs.take j)) b := by
  intro mbs
  induction mbs with
  | nil => intro i ptr e; simp [mdiStoresFrom]
  | cons mb rest ih =>
    intro i ptr e
    simp only [mdiStoresFrom, List.mem_append, List.mem_map, List.mem_range'_1, ih]
    constructor
    · rintro (⟨b, ⟨_, hb⟩, rfl⟩ | ⟨j, hj, b, hb, rfl⟩)
      · exact ⟨0, by simp, b, by simpa using hb, by simp [totalBatches]⟩
      · refine ⟨j + 1, by simpa using hj, b, by simpa using hb, ?_⟩
        simp [totalBatches_cons, Nat.add_assoc, Nat.add_comm 1 j]
    · rintro ⟨j, hj, b, hb, rfl⟩
      cases j with
      | zero =>
        left
        exact ⟨b, ⟨Nat.zero_le _, by simpa using hb⟩, by simp [totalBatches]⟩
      | succ j =>
        right
        refine ⟨j, by simpa using hj, b, by simpa using hb, ?_⟩
        simp [totalBatches_cons, Nat.add_assoc, Nat.add_comm 1 j]

theorem mem_copiesFrom (P : CCPUMeshPackerV2) (rambIn : Nat → ReservedAllocationMeshBuffers) :
    ∀ (mbs : List ICPUMeshBuffer) (i : Nat) (c : AttribCopy),
      c ∈ copiesFrom P rambIn i mbs ↔
        ∃ j, ∃ hj : j < mbs.length, ∃ b, b < batchCnt (mbs.get ⟨j, hj⟩) ∧
          c ∈ copiesOfBatch P (mbs.get ⟨j, hj⟩) (rambIn (i + j)) (i + j) b := by
  intro mbs
  induction mbs with
  | nil => intro i c; simp [copiesFrom]
  | cons mb rest ih =>
    intro i c
    simp only [copiesFrom, List.mem_append, List.mem_flatMap, List.mem_range'_1, ih]
    constructor
    · rintro (⟨b, ⟨_, hb⟩, hc⟩ | ⟨j, hj, b, hb, hc⟩)
      · exact ⟨0, by simp, b, by simpa using hb, by simpa using hc⟩
      · refine ⟨j + 1, by simpa using hj, b, by simpa using hb, ?_⟩
        simpa [Nat.add_assoc, Nat.add_comm 1 j] using hc
    · rintro ⟨j, hj, b, hb, hc⟩
      cases j with
      | zero =>
        left
        exact ⟨b, ⟨Nat.zero_le _, by simpa using hb⟩, by simpa using hc⟩
      | succ j =>
        right
        refine ⟨j, by simpa using hj, b, by simpa using hb, ?_⟩
        simpa [Nat.add_assoc, Nat.add_comm 1 j] using hc

theorem mem_cdotStoresFrom (P : CCPUMeshPackerV2) (rambIn : Nat → ReservedAllocationMeshBuffers) :
    ∀ (mbs : List ICPUMeshBuffer) (i row : Nat) (d : CDOTStore),
      d ∈ cdotStoresFrom P rambIn i row mbs ↔
        ∃ j, ∃ hj : j < mbs.length, ∃ b, b < batchCnt (mbs.get ⟨j, hj⟩) ∧
          d ∈ cdotOfBatch P (mbs.get ⟨j, hj⟩) (rambIn (i + j)) (i + j)
            (row + totalBatches (mbs.take j)) b := by
  intro mbs
  induction mbs with
  | nil => intro i row d; simp [cdotStoresFrom]
  | cons mb rest ih =>
    intro i row d
    simp only [cdotStoresFrom, List.mem_append, List.mem_flatMap, List.mem_range'_1, ih]
    constructor
    · rintro (⟨b, ⟨_, hb⟩, hc⟩ | ⟨j, hj, b, hb, hc⟩)
      · exact ⟨0, by simp, b, by simpa using hb, by simpa [totalBatches] using hc⟩
      · refine ⟨j + 1, by simpa using hj, b, by simpa using hb, ?_⟩
        simpa [totalBatches_cons, Nat.add_assoc, Nat.add_comm 1 j] using hc
    · rintro ⟨j, hj, b, hb, hc⟩
      cases j with
      | zero =>
        left
        exact ⟨b, ⟨Nat.zero_le _, by simpa using hb⟩, by simpa [totalBatches] using hc⟩
      | succ j =>
        right
        refine ⟨j, by simpa using hj, b, by simpa using hb, ?_⟩
        simpa [totalBatches_cons, Nat.add_assoc, Nat.add_comm 1 j] using hc


/-! ## Triangles and index counts -/

theorem Partitioned.mono {mb : ICPUMeshBuffer} (h : Partitioned mb) :
    ∀ n b, b + n < mb.ranges.length → boundary mb b ≤ boundary mb (b + n) := by
  intro n
  induction n with
  | zero => intro b _; exact Nat.le_refl _
  | succ n ih =>
    intro b hb
    have h1 := ih b (by omega)
    have h2 := h.2.2 (b + n) (by omega)
    exact Nat.le_trans h1 (by simpa [boundary, Nat.add_assoc] using h2)

theorem Partitioned.le_count {mb : ICPUMeshBuffer} (h : Partitioned mb) (b : Nat)
    (hb : b < mb.ranges.length) : boundary mb b ≤ mb.triangleCount := by
  have h1 := h.mono (mb.ranges.length - 1 - b) b (by omega)
  have h2 : b + (mb.ranges.length - 1 - b) = mb.ranges.length - 1 := by omega
  rw [h2] at h1
  have h3 := h.2.1
  simp only [boundary] at h1 ⊢
  omega

theorem triangleInBatchCnt_eq (a c : Nat) (hac : a ≤ c) (hfit : c - a < U32) :
    triangleInBatchCnt a c = c - a := by
  simp only [triangleInBatchCnt, U32] at *
  omega

theorem idxCntOf_eq {mb : ICPUMeshBuffer} (h : Partitioned mb) (hfit : 3 * mb.triangleCount < U32)
    (b : Nat) (hb : b + 1 < mb.ranges.length) :
    idxCntOf mb b = 3 * (boundary mb (b + 1) - boundary mb b) := by
  have h1 := h.mono 1 b hb
  have h2 := h.le_count (b + 1) hb
  have h3 : boundary mb (b + 1) - boundary mb b < U32 := by
    simp only [U32] at *
    omega
  simp only [idxCntOf, triangleInBatchCnt_eq _ _ h1 h3]
  apply Nat.mod_eq_of_lt
  simp only [U32] at *
  omega

theorem sumUpTo_idxCntOf {mb : ICPUMeshBuffer} (h : Partitioned mb)
    (hfit : 3 * mb.triangleCount < U32) :
    ∀ n, n < mb.ranges.length → sumUpTo (idxCntOf mb) n = 3 * boundary mb n := by
  intro n
  induction n with
  | zero =>
    intro _
    have := h.1
    simp only [sumUpTo, boundary]
    omega
  | succ n ih =>
    intro hn
    have h1 := h.mono 1 n hn
    rw [sumUpTo, ih (by omega), idxCntOf_eq h hfit n hn]
    omega

theorem sumCounts_append (a b : List MDIStore) : sumCounts (a ++ b) = sumCounts a + sumCounts b := by
  simp [sumCounts]

theorem sumCounts_mesh (mb : ICPUMeshBuffer) (ramb : ReservedAllocationMeshBuffers)
    (i ptr : Nat) : ∀ n,
      sumCounts ((List.range' 0 n).map (mdiOf mb ramb i ptr)) = sumUpTo (idxCntOf mb) n := by
  intro n
  induction n with
  | zero => rfl
  | succ n ih =>
    rw [List.range'_concat, List.map_append, sumCounts_append, ih]
    simp [sumCounts, sumUpTo, mdiOf]

theorem sumCounts_mdiStoresFrom (rambIn : Nat → ReservedAllocationMeshBuffers) :
    ∀ (mbs : List ICPUMeshBuffer) (i ptr : Nat),
      (∀ mb ∈ mbs, mb.ranges ≠ [] ∧ mb.ranges.length - 1 < U32 ∧ Partitioned mb ∧
        3 * mb.triangleCount < U32) →
      sumCounts (mdiStoresFrom rambIn i ptr mbs) = 3 * totalTriangles mbs := by
  intro mbs
  induction mbs with
  | nil => intro i ptr _; rfl
  | cons mb rest ih =>
    intro i ptr h
    obtain ⟨hne, hlen, hpart, hfit⟩ := h mb (List.mem_cons_self _ _)
    have hpos : 0 < mb.ranges.length := List.length_pos.mpr hne
    have hcnt : batchCnt mb = mb.ranges.length - 1 := batchCnt_eq mb hne hlen
    have hsum := sumUpTo_idxCntOf hpart hfit (mb.ranges.length - 1) (by omega)
    have hlast : boundary mb (mb.ranges.length - 1) = mb.triangleCount := hpart.2.1
    rw [mdiStoresFrom, sumCounts_append, sumCounts_mesh, hcnt, hsum, hlast,
      ih (i + 1) _ (fun x hx => h x (List.mem_cons_of_mem _ hx))]
    simp only [totalTriangles, List.map_cons, List.sum_cons]
    omega


theorem le_numBatches (mbs : List ICPUMeshBuffer) (mb : ICPUMeshBuffer) (h : mb ∈ mbs) :
    mb.ranges.length - 1 ≤ numBatches mbs := by
  induction mbs with
  | nil => cases h
  | cons x rest ih =>
    have hx : numBatches (x :: rest) = (x.ranges.length - 1) + numBatches rest := by
      simp [numBatches]
    rcases List.mem_cons.mp h with rfl | h'
    · omega
    · have := ih h'
      omega

theorem numBatches_pos (mbs : List ICPUMeshBuffer)
    (h : ∀ mb ∈ mbs, mb.ranges ≠ [] ∧ Partitioned mb) (htri : 1 ≤ totalTriangles mbs) :
    1 ≤ numBatches mbs := by
  induction mbs with
  | nil => simp [totalTriangles] at htri
  | cons x rest ih =>
    have hx : numBatches (x :: rest) = (x.ranges.length - 1) + numBatches rest := by
      simp [numBatches]
    have ht : totalTriangles (x :: rest) = x.triangleCount + totalTriangles rest := by
      simp [totalTriangles]
    obtain ⟨hne, hpart⟩ := h x (List.mem_cons_self _ _)
    by_cases h0 : x.ranges.length - 1 = 0
    · have h1 := hpart.1
      have h2 := hpart.2.1
      rw [h0] at h2
      have := ih (fun y hy => h y (List.mem_cons_of_mem _ hy)) (by omega)
      omega
    · omega

/-- C2, counterexample: a range of one mesh buffer with one triangle whose enabled
attribute is reserved at the sentinel.  `commit` returns `0` and stores no command:
the returned count is not at least `1` and the counts do not sum to `3`. -/
theorem commit_with_triangle_returns_zero :
    totalTriangles [exampleMesh 1 .EVIR_PER_VERTEX [0, 1]] = 1 ∧
      (commit examplePacker (rambWithInvalid 0) [exampleMesh 1 .EVIR_PER_VERTEX [0, 1]]).map
        (fun r => (r.1, sumCounts r.2.mdiStores)) = some (0, 0) := by
  decide

/-- C2, amended: for a range with at least one triangle on which `commit` reaches no
failure branch, the partitioner having split every mesh buffer as its contract says
and the index counts fitting 32 bits, `commit` returns a count of at least `1` and
the `count` members of the stored commands sum to three times the number of
triangles of the range. -/
theorem commit_counts_sum_to_triangles (P : CCPUMeshPackerV2)
    (rambIn : Nat → ReservedAllocationMeshBuffers) (mbs : List ICPUMeshBuffer)
    (h : NoFailure P rambIn mbs)
    (hpart : ∀ mb ∈ mbs, Partitioned mb ∧ 3 * mb.triangleCount < U32)
    (hfit : numBatches mbs < U32) (htri : 1 ≤ totalTriangles mbs) :
    ∃ n s, commit P rambIn mbs = some (n, s) ∧ 1 ≤ n ∧
      sumCounts s.mdiStores = 3 * totalTriangles mbs := by
  obtain ⟨s, hs, _, _, g3, _⟩ := commit_ok P rambIn mbs h
  have htot := totalBatches_eq mbs h.ranges_ne hfit
  refine ⟨numBatches mbs, s, ?_, ?_, ?_⟩
  · rw [hs, htot, Nat.mod_eq_of_lt hfit]
  · exact numBatches_pos mbs (fun mb hmb => ⟨h.ranges_ne mb hmb, (hpart mb hmb).1⟩) htri
  · rw [g3]
    apply sumCounts_mdiStoresFrom
    intro mb hmb
    exact ⟨h.ranges_ne mb hmb, Nat.lt_of_le_of_lt (le_numBatches mbs mb hmb) hfit,
      (hpart mb hmb).1, (hpart mb hmb).2⟩

/-- Witness of C2, amended: two mesh buffers of five and two triangles. -/
theorem commit_counts_sum_to_triangles_witness :
    NoFailure examplePacker exampleRamb
        [exampleMesh 1 .EVIR_PER_VERTEX [0, 2, 5], exampleMesh 1 .EVIR_PER_INSTANCE [0, 1, 2]] ∧
      totalTriangles
        [exampleMesh 1 .EVIR_PER_VERTEX [0, 2, 5], exampleMesh 1 .EVIR_PER_INSTANCE [0, 1, 2]] = 7 ∧
      ∃ n s, commit examplePacker exampleRamb
          [exampleMesh 1 .EVIR_PER_VERTEX [0, 2, 5], exampleMesh 1 .EVIR_PER_INSTANCE [0, 1, 2]] =
            some (n, s) ∧ 1 ≤ n ∧
        sumCounts s.mdiStores = 3 * totalTriangles
          [exampleMesh 1 .EVIR_PER_VERTEX [0, 2, 5], exampleMesh 1 .EVIR_PER_INSTANCE [0, 1, 2]] :=
  ⟨by decide, by decide,
    commit_counts_sum_to_triangles _ _ _ (by decide) (by decide) (by decide) (by decide)⟩


theorem firstIdxOf_eq {mb : ICPUMeshBuffer} (ramb : ReservedAllocationMeshBuffers)
    (h : Partitioned mb) (hfit : 3 * mb.triangleCount < U32)
    (hidx : ramb.indexAllocationOffset + 3 * mb.triangleCount < USIZE)
    (b : Nat) (hb : b < mb.ranges.length) :
    firstIdxOf ramb mb b = ramb.indexAllocationOffset + 3 * boundary mb b := by
  have h1 := h.le_count b hb
  rw [firstIdxOf, sumUpTo_idxCntOf h hfit b hb]
  apply Nat.mod_eq_of_lt
  omega

/-- C4: within every mesh buffer that `commit` processes (no failure branch reached,
the partitioner's contract holding, and the end of the index range of the mesh
buffer, `indexAllocationOffset + 3 * triangles`, fitting the 32-bit `firstIndex`
member), every batch has its stored indirect-draw command; the command of a batch
has `count` three times the number of triangles of the batch; the `firstIndex` of
batch `0` is the reserved `indexAllocationOffset`, and the `firstIndex` of every
later batch is the `firstIndex` of the batch before plus its `count`. -/
theorem commit_batch_commands_contiguous (P : CCPUMeshPackerV2)
    (rambIn : Nat → ReservedAllocationMeshBuffers) (mbs : List ICPUMeshBuffer)
    (h : NoFailure P rambIn mbs)
    (hpart : ∀ mb ∈ mbs, Partitioned mb ∧ 3 * mb.triangleCount < U32)
    (hfit : numBatches mbs < U32)
    (hidx : ∀ j (hj : j < mbs.length),
      (rambIn j).indexAllocationOffset + 3 * (mbs.get ⟨j, hj⟩).triangleCount < U32) :
    ∃ s, commit P rambIn mbs = some (numBatches mbs, s) ∧
      (∀ j (hj : j < mbs.length) b, b + 1 < (mbs.get ⟨j, hj⟩).ranges.length →
        ∃ e ∈ s.mdiStores, e.mb = j ∧ e.batch = b) ∧
      (∀ e ∈ s.mdiStores, ∃ hj : e.mb < mbs.length,
        e.batch + 1 < (mbs.get ⟨e.mb, hj⟩).ranges.length ∧
        e.cmd.count = 3 * (boundary (mbs.get ⟨e.mb, hj⟩) (e.batch + 1) -
          boundary (mbs.get ⟨e.mb, hj⟩) e.batch) ∧
        (e.batch = 0 → e.cmd.firstIndex = (rambIn e.mb).indexAllocationOffset)) ∧
      (∀ e ∈ s.mdiStores, ∀ e' ∈ s.mdiStores, e'.mb = e.mb → e'.batch = e.batch + 1 →
        e'.cmd.firstIndex = e.cmd.firstIndex + e.cmd.count) := by
  obtain ⟨s, hs, _, _, g3, _⟩ := commit_ok P rambIn mbs h
  have htot := totalBatches_eq mbs h.ranges_ne hfit
  have hcnt : ∀ j (hj : j < mbs.length),
      batchCnt (mbs.get ⟨j, hj⟩) = (mbs.get ⟨j, hj⟩).ranges.length - 1 := fun j hj =>
    batchCnt_eq _ (h j hj).1
      (Nat.lt_of_le_of_lt (le_numBatches mbs _ (List.get_mem mbs j hj)) hfit)
  have hfields : ∀ j (hj : j < mbs.length) (ptr b : Nat),
      b + 1 < (mbs.get ⟨j, hj⟩).ranges.length →
      (mdiOf (mbs.get ⟨j, hj⟩) (rambIn j) j ptr b).cmd.count =
          3 * (boundary (mbs.get ⟨j, hj⟩) (b + 1) - boundary (mbs.get ⟨j, hj⟩) b) ∧
        (mdiOf (mbs.get ⟨j, hj⟩) (rambIn j) j ptr b).cmd.firstIndex =
          (rambIn j).indexAllocationOffset + 3 * boundary (mbs.get ⟨j, hj⟩) b := by
    intro j hj ptr b hb
    have hp := hpart _ (List.get_mem mbs j hj)
    have hi := hidx j hj
    have hle := hp.1.le_count b (by omega)
    have hfirst := firstIdxOf_eq (rambIn j) hp.1 hp.2
      (Nat.lt_of_lt_of_le hi (by decide : U32 ≤ USIZE)) b (by omega)
    refine ⟨idxCntOf_eq hp.1 hp.2 b hb, ?_⟩
    show firstIdxOf (rambIn j) (mbs.get ⟨j, hj⟩) b % U32 = _
    rw [hfirst]
    exact Nat.mod_eq_of_lt (by omega)
  refine ⟨s, by rw [hs, htot, Nat.mod_eq_of_lt hfit], ?_, ?_, ?_⟩
  · intro j hj b hb
    refine ⟨mdiOf (mbs.get ⟨j, hj⟩) (rambIn j) j
      ((rambIn 0).mdiAllocationOffset + totalBatches (mbs.take j)) b, ?_, rfl, rfl⟩
    rw [g3, mem_mdiStoresFrom]
    exact ⟨j, hj, b, by rw [hcnt j hj]; omega, by simp⟩
  · intro e he
    rw [g3, mem_mdiStoresFrom] at he
    obtain ⟨j, hj, b, hb, rfl⟩ := he
    rw [hcnt j hj] at hb
    simp only [Nat.zero_add]
    have hf := hfields j hj ((rambIn 0).mdiAllocationOffset + totalBatches (mbs.take j)) b
      (by omega)
    refine ⟨hj, by simp only [mdiOf]; omega, hf.1, ?_⟩
    intro hb0
    have hb0' : b = 0 := hb0
    subst hb0'
    have hb00 : boundary (mbs.get ⟨j, hj⟩) 0 = 0 := (hpart _ (List.get_mem mbs j hj)).1.1
    rw [hf.2, hb00]
    simp [mdiOf]
  · intro e he e' he' hmb hbatch
    rw [g3, mem_mdiStoresFrom] at he he'
    obtain ⟨j, hj, b, hb, rfl⟩ := he
    obtain ⟨j', hj', b', hb', rfl⟩ := he'
    simp only [Nat.zero_add] at hmb hbatch ⊢
    have hjj : j' = j := hmb
    subst hjj
    have hbb : b' = b + 1 := hbatch
    subst hbb
    rw [hcnt j' hj'] at hb hb'
    have hf := hfields j' hj' ((rambIn 0).mdiAllocationOffset + totalBatches (mbs.take j')) b
      (by omega)
    have hf' := hfields j' hj' ((rambIn 0).mdiAllocationOffset + totalBatches (mbs.take j'))
      (b + 1) (by omega)
    have hmono := (hpart _ (List.get_mem mbs j' hj')).1.mono 1 b (by omega)
    rw [hf'.2, hf.2, hf.1]
    omega

/-- Witness of C4: two mesh buffers with two batches each. -/
theorem commit_batch_commands_contiguous_witness :
    NoFailure examplePacker exampleRamb
        [exampleMesh 1 .EVIR_PER_VERTEX [0, 2, 5], exampleMesh 1 .EVIR_PER_INSTANCE [0, 1, 2]] ∧
      ∃ s, commit examplePacker exampleRamb
          [exampleMesh 1 .EVIR_PER_VERTEX [0, 2, 5], exampleMesh 1 .EVIR_PER_INSTANCE [0, 1, 2]] =
            some (4, s) ∧
        ∀ e ∈ s.mdiStores, ∀ e' ∈ s.mdiStores, e'.mb = e.mb → e'.batch = e.batch + 1 →
          e'.cmd.firstIndex = e.cmd.firstIndex + e.cmd.count :=
  ⟨by decide,
    (commit_batch_commands_contiguous examplePacker exampleRamb
      [exampleMesh 1 .EVIR_PER_VERTEX [0, 2, 5], exampleMesh 1 .EVIR_PER_INSTANCE [0, 1, 2]]
      (by decide) (by decide) (by decide) (by decide)).imp
      (fun _ hs => ⟨hs.1, hs.2.2.2⟩)⟩


/-! ## Descriptors -/

theorem length_pmbdStoresFrom (base : Nat) :
    ∀ (mbs : List ICPUMeshBuffer) (i tot : Nat),
      (pmbdStoresFrom base i tot mbs).length = mbs.length := by
  intro mbs
  induction mbs with
  | nil => intro i tot; rfl
  | cons mb rest ih => intro i tot; simp [pmbdStoresFrom, ih]

theorem get?_pmbdStoresFrom (base : Nat) :
    ∀ (mbs : List ICPUMeshBuffer) (i tot j : Nat) (hj : j < mbs.length),
      (pmbdStoresFrom base i tot mbs).get? j =
        some ⟨i + j, ⟨(base + (tot + totalBatches (mbs.take j)) % U32) % U32,
          batchCnt (mbs.get ⟨j, hj⟩)⟩⟩ := by
  intro mbs
  induction mbs with
  | nil => intro i tot j hj; simp at hj
  | cons mb rest ih =>
    intro i tot j hj
    cases j with
    | zero => simp [pmbdStoresFrom, totalBatches]
    | succ j =>
      have := ih (i + 1) (tot + batchCnt mb) j (by simpa using hj)
      simp only [pmbdStoresFrom, List.get?_cons_succ, this]
      simp [totalBatches_cons, Nat.add_assoc, Nat.add_comm 1 j]

theorem totalBatches_take_succ (mbs : List ICPUMeshBuffer) (j : Nat) (hj : j < mbs.length) :
    totalBatches (mbs.take (j + 1)) = totalBatches (mbs.take j) + batchCnt (mbs.get ⟨j, hj⟩) := by
  induction mbs generalizing j with
  | nil => simp at hj
  | cons mb rest ih =>
    cases j with
    | zero => simp [totalBatches]
    | succ j =>
      have := ih j (by simpa using hj)
      simp only [List.take_succ_cons, totalBatches_cons, this, List.get_cons_succ]
      omega

theorem totalBatches_take_le (mbs : List ICPUMeshBuffer) (j : Nat) :
    totalBatches (mbs.take j) ≤ totalBatches mbs := by
  induction mbs generalizing j with
  | nil => simp
  | cons mb rest ih =>
    cases j with
    | zero => simp [totalBatches]
    | succ j =>
      have := ih j
      simp only [List.take_succ_cons, totalBatches_cons]
      omega

theorem totalBatches_take_length (mbs : List ICPUMeshBuffer) :
    totalBatches (mbs.take mbs.length) = totalBatches mbs := by
  rw [List.take_length]

theorem mdiStoresFrom_tag_ge (rambIn : Nat → ReservedAllocationMeshBuffers)
    (mbs : List ICPUMeshBuffer) (i ptr : Nat) (e : MDIStore)
    (he : e ∈ mdiStoresFrom rambIn i ptr mbs) : i ≤ e.mb := by
  rw [mem_mdiStoresFrom] at he
  obtain ⟨j, _, b, _, rfl⟩ := he
  simp [mdiOf]

theorem filter_lt_mdiStoresFrom (rambIn : Nat → ReservedAllocationMeshBuffers) :
    ∀ (mbs : List ICPUMeshBuffer) (i ptr j : Nat),
      ((mdiStoresFrom rambIn i ptr mbs).filter (fun e => decide (e.mb < i + j))).length =
        totalBatches (mbs.take j) := by
  intro mbs
  induction mbs with
  | nil => intro i ptr j; simp [mdiStoresFrom, totalBatches]
  | cons mb rest ih =>
    intro i ptr j
    cases j with
    | zero =>
      have : (mdiStoresFrom rambIn i ptr (mb :: rest)).filter
          (fun e => decide (e.mb < i + 0)) = [] := by
        rw [List.filter_eq_nil_iff]
        intro e he
        have := mdiStoresFrom_tag_ge rambIn _ _ _ e he
        simp only [decide_eq_true_eq]
        omega
      rw [this]
      simp [totalBatches]
    | succ j =>
      have h1 : ((List.range' 0 (batchCnt mb)).map (mdiOf mb (rambIn i) i ptr)).filter
          (fun e => decide (e.mb < i + (j + 1))) =
          (List.range' 0 (batchCnt mb)).map (mdiOf mb (rambIn i) i ptr) := by
        rw [List.filter_eq_self]
        intro e he
        obtain ⟨b, _, rfl⟩ := List.mem_map.mp he
        simp only [mdiOf, decide_eq_true_eq]
        omega
      have h2 := ih (i + 1) (ptr + batchCnt mb) j
      have h3 : i + 1 + j = i + (j + 1) := by omega
      rw [h3] at h2
      simp only [mdiStoresFrom, List.filter_append, h1, List.length_append, h2,
        List.length_map, List.length_range', List.take_succ_cons, totalBatches_cons]

theorem filter_eq_mdiStoresFrom (rambIn : Nat → ReservedAllocationMeshBuffers) :
    ∀ (mbs : List ICPUMeshBuffer) (i ptr j : Nat) (hj : j < mbs.length),
      ((mdiStoresFrom rambIn i ptr mbs).filter (fun e => decide (e.mb = i + j))).length =
        batchCnt (mbs.get ⟨j, hj⟩) := by
  intro mbs
  induction mbs with
  | nil => intro i ptr j hj; simp at hj
  | cons mb rest ih =>
    intro i ptr j hj
    cases j with
    | zero =>
      have h1 : ((List.range' 0 (batchCnt mb)).map (mdiOf mb (rambIn i) i ptr)).filter
          (fun e => decide (e.mb = i + 0)) =
          (List.range' 0 (batchCnt mb)).map (mdiOf mb (rambIn i) i ptr) := by
        rw [List.filter_eq_self]
        intro e he
        obtain ⟨b, _, rfl⟩ := List.mem_map.mp he
        simp [mdiOf]
      have h2 : (mdiStoresFrom rambIn (i + 1) (ptr + batchCnt mb) rest).filter
          (fun e => decide (e.mb = i + 0)) = [] := by
        rw [List.filter_eq_nil_iff]
        intro e he
        have := mdiStoresFrom_tag_ge rambIn _ _ _ e he
        simp only [decide_eq_true_eq]
        omega
      simp only [mdiStoresFrom, List.filter_append, h1, h2, List.append_nil, List.length_map,
        List.length_range']
      rfl
    | succ j =>
      have h1 : ((List.range' 0 (batchCnt mb)).map (mdiOf mb (rambIn i) i ptr)).filter
          (fun e => decide (e.mb = i + (j + 1))) = [] := by
        rw [List.filter_eq_nil_iff]
        intro e he
        obtain ⟨b, _, rfl⟩ := List.mem_map.mp he
        simp only [mdiOf, decide_eq_true_eq]
        omega
      have h2 := ih (i + 1) (ptr + batchCnt mb) j (by simpa using hj)
      have h3 : i + 1 + j = i + (j + 1) := by omega
      rw [h3] at h2
      simp only [mdiStoresFrom, List.filter_append, h1, List.nil_append, h2]
      rfl

theorem cover_pmbdStoresFrom (base : Nat) :
    ∀ (mbs : List ICPUMeshBuffer) (i tot : Nat), base + tot + totalBatches mbs < U32 →
      ∀ slot, (∃ p ∈ pmbdStoresFrom base i tot mbs,
        p.pmbd.mdiParameterOffset ≤ slot ∧
          slot < p.pmbd.mdiParameterOffset + p.pmbd.mdiParameterCount) ↔
        (base + tot ≤ slot ∧ slot < base + tot + totalBatches mbs) := by
  intro mbs
  induction mbs with
  | nil =>
    intro i tot _ slot
    simp only [pmbdStoresFrom, List.not_mem_nil, false_and, exists_false, totalBatches,
      List.map_nil, List.sum_nil, false_iff]
    omega
  | cons mb rest ih =>
    intro i tot hfit slot
    rw [totalBatches_cons] at hfit ⊢
    have h1 : tot % U32 = tot := Nat.mod_eq_of_lt (by omega)
    have h2 : (base + tot) % U32 = base + tot := Nat.mod_eq_of_lt (by omega)
    have hrest := ih (i + 1) (tot + batchCnt mb) (by omega) slot
    simp only [pmbdStoresFrom, List.mem_cons, exists_eq_or_imp, hrest, h1, h2]
    omega


/-- C3: on a commit that reaches no failure branch (the slots fitting 32 bits), the
descriptor stored for position `j` of the range is (base slot + number of commands
stored for the mesh buffers before `j`, number of commands stored for mesh buffer
`j`), the base slot being `rambIn->mdiAllocationOffset`; the slot ranges of
consecutive descriptors are adjacent, and a slot lies in the range of some descriptor
exactly when it lies in `[base, base + returned total)`. -/
theorem commit_descriptors_cover_slots (P : CCPUMeshPackerV2)
    (rambIn : Nat → ReservedAllocationMeshBuffers) (mbs : List ICPUMeshBuffer)
    (h : NoFailure P rambIn mbs)
    (hfit : (rambIn 0).mdiAllocationOffset + numBatches mbs < U32) :
    ∃ s, commit P rambIn mbs = some (numBatches mbs, s) ∧
      s.pmbdStores.length = mbs.length ∧
      (∀ j (hj : j < mbs.length),
        s.pmbdStores.get? j = some ⟨j,
          ⟨(rambIn 0).mdiAllocationOffset +
              (s.mdiStores.filter (fun e => decide (e.mb < j))).length,
            (s.mdiStores.filter (fun e => decide (e.mb = j))).length⟩⟩ ∧
        (s.mdiStores.filter (fun e => decide (e.mb = j))).length =
          (mbs.get ⟨j, hj⟩).ranges.length - 1) ∧
      (∀ j p q, s.pmbdStores.get? j = some p → s.pmbdStores.get? (j + 1) = some q →
        q.pmbd.mdiParameterOffset = p.pmbd.mdiParameterOffset + p.pmbd.mdiParameterCount) ∧
      (∀ slot, (∃ p ∈ s.pmbdStores, p.pmbd.mdiParameterOffset ≤ slot ∧
          slot < p.pmbd.mdiParameterOffset + p.pmbd.mdiParameterCount) ↔
        ((rambIn 0).mdiAllocationOffset ≤ slot ∧
          slot < (rambIn 0).mdiAllocationOffset + numBatches mbs)) := by
  obtain ⟨s, hs, _, _, g3, g4, _⟩ := commit_ok P rambIn mbs h
  have hnum : numBatches mbs < U32 := by omega
  have htot := totalBatches_eq mbs h.ranges_ne hnum
  have hcnt : ∀ j (hj : j < mbs.length),
      batchCnt (mbs.get ⟨j, hj⟩) = (mbs.get ⟨j, hj⟩).ranges.length - 1 := fun j hj =>
    batchCnt_eq _ (h j hj).1
      (Nat.lt_of_le_of_lt (le_numBatches mbs _ (List.get_mem mbs j hj)) hnum)
  have hget : ∀ j (hj : j < mbs.length), s.pmbdStores.get? j =
      some ⟨j, ⟨(rambIn 0).mdiAllocationOffset + totalBatches (mbs.take j),
        batchCnt (mbs.get ⟨j, hj⟩)⟩⟩ := by
    intro j hj
    have hle := totalBatches_take_le mbs j
    rw [g4, get?_pmbdStoresFrom _ mbs 0 0 j hj]
    have h1 : (0 + totalBatches (mbs.take j)) % U32 = totalBatches (mbs.take j) := by
      rw [Nat.zero_add]
      exact Nat.mod_eq_of_lt (by omega)
    rw [h1, Nat.mod_eq_of_lt (by omega), Nat.zero_add]
  refine ⟨s, by rw [hs, htot, Nat.mod_eq_of_lt hnum], ?_, ?_, ?_, ?_⟩
  · rw [g4, length_pmbdStoresFrom]
  · intro j hj
    have hlt := filter_lt_mdiStoresFrom rambIn mbs 0 (rambIn 0).mdiAllocationOffset j
    have heq := filter_eq_mdiStoresFrom rambIn mbs 0 (rambIn 0).mdiAllocationOffset j hj
    simp only [Nat.zero_add] at hlt heq
    rw [g3, hlt, heq, hget j hj, hcnt j hj]
    exact ⟨rfl, rfl⟩
  · intro j p q hp hq
    have hj1 : j + 1 < mbs.length := by
      have := List.get?_eq_some.mp hq
      obtain ⟨hlt, _⟩ := this
      rw [g4, length_pmbdStoresFrom] at hlt
      exact hlt
    have hj : j < mbs.length := by omega
    rw [hget j hj] at hp
    rw [hget (j + 1) hj1] at hq
    cases hp
    cases hq
    simp only [totalBatches_take_succ mbs j hj]
    omega
  · intro slot
    have := cover_pmbdStoresFrom (rambIn 0).mdiAllocationOffset mbs 0 0
      (by rw [htot]; omega) slot
    rw [g4, this, htot]
    simp

/-- Witness of C3: two mesh buffers with two batches each, base slot `5`. -/
theorem commit_descriptors_cover_slots_witness :
    NoFailure examplePacker exampleRamb
        [exampleMesh 1 .EVIR_PER_VERTEX [0, 2, 5], exampleMesh 1 .EVIR_PER_INSTANCE [0, 1, 2]] ∧
      ∃ s, commit examplePacker exampleRamb
          [exampleMesh 1 .EVIR_PER_VERTEX [0, 2, 5], exampleMesh 1 .EVIR_PER_INSTANCE [0, 1, 2]] =
            some (4, s) ∧
        ∀ slot, (∃ p ∈ s.pmbdStores, p.pmbd.mdiParameterOffset ≤ slot ∧
            slot < p.pmbd.mdiParameterOffset + p.pmbd.mdiParameterCount) ↔
          (5 ≤ slot ∧ slot < 5 + 4) :=
  ⟨by decide,
    (commit_descriptors_cover_slots examplePacker exampleRamb
      [exampleMesh 1 .EVIR_PER_VERTEX [0, 2, 5], exampleMesh 1 .EVIR_PER_INSTANCE [0, 1, 2]]
      (by decide) (by decide)).imp
      (fun _ hs => ⟨hs.1, hs.2.2.2.2⟩)⟩


/-! ## Copies and offset-table rows -/

theorem mem_copiesOfBatch (P : CCPUMeshPackerV2) (mb : ICPUMeshBuffer)
    (ramb : ReservedAllocationMeshBuffers) (i b : Nat) (c : AttribCopy) :
    c ∈ copiesOfBatch P mb ramb i b ↔
      ∃ l, l < P.MAX_ATTR_BUF_BINDING_COUNT ∧ attribEnabled mb l = true ∧
        c = copyOf P mb ramb i b (verticesBefore mb b) 0 l := by
  simp only [copiesOfBatch, enabledLocs, List.mem_map, List.mem_filter, List.mem_range]
  constructor
  · rintro ⟨l, ⟨hl, hen⟩, rfl⟩
    exact ⟨l, hl, hen, rfl⟩
  · rintro ⟨l, hl, hen, rfl⟩
    exact ⟨l, ⟨hl, hen⟩, rfl⟩

theorem mem_cdotOfBatch (P : CCPUMeshPackerV2) (mb : ICPUMeshBuffer)
    (ramb : ReservedAllocationMeshBuffers) (i row b : Nat) (d : CDOTStore) :
    d ∈ cdotOfBatch P mb ramb i row b ↔
      ∃ l, l < P.MAX_ATTR_BUF_BINDING_COUNT ∧ attribEnabled mb l = true ∧
        d = cdotOf P mb ramb i b (row + b) (verticesBefore mb b) 0 l := by
  simp only [cdotOfBatch, enabledLocs, List.mem_map, List.mem_filter, List.mem_range]
  constructor
  · rintro ⟨l, ⟨hl, hen⟩, rfl⟩
    exact ⟨l, hl, hen, rfl⟩
  · rintro ⟨l, hl, hen, rfl⟩
    exact ⟨l, ⟨hl, hen⟩, rfl⟩

theorem sumUpTo_mono (f : Nat → Nat) : ∀ n k, k ≤ n → sumUpTo f k ≤ sumUpTo f n := by
  intro n
  induction n with
  | zero => intro k hk; simp [Nat.le_zero.mp hk]
  | succ n ih =>
    intro k hk
    rcases Nat.lt_or_ge k (n + 1) with h | h
    · have := ih k (by omega)
      simp only [sumUpTo]
      omega
    · have : k = n + 1 := by omega
      rw [this]

/-- The copy that `commit` issues for an attribute, with the narrowing of the byte
offset removed: the product of the running count and the byte size fits 32 bits. -/
theorem copyOf_dst (P : CCPUMeshPackerV2) (mb : ICPUMeshBuffer)
    (ramb : ReservedAllocationMeshBuffers) (i k l : Nat)
    (hfit : runningCountAt mb k l * attribSizeOf P mb l < U32)
    (hcnt : inputRateOf mb l = .EVIR_PER_VERTEX → sumUpTo mb.usedVertices k < USIZE) :
    copyOf P mb ramb i k (verticesBefore mb k) 0 l =
      ⟨i, k, l, inputRateOf mb l,
        (ramb.attribAllocParams l).offset + runningCountAt mb k l * attribSizeOf P mb l⟩ := by
  simp only [copyOf, runningCountAt] at *
  cases hr : inputRateOf mb l <;> simp only [hr] at hfit hcnt ⊢
  · have hv : verticesBefore mb k = sumUpTo mb.usedVertices k := Nat.mod_eq_of_lt (hcnt trivial)
    rw [hv, Nat.mod_eq_of_lt (a := sumUpTo mb.usedVertices k * attribSizeOf P mb l) (by
      simp only [U32, USIZE] at *; omega), Nat.mod_eq_of_lt hfit]
  · simp

/-- The offset-table store that `commit` issues for an attribute, with the narrowings
removed. -/
theorem cdotOf_va (P : CCPUMeshPackerV2) (mb : ICPUMeshBuffer)
    (ramb : ReservedAllocationMeshBuffers) (i k row l : Nat)
    (hid : (utbFind P mb l).getD 0 < U16)
    (hfit : (ramb.attribAllocParams l).offset / attribSizeOf P mb l + runningCountAt mb k l < U32)
    (hcnt : inputRateOf mb l = .EVIR_PER_VERTEX → sumUpTo mb.usedVertices k < USIZE) :
    cdotOf P mb ramb i k row (verticesBefore mb k) 0 l =
      ⟨i, k, row, l, ⟨(utbFind P mb l).getD 0,
        (ramb.attribAllocParams l).offset / attribSizeOf P mb l + runningCountAt mb k l⟩⟩ := by
  simp only [cdotOf, runningCountAt, Nat.mod_eq_of_lt hid] at *
  cases hr : inputRateOf mb l <;> simp only [hr] at hfit hcnt ⊢
  · have hv : verticesBefore mb k = sumUpTo mb.usedVertices k := Nat.mod_eq_of_lt (hcnt trivial)
    rw [hv, Nat.mod_eq_of_lt (a := (ramb.attribAllocParams l).offset / attribSizeOf P mb l +
      sumUpTo mb.usedVertices k) (by simp only [U32, USIZE] at *; omega), Nat.mod_eq_of_lt hfit]
  · rw [Nat.mod_eq_of_lt (a := (ramb.attribAllocParams l).offset / attribSizeOf P mb l + 0) (by
      simp only [U32, USIZE] at *; omega), Nat.mod_eq_of_lt hfit]

theorem runningCountAt_mono (mb : ICPUMeshBuffer) (l n k : Nat) (hk : k ≤ n) :
    runningCountAt mb k l ≤ runningCountAt mb n l := by
  simp only [runningCountAt]
  cases inputRateOf mb l
  · exact sumUpTo_mono _ n k hk
  · exact Nat.le_refl _

theorem runningCountAt_perVertex (mb : ICPUMeshBuffer) (k l : Nat)
    (hr : inputRateOf mb l = .EVIR_PER_VERTEX) :
    runningCountAt mb k l = sumUpTo mb.usedVertices k := by
  simp [runningCountAt, hr]

/-- C9: on a commit that reaches no failure branch, for every per-vertex attribute of
a mesh buffer (the bytes of the attribute fitting the 32-bit offset the code
computes) every batch `k` has its copy, the copy of batch `k` goes to byte
`allocatedOffset + V_k * attribSize`, `V_k` being the sum of the unique-vertex counts
of the batches before `k`, and the destination of batch `k + 1` is the destination of
batch `k` plus the bytes of batch `k`: the regions are adjacent and do not overlap. -/
theorem commit_perVertex_destinations (P : CCPUMeshPackerV2)
    (rambIn : Nat → ReservedAllocationMeshBuffers) (mbs : List ICPUMeshBuffer)
    (h : NoFailure P rambIn mbs) (hfit : numBatches mbs < U32)
    (hbytes : ∀ j (hj : j < mbs.length) l, l < P.MAX_ATTR_BUF_BINDING_COUNT →
      attribEnabled (mbs.get ⟨j, hj⟩) l = true →
      inputRateOf (mbs.get ⟨j, hj⟩) l = .EVIR_PER_VERTEX →
      sumUpTo (mbs.get ⟨j, hj⟩).usedVertices ((mbs.get ⟨j, hj⟩).ranges.length - 1) *
        attribSizeOf P (mbs.get ⟨j, hj⟩) l < U32) :
    ∃ s, commit P rambIn mbs = some (numBatches mbs, s) ∧
      ∀ j (hj : j < mbs.length) l, l < P.MAX_ATTR_BUF_BINDING_COUNT →
        attribEnabled (mbs.get ⟨j, hj⟩) l = true →
        inputRateOf (mbs.get ⟨j, hj⟩) l = .EVIR_PER_VERTEX →
        (∀ k, k + 1 < (mbs.get ⟨j, hj⟩).ranges.length →
          ∃ c ∈ s.attribCopies, c.mb = j ∧ c.batch = k ∧ c.location = l) ∧
        (∀ c ∈ s.attribCopies, c.mb = j → c.location = l →
          c.dst = ((rambIn j).attribAllocParams l).offset +
            sumUpTo (mbs.get ⟨j, hj⟩).usedVertices c.batch * attribSizeOf P (mbs.get ⟨j, hj⟩) l) ∧
        (∀ c ∈ s.attribCopies, ∀ c' ∈ s.attribCopies, c.mb = j → c.location = l →
          c'.mb = j → c'.location = l → c'.batch = c.batch + 1 →
          c'.dst = c.dst +
            (mbs.get ⟨j, hj⟩).usedVertices c.batch * attribSizeOf P (mbs.get ⟨j, hj⟩) l) := by
  obtain ⟨s, hs, _, _, _, _, g5, _⟩ := commit_ok P rambIn mbs h
  have htot := totalBatches_eq mbs h.ranges_ne hfit
  have hcnt : ∀ j (hj : j < mbs.length),
      batchCnt (mbs.get ⟨j, hj⟩) = (mbs.get ⟨j, hj⟩).ranges.length - 1 := fun j hj =>
    batchCnt_eq _ (h j hj).1
      (Nat.lt_of_le_of_lt (le_numBatches mbs _ (List.get_mem mbs j hj)) hfit)
  refine ⟨s, by rw [hs, htot, Nat.mod_eq_of_lt hfit], ?_⟩
  intro j hj l hl hen hrate
  have hsize : attribSizeOf P (mbs.get ⟨j, hj⟩) l ≠ 0 := ((h j hj).2 l hl hen).2.2
  have hb := hbytes j hj l hl hen hrate
  have hprod : ∀ k, k + 1 < (mbs.get ⟨j, hj⟩).ranges.length →
      runningCountAt (mbs.get ⟨j, hj⟩) k l * attribSizeOf P (mbs.get ⟨j, hj⟩) l < U32 ∧
      sumUpTo (mbs.get ⟨j, hj⟩).usedVertices k < USIZE := by
    intro k hk
    have hm := sumUpTo_mono (mbs.get ⟨j, hj⟩).usedVertices
      ((mbs.get ⟨j, hj⟩).ranges.length - 1) k (by omega)
    have hmul := Nat.mul_le_mul_right (attribSizeOf P (mbs.get ⟨j, hj⟩) l) hm
    have hpos : 1 ≤ attribSizeOf P (mbs.get ⟨j, hj⟩) l := Nat.one_le_iff_ne_zero.mpr hsize
    have hle : sumUpTo (mbs.get ⟨j, hj⟩).usedVertices k ≤
        sumUpTo (mbs.get ⟨j, hj⟩).usedVertices k * attribSizeOf P (mbs.get ⟨j, hj⟩) l :=
      Nat.le_mul_of_pos_right _ hpos
    rw [runningCountAt_perVertex _ _ _ hrate]
    simp only [U32, USIZE] at *
    omega
  have hchar : ∀ c ∈ s.attribCopies, c.mb = j → c.location = l →
      c.batch + 1 < (mbs.get ⟨j, hj⟩).ranges.length ∧
      c.dst = ((rambIn j).attribAllocParams l).offset +
        sumUpTo (mbs.get ⟨j, hj⟩).usedVertices c.batch * attribSizeOf P (mbs.get ⟨j, hj⟩) l := by
    intro c hc hmb hloc
    rw [g5, mem_copiesFrom] at hc
    obtain ⟨j', hj', b, hb', hc⟩ := hc
    rw [mem_copiesOfBatch] at hc
    obtain ⟨l', _, _, rfl⟩ := hc
    have e1 : j' = j := by simpa [copyOf] using hmb
    have e2 : l' = l := by simpa [copyOf] using hloc
    subst e1 e2
    rw [hcnt j' hj'] at hb'
    have hk : b + 1 < (mbs.get ⟨j', hj'⟩).ranges.length := by omega
    rw [Nat.zero_add, copyOf_dst P _ _ _ _ _ (hprod b hk).1 (fun _ => (hprod b hk).2),
      runningCountAt_perVertex _ _ _ hrate]
    exact ⟨hk, rfl⟩
  refine ⟨?_, fun c hc hmb hloc => (hchar c hc hmb hloc).2, ?_⟩
  · intro k hk
    refine ⟨copyOf P (mbs.get ⟨j, hj⟩) (rambIn j) j k (verticesBefore (mbs.get ⟨j, hj⟩) k) 0 l,
      ?_, rfl, rfl, rfl⟩
    rw [g5, mem_copiesFrom]
    refine ⟨j, hj, k, by rw [hcnt j hj]; omega, ?_⟩
    rw [mem_copiesOfBatch]
    exact ⟨l, hl, hen, by simp⟩
  · intro c hc c' hc' hmb hloc hmb' hloc' hbatch
    rw [(hchar c hc hmb hloc).2, (hchar c' hc' hmb' hloc').2, hbatch, sumUpTo, Nat.add_mul]
    omega

/-- Witness of C9: a mesh buffer with three batches of two unique vertices each and a
per-vertex attribute of four bytes. -/
theorem commit_perVertex_destinations_witness :
    NoFailure examplePacker exampleRamb [exampleMesh 1 .EVIR_PER_VERTEX [0, 2, 5, 6]] ∧
      ∃ s, commit examplePacker exampleRamb [exampleMesh 1 .EVIR_PER_VERTEX [0, 2, 5, 6]] =
          some (3, s) ∧
        ∀ c ∈ s.attribCopies, c.mb = 0 → c.location = 0 →
          c.dst = 100 + sumUpTo (fun _ => 2) c.batch * 4 :=
  ⟨by decide,
    (commit_perVertex_destinations examplePacker exampleRamb
      [exampleMesh 1 .EVIR_PER_VERTEX [0, 2, 5, 6]] (by decide) (by decide) (by decide)).imp
      (fun _ hs => ⟨hs.1, (hs.2 0 (by decide) 0 (by decide) (by decide) (by decide)).2.1⟩)⟩


/-- What `commit` stores and copies for an enabled attribute of a mesh buffer, on a
commit that reaches no failure branch and whose values fit their integer types. -/
theorem commit_rows_and_copies (P : CCPUMeshPackerV2)
    (rambIn : Nat → ReservedAllocationMeshBuffers) (mbs : List ICPUMeshBuffer)
    (h : NoFailure P rambIn mbs) (hfit : numBatches mbs < U32)
    (hattr : ∀ j (hj : j < mbs.length) l, l < P.MAX_ATTR_BUF_BINDING_COUNT →
      attribEnabled (mbs.get ⟨j, hj⟩) l = true → AttribFits P (mbs.get ⟨j, hj⟩) (rambIn j) l) :
    ∃ s, commit P rambIn mbs = some (numBatches mbs, s) ∧
      ∀ j (hj : j < mbs.length) l, l < P.MAX_ATTR_BUF_BINDING_COUNT →
        attribEnabled (mbs.get ⟨j, hj⟩) l = true →
        (∀ k, k + 1 < (mbs.get ⟨j, hj⟩).ranges.length →
          (∃ d ∈ s.cdotStores, d.mb = j ∧ d.batch = k ∧ d.location = l) ∧
          (∃ c ∈ s.attribCopies, c.mb = j ∧ c.batch = k ∧ c.location = l)) ∧
        (∀ d ∈ s.cdotStores, d.mb = j → d.location = l →
          utbFind P (mbs.get ⟨j, hj⟩) l = some d.va.arrayElement ∧
          d.va.offset = ((rambIn j).attribAllocParams l).offset /
              attribSizeOf P (mbs.get ⟨j, hj⟩) l + runningCountAt (mbs.get ⟨j, hj⟩) d.batch l) ∧
        (∀ c ∈ s.attribCopies, c.mb = j → c.location = l →
          c.dst = ((rambIn j).attribAllocParams l).offset +
            runningCountAt (mbs.get ⟨j, hj⟩) c.batch l * attribSizeOf P (mbs.get ⟨j, hj⟩) l) := by
  obtain ⟨s, hs, _, _, _, _, g5, g6⟩ := commit_ok P rambIn mbs h
  have htot := totalBatches_eq mbs h.ranges_ne hfit
  have hcnt : ∀ j (hj : j < mbs.length),
      batchCnt (mbs.get ⟨j, hj⟩) = (mbs.get ⟨j, hj⟩).ranges.length - 1 := fun j hj =>
    batchCnt_eq _ (h j hj).1
      (Nat.lt_of_le_of_lt (le_numBatches mbs _ (List.get_mem mbs j hj)) hfit)
  refine ⟨s, by rw [hs, htot, Nat.mod_eq_of_lt hfit], ?_⟩
  intro j hj l hl hen
  obtain ⟨_, hsome, hsize⟩ := (h j hj).2 l hl hen
  obtain ⟨v, hv⟩ := Option.isSome_iff_exists.mp hsome
  obtain ⟨hid, hbytes, helem⟩ := hattr j hj l hl hen
  have hpos : 1 ≤ attribSizeOf P (mbs.get ⟨j, hj⟩) l := Nat.one_le_iff_ne_zero.mpr hsize
  have hk : ∀ k, k + 1 < (mbs.get ⟨j, hj⟩).ranges.length →
      runningCountAt (mbs.get ⟨j, hj⟩) k l * attribSizeOf P (mbs.get ⟨j, hj⟩) l < U32 ∧
      ((rambIn j).attribAllocParams l).offset / attribSizeOf P (mbs.get ⟨j, hj⟩) l +
        runningCountAt (mbs.get ⟨j, hj⟩) k l < U32 ∧
      (inputRateOf (mbs.get ⟨j, hj⟩) l = .EVIR_PER_VERTEX →
        sumUpTo (mbs.get ⟨j, hj⟩).usedVertices k < USIZE) := by
    intro k hk
    have hm := runningCountAt_mono (mbs.get ⟨j, hj⟩) l
      ((mbs.get ⟨j, hj⟩).ranges.length - 1) k (by omega)
    have hmul := Nat.mul_le_mul_right (attribSizeOf P (mbs.get ⟨j, hj⟩) l) hm
    refine ⟨by omega, by omega, ?_⟩
    intro hr
    have hle : runningCountAt (mbs.get ⟨j, hj⟩) k l ≤
        runningCountAt (mbs.get ⟨j, hj⟩) k l * attribSizeOf P (mbs.get ⟨j, hj⟩) l :=
      Nat.le_mul_of_pos_right _ hpos
    rw [← runningCountAt_perVertex _ k l hr]
    simp only [U32, USIZE] at *
    omega
  refine ⟨?_, ?_, ?_⟩
  · intro k hk'
    constructor
    · refine ⟨cdotOf P (mbs.get ⟨j, hj⟩) (rambIn j) j k (totalBatches (mbs.take j) + k)
        (verticesBefore (mbs.get ⟨j, hj⟩) k) 0 l, ?_, rfl, rfl, rfl⟩
      rw [g6, mem_cdotStoresFrom]
      refine ⟨j, hj, k, by rw [hcnt j hj]; omega, ?_⟩
      rw [mem_cdotOfBatch]
      exact ⟨l, hl, hen, by simp⟩
    · refine ⟨copyOf P (mbs.get ⟨j, hj⟩) (rambIn j) j k
        (verticesBefore (mbs.get ⟨j, hj⟩) k) 0 l, ?_, rfl, rfl, rfl⟩
      rw [g5, mem_copiesFrom]
      refine ⟨j, hj, k, by rw [hcnt j hj]; omega, ?_⟩
      rw [mem_copiesOfBatch]
      exact ⟨l, hl, hen, by simp⟩
  · intro d hd hmb hloc
    rw [g6, mem_cdotStoresFrom] at hd
    obtain ⟨j', hj', b, hb', hd⟩ := hd
    rw [mem_cdotOfBatch] at hd
    obtain ⟨l', _, _, rfl⟩ := hd
    have e1 : j' = j := by simpa [cdotOf] using hmb
    have e2 : l' = l := by simpa [cdotOf] using hloc
    subst e1 e2
    rw [hcnt j' hj'] at hb'
    have hkb := hk b (by omega)
    rw [Nat.zero_add, cdotOf_va P _ _ _ _ _ _ hid hkb.2.1 hkb.2.2]
    refine ⟨?_, rfl⟩
    show utbFind P (mbs.get ⟨j', hj'⟩) l' = some ((utbFind P (mbs.get ⟨j', hj'⟩) l').getD 0)
    rw [hv]
    rfl
  · intro c hc hmb hloc
    rw [g5, mem_copiesFrom] at hc
    obtain ⟨j', hj', b, hb', hc⟩ := hc
    rw [mem_copiesOfBatch] at hc
    obtain ⟨l', _, _, rfl⟩ := hc
    have e1 : j' = j := by simpa [copyOf] using hmb
    have e2 : l' = l := by simpa [copyOf] using hloc
    subst e1 e2
    rw [hcnt j' hj'] at hb'
    have hkb := hk b (by omega)
    rw [Nat.zero_add, copyOf_dst P _ _ _ _ _ hkb.1 hkb.2.2]


/-- C11: on a commit that reaches no failure branch (the computed values fitting their
integer types), for every enabled attribute slot of every batch the offset-table row
of the batch receives a `VirtualAttribute` whose array element is the id registered
for the attribute's format and whose offset is `reservedByteOffset / attribSize` plus
the running element count: the vertices-written counter for a per-vertex attribute,
the instances-written counter for a per-instance one, the very count that positions
the copy of that batch. -/
theorem commit_virtual_attribute_offsets (P : CCPUMeshPackerV2)
    (rambIn : Nat → ReservedAllocationMeshBuffers) (mbs : List ICPUMeshBuffer)
    (h : NoFailure P rambIn mbs) (hfit : numBatches mbs < U32)
    (hattr : ∀ j (hj : j < mbs.length) l, l < P.MAX_ATTR_BUF_BINDING_COUNT →
      attribEnabled (mbs.get ⟨j, hj⟩) l = true → AttribFits P (mbs.get ⟨j, hj⟩) (rambIn j) l) :
    ∃ s, commit P rambIn mbs = some (numBatches mbs, s) ∧
      ∀ j (hj : j < mbs.length) l, l < P.MAX_ATTR_BUF_BINDING_COUNT →
        attribEnabled (mbs.get ⟨j, hj⟩) l = true →
        ∀ k, k + 1 < (mbs.get ⟨j, hj⟩).ranges.length →
          (∃ d ∈ s.cdotStores, d.mb = j ∧ d.batch = k ∧ d.location = l) ∧
          ∀ d ∈ s.cdotStores, d.mb = j → d.batch = k → d.location = l →
            utbFind P (mbs.get ⟨j, hj⟩) l = some d.va.arrayElement ∧
            d.va.offset = ((rambIn j).attribAllocParams l).offset /
                attribSizeOf P (mbs.get ⟨j, hj⟩) l + runningCountAt (mbs.get ⟨j, hj⟩) k l ∧
            ∀ c ∈ s.attribCopies, c.mb = j → c.batch = k → c.location = l →
              c.dst = ((rambIn j).attribAllocParams l).offset +
                runningCountAt (mbs.get ⟨j, hj⟩) k l * attribSizeOf P (mbs.get ⟨j, hj⟩) l := by
  obtain ⟨s, hs, hall⟩ := commit_rows_and_copies P rambIn mbs h hfit hattr
  refine ⟨s, hs, ?_⟩
  intro j hj l hl hen k hk
  obtain ⟨hex, hrow, hcopy⟩ := hall j hj l hl hen
  refine ⟨(hex k hk).1, ?_⟩
  intro d hd hmb hbatch hloc
  have hd' := hrow d hd hmb hloc
  rw [hbatch] at hd'
  refine ⟨hd'.1, hd'.2, ?_⟩
  intro c hc hcmb hcbatch hcloc
  have hc' := hcopy c hc hcmb hcloc
  rw [hcbatch] at hc'
  exact hc'

/-- Witness of C11: a per-vertex and a per-instance mesh buffer with two batches each. -/
theorem commit_virtual_attribute_offsets_witness :
    NoFailure examplePacker exampleRamb
        [exampleMesh 1 .EVIR_PER_VERTEX [0, 2, 5], exampleMesh 1 .EVIR_PER_INSTANCE [0, 1, 2]] ∧
      ∃ s, commit examplePacker exampleRamb
          [exampleMesh 1 .EVIR_PER_VERTEX [0, 2, 5], exampleMesh 1 .EVIR_PER_INSTANCE [0, 1, 2]] =
            some (4, s) ∧
        ∀ d ∈ s.cdotStores, d.mb = 0 → d.batch = 1 → d.location = 0 →
          d.va.arrayElement = 7 ∧ d.va.offset = 100 / 4 + 2 :=
  ⟨by decide,
    (commit_virtual_attribute_offsets examplePacker exampleRamb
      [exampleMesh 1 .EVIR_PER_VERTEX [0, 2, 5], exampleMesh 1 .EVIR_PER_INSTANCE [0, 1, 2]]
      (by decide) (by decide) (by decide)).imp
      (fun _ hs => ⟨hs.1, fun d hd h1 h2 h3 =>
        have hh := (hs.2 0 (by decide) 0 (by decide) (by decide) 1 (by decide)).2 d hd h1 h2 h3
        ⟨Option.some.inj (hh.1.symm.trans (by decide)), hh.2.1.trans (by decide)⟩⟩)⟩

/-- C12, counterexample: one batch, a four-byte per-vertex attribute reserved at byte
`102`.  The data is copied to byte `102`, the emitted element offset is `25`, and
`25 * 4 = 100` is not `102`. -/
theorem commit_unaligned_offset_misaddressed :
    (commit examplePacker (rambAt 102) [exampleMesh 1 .EVIR_PER_VERTEX [0, 1]]).map
        (fun r => (r.2.cdotStores.map (fun d => d.va.offset * 4),
          r.2.attribCopies.map (fun c => c.dst))) = some ([100], [102]) := by
  decide

/-- C12, amended: on a commit that reaches no failure branch (the computed values
fitting their integer types), for every batch and every enabled attribute slot whose
reserved byte offset is a multiple of the attribute's byte size, the emitted element
offset multiplied by the byte size is the byte position at which the data of the
batch was copied. -/
theorem commit_virtual_attribute_addresses_copy (P : CCPUMeshPackerV2)
    (rambIn : Nat → ReservedAllocationMeshBuffers) (mbs : List ICPUMeshBuffer)
    (h : NoFailure P rambIn mbs) (hfit : numBatches mbs < U32)
    (hattr : ∀ j (hj : j < mbs.length) l, l < P.MAX_ATTR_BUF_BINDING_COUNT →
      attribEnabled (mbs.get ⟨j, hj⟩) l = true → AttribFits P (mbs.get ⟨j, hj⟩) (rambIn j) l) :
    ∃ s, commit P rambIn mbs = some (numBatches mbs, s) ∧
      ∀ j (hj : j < mbs.length) l, l < P.MAX_ATTR_BUF_BINDING_COUNT →
        attribEnabled (mbs.get ⟨j, hj⟩) l = true →
        attribSizeOf P (mbs.get ⟨j, hj⟩) l ∣ ((rambIn j).attribAllocParams l).offset →
        (∀ k, k + 1 < (mbs.get ⟨j, hj⟩).ranges.length →
          (∃ d ∈ s.cdotStores, d.mb = j ∧ d.batch = k ∧ d.location = l) ∧
          (∃ c ∈ s.attribCopies, c.mb = j ∧ c.batch = k ∧ c.location = l)) ∧
        ∀ d ∈ s.cdotStores, ∀ c ∈ s.attribCopies, d.mb = j → d.location = l →
          c.mb = j → c.location = l → c.batch = d.batch →
          d.va.offset * attribSizeOf P (mbs.get ⟨j, hj⟩) l = c.dst := by
  obtain ⟨s, hs, hall⟩ := commit_rows_and_copies P rambIn mbs h hfit hattr
  refine ⟨s, hs, ?_⟩
  intro j hj l hl hen hdiv
  obtain ⟨hex, hrow, hcopy⟩ := hall j hj l hl hen
  refine ⟨hex, ?_⟩
  intro d hd c hc hdmb hdloc hcmb hcloc hbatch
  rw [(hrow d hd hdmb hdloc).2, hcopy c hc hcmb hcloc, hbatch, Nat.add_mul,
    Nat.div_mul_cancel hdiv]

/-- Witness of C12, amended: byte offset `100`, a multiple of the byte size `4`. -/
theorem commit_virtual_attribute_addresses_copy_witness :
    NoFailure examplePacker exampleRamb [exampleMesh 1 .EVIR_PER_VERTEX [0, 2, 5]] ∧
      ∃ s, commit examplePacker exampleRamb [exampleMesh 1 .EVIR_PER_VERTEX [0, 2, 5]] =
          some (2, s) ∧
        ∀ d ∈ s.cdotStores, ∀ c ∈ s.attribCopies, d.mb = 0 → d.location = 0 →
          c.mb = 0 → c.location = 0 → c.batch = d.batch → d.va.offset * 4 = c.dst :=
  ⟨by decide,
    (commit_virtual_attribute_addresses_copy examplePacker exampleRamb
      [exampleMesh 1 .EVIR_PER_VERTEX [0, 2, 5]] (by decide) (by decide) (by decide)).imp
      (fun _ hs => ⟨hs.1, (hs.2 0 (by decide) 0 (by decide) (by decide) (by decide)).2⟩)⟩


/-! ## Order of the outputs -/

theorem slots_mdiStoresFrom (rambIn : Nat → ReservedAllocationMeshBuffers) :
    ∀ (mbs : List ICPUMeshBuffer) (i ptr : Nat),
      (mdiStoresFrom rambIn i ptr mbs).map (fun e => e.slot) =
        List.range' ptr (totalBatches mbs) := by
  intro mbs
  induction mbs with
  | nil => intro i ptr; simp [mdiStoresFrom, totalBatches]
  | cons mb rest ih =>
    intro i ptr
    have h1 : ((List.range' 0 (batchCnt mb)).map (mdiOf mb (rambIn i) i ptr)).map
        (fun e => e.slot) = List.range' ptr (batchCnt mb) := by
      have h0 : (fun e : MDIStore => e.slot) ∘ mdiOf mb (rambIn i) i ptr = fun x => ptr + x := by
        funext x
        rfl
      rw [List.map_map, h0, List.map_add_range', Nat.add_zero]
    have h2 := List.range'_append ptr (batchCnt mb) (totalBatches rest) 1
    simp only [Nat.one_mul] at h2
    rw [mdiStoresFrom, List.map_append, h1, ih, h2, totalBatches_cons, Nat.add_comm]

theorem indices_pmbdStoresFrom (base : Nat) :
    ∀ (mbs : List ICPUMeshBuffer) (i tot : Nat),
      (pmbdStoresFrom base i tot mbs).map (fun p => p.index) = List.range' i mbs.length := by
  intro mbs
  induction mbs with
  | nil => intro i tot; rfl
  | cons mb rest ih =>
    intro i tot
    simp [pmbdStoresFrom, ih, List.range'_succ]

/-- C15: on a commit that reaches no failure branch, one descriptor is stored per mesh
buffer, at positions `0, 1, ..` of the output array; the `b`-th indirect-draw command
stored by the call is at slot `base + b`; every offset-table entry of the batch of
that command is written into row `b`; the rows used are `0 .. returned value - 1`,
and `cdotOut` has advanced by the value `commit` returns. -/
theorem commit_rows_parallel_to_commands (P : CCPUMeshPackerV2)
    (rambIn : Nat → ReservedAllocationMeshBuffers) (mbs : List ICPUMeshBuffer)
    (h : NoFailure P rambIn mbs) (hfit : numBatches mbs < U32) :
    ∃ s, commit P rambIn mbs = some (numBatches mbs, s) ∧
      s.pmbdStores.map (fun p => p.index) = List.range mbs.length ∧
      s.mdiStores.map (fun e => e.slot) =
        List.range' (rambIn 0).mdiAllocationOffset (numBatches mbs) ∧
      s.cdotOut = numBatches mbs ∧
      (∀ d ∈ s.cdotStores, d.row < numBatches mbs) ∧
      (∀ b e, s.mdiStores.get? b = some e →
        e.slot = (rambIn 0).mdiAllocationOffset + b ∧
        ∀ d ∈ s.cdotStores, d.mb = e.mb → d.batch = e.batch → d.row = b) := by
  obtain ⟨s, hs, _, g2, g3, g4, _, g6⟩ := commit_ok P rambIn mbs h
  have htot := totalBatches_eq mbs h.ranges_ne hfit
  have hslots : s.mdiStores.map (fun e => e.slot) =
      List.range' (rambIn 0).mdiAllocationOffset (numBatches mbs) := by
    rw [g3, slots_mdiStoresFrom, htot]
  have hrow : ∀ d ∈ s.cdotStores, ∃ j, ∃ hj : j < mbs.length, ∃ k,
      k < batchCnt (mbs.get ⟨j, hj⟩) ∧ d.mb = j ∧ d.batch = k ∧
        d.row = totalBatches (mbs.take j) + k := by
    intro d hd
    rw [g6, mem_cdotStoresFrom] at hd
    obtain ⟨j, hj, k, hk, hd⟩ := hd
    rw [mem_cdotOfBatch] at hd
    obtain ⟨l, _, _, rfl⟩ := hd
    exact ⟨j, hj, k, hk, by simp [cdotOf], by simp [cdotOf], by simp [cdotOf]⟩
  refine ⟨s, by rw [hs, htot, Nat.mod_eq_of_lt hfit], ?_, hslots, by rw [g2, htot], ?_, ?_⟩
  · rw [g4, indices_pmbdStoresFrom, List.range_eq_range']
  · intro d hd
    obtain ⟨j, hj, k, hk, _, _, hr⟩ := hrow d hd
    have h1 := totalBatches_take_succ mbs j hj
    have h2 := totalBatches_take_le mbs (j + 1)
    omega
  · intro b e hbe
    have hmem : e ∈ s.mdiStores := List.get?_mem hbe
    have hslot : e.slot = (rambIn 0).mdiAllocationOffset + b := by
      have h1 : (s.mdiStores.map (fun e => e.slot))[b]? = some e.slot := by
        rw [List.getElem?_map, ← List.get?_eq_getElem?, hbe]
        rfl
      rw [hslots] at h1
      have hb : b < numBatches mbs := by
        by_contra hnb
        rw [List.getElem?_eq_none (by simpa using Nat.le_of_not_lt hnb)] at h1
        cases h1
      rw [List.getElem?_range' _ 1 hb] at h1
      have := Option.some.inj h1
      omega
    refine ⟨hslot, ?_⟩
    intro d hd hmb hbatch
    obtain ⟨j, hj, k, hk, hdm, hdb, hr⟩ := hrow d hd
    rw [g3, mem_mdiStoresFrom] at hmem
    obtain ⟨j', hj', k', hk', rfl⟩ := hmem
    have e1 : j = j' := by
      have : d.mb = j' := by simpa [mdiOf] using hmb
      omega
    have e2 : k = k' := by
      have : d.batch = k' := by simpa [mdiOf] using hbatch
      omega
    subst e1 e2
    have hs2 : (rambIn 0).mdiAllocationOffset + totalBatches (mbs.take j) + k =
        (rambIn 0).mdiAllocationOffset + b := by
      simpa [mdiOf] using hslot
    omega

/-- Witness of C15: two mesh buffers with two batches each. -/
theorem commit_rows_parallel_to_commands_witness :
    NoFailure examplePacker exampleRamb
        [exampleMesh 1 .EVIR_PER_VERTEX [0, 2, 5], exampleMesh 1 .EVIR_PER_INSTANCE [0, 1, 2]] ∧
      ∃ s, commit examplePacker exampleRamb
          [exampleMesh 1 .EVIR_PER_VERTEX [0, 2, 5], exampleMesh 1 .EVIR_PER_INSTANCE [0, 1, 2]] =
            some (4, s) ∧
        s.mdiStores.map (fun e => e.slot) = [5, 6, 7, 8] ∧ s.cdotOut = 4 :=
  ⟨by decide,
    (commit_rows_parallel_to_commands examplePacker exampleRamb
      [exampleMesh 1 .EVIR_PER_VERTEX [0, 2, 5], exampleMesh 1 .EVIR_PER_INSTANCE [0, 1, 2]]
      (by decide) (by decide)).imp
      (fun _ hs => ⟨hs.1, hs.2.2.1, hs.2.2.2.1⟩)⟩


/-- C13: a mesh buffer for which the partitioner returns a single boundary, no batch
(under the partitioner's contract: the mesh buffer has zero triangles and the boundary
is `0`).  The local `batchCnt` is `0`.  At every position of a range and in every
state of `commit`, whatever the attributes of the mesh buffer, the iteration for it
goes on to the next mesh buffer, stores no indirect-draw command, writes no
offset-table row, issues no copy, moves neither output pointer, and stores a
descriptor with command count `0`.  And on every range that holds it at position `j`
and reaches no failure branch, `commit` returns the number of batches of the range,
with no command, row entry or copy for position `j` and a descriptor `j` of count `0`. -/
theorem commit_mesh_without_batches (P : CCPUMeshPackerV2) (mb : ICPUMeshBuffer)
    (hempty : mb.ranges.length = 1) :
    batchCnt mb = 0 ∧
      (Partitioned mb → mb.triangleCount = 0 ∧ mb.ranges = [0]) ∧
      (∀ (rambIn : Nat → ReservedAllocationMeshBuffers) (i : Nat) (s : CommitState),
        ∃ s1, meshStep P rambIn i mb s = .next s1 ∧
          s1.mdiStores = s.mdiStores ∧ s1.cdotStores = s.cdotStores ∧
          s1.attribCopies = s.attribCopies ∧ s1.mdiBuffPtr = s.mdiBuffPtr ∧
          s1.cdotOut = s.cdotOut ∧ s1.batchCntTotal = s.batchCntTotal % U32 ∧
          s1.pmbdStores = s.pmbdStores ++
            [⟨i, ⟨((rambIn 0).mdiAllocationOffset + s.batchCntTotal) % U32, 0⟩⟩]) ∧
      (∀ (rambIn : Nat → ReservedAllocationMeshBuffers) (mbs : List ICPUMeshBuffer) (j : Nat)
          (hj : j < mbs.length), mbs.get ⟨j, hj⟩ = mb → NoFailure P rambIn mbs →
          numBatches mbs < U32 →
        ∃ s off, commit P rambIn mbs = some (numBatches mbs, s) ∧
          (∀ e ∈ s.mdiStores, e.mb ≠ j) ∧ (∀ d ∈ s.cdotStores, d.mb ≠ j) ∧
          (∀ c ∈ s.attribCopies, c.mb ≠ j) ∧
          s.pmbdStores.get? j = some ⟨j, ⟨off, 0⟩⟩) := by
  have hne : mb.ranges ≠ [] := by
    intro h0
    rw [h0] at hempty
    cases hempty
  have hcnt : batchCnt mb = 0 := by
    rw [batchCnt_eq mb hne (by rw [hempty]; decide), hempty]
  refine ⟨hcnt, ?_, ?_, ?_⟩
  · intro hp
    obtain ⟨h0, hlast, _⟩ := hp
    rw [hempty] at hlast
    have hlast0 : mb.ranges.getD 0 0 = mb.triangleCount := hlast
    refine ⟨by rw [← hlast0, h0], ?_⟩
    match hr : mb.ranges, hempty, h0 with
    | [a], _, h0 =>
      have ha : a = 0 := by simpa [hr] using h0
      rw [ha]
    | [], he, _ => simp [hr] at he
    | _ :: _ :: _, he, _ => simp [hr] at he
  · intro rambIn i s
    have hstep : meshStep P rambIn i mb s = meshStepWith P rambIn i mb 0 s := by
      rw [meshStep, hcnt]
    rw [hstep]
    exact ⟨_, rfl, rfl, rfl, rfl, rfl, rfl, rfl, rfl⟩
  · intro rambIn mbs j hj hmb h hfit
    obtain ⟨s, hs, _, _, g3, g4, g5, g6⟩ := commit_ok P rambIn mbs h
    have htot := totalBatches_eq mbs h.ranges_ne hfit
    have hcntj : batchCnt (mbs.get ⟨j, hj⟩) = 0 := by rw [hmb]; exact hcnt
    refine ⟨s, ((rambIn 0).mdiAllocationOffset + totalBatches (mbs.take j) % U32) % U32,
      by rw [hs, htot, Nat.mod_eq_of_lt hfit], ?_, ?_, ?_, ?_⟩
    · intro e he hej
      rw [g3, mem_mdiStoresFrom] at he
      obtain ⟨j1, hj1, b, hb, rfl⟩ := he
      have hjj : j1 = j := by simpa [mdiOf] using hej
      subst hjj
      rw [hcntj] at hb
      exact Nat.not_lt_zero b hb
    · intro d hd hdj
      rw [g6, mem_cdotStoresFrom] at hd
      obtain ⟨j1, hj1, b, hb, hd⟩ := hd
      rw [mem_cdotOfBatch] at hd
      obtain ⟨l, _, _, rfl⟩ := hd
      have hjj : j1 = j := by simpa [cdotOf] using hdj
      subst hjj
      rw [hcntj] at hb
      exact Nat.not_lt_zero b hb
    · intro c hc hcj
      rw [g5, mem_copiesFrom] at hc
      obtain ⟨j1, hj1, b, hb, hc⟩ := hc
      rw [mem_copiesOfBatch] at hc
      obtain ⟨l, _, _, rfl⟩ := hc
      have hjj : j1 = j := by simpa [copyOf] using hcj
      subst hjj
      rw [hcntj] at hb
      exact Nat.not_lt_zero b hb
    · rw [g4, get?_pmbdStoresFrom _ mbs 0 0 j hj, hcntj]
      simp only [Nat.zero_add]

/-- Witness of C13: the range whose second mesh buffer has the single boundary `0`;
`commit` returns `1`, the command of the first mesh buffer is the only one, and the
descriptors are `(5, 1)` and `(6, 0)`. -/
theorem commit_mesh_without_batches_witness :
    batchCnt (exampleMesh 1 .EVIR_PER_VERTEX [0]) = 0 ∧
      (commit examplePacker exampleRamb (rangeWithEmptyMesh 1)).map
          (fun r => (r.1, r.2.mdiStores.map (fun e => e.mb), r.2.pmbdStores)) =
        some (1, [0], [⟨0, ⟨5, 1⟩⟩, ⟨1, ⟨6, 0⟩⟩]) :=
  ⟨(commit_mesh_without_batches examplePacker (exampleMesh 1 .EVIR_PER_VERTEX [0])
      (by decide)).1, by decide⟩


/-! ## The packer state: capacities, allocators, output buffers -/

/-- The three capacities of `m_allocParams` that the class reads and writes. -/
structure AllocationParams where
  MDIDataBuffSupportedCnt : Nat
  indexBuffSupportedCnt : Nat
  vertexBuffSupportedByteSize : Nat
  deriving DecidableEq, Repr

/-- An address allocator of the base class, as far as this class uses it: the
allocations that are live, as (offset, size), and the value it reports for
`safe_shrink_size(minAlign, granularity)`. -/
structure Allocator where
  live : List (Nat × Nat)
  safe_shrink_size : Nat → Nat → Nat

/-- The byte sizes of the three buffers of `m_packerDataStore` (`none`: no buffer). -/
structure PackerDataStore where
  MDIDataBuffer : Option Nat
  indexBuffer : Option Nat
  vertexBuffer : Option Nat
  deriving DecidableEq, Repr

/-- State of a `CCPUMeshPackerV2`: the capacities, the three allocators, the output
buffers, the stores `commit` has made into them, and what `commit` consults. -/
structure PackerState where
  m_allocParams : AllocationParams
  m_MDIDataAlctr : Allocator
  m_idxBuffAlctr : Allocator
  m_vtxBuffAlctr : Allocator
  m_packerDataStore : PackerDataStore
  mdiStores : List MDIStore
  attribCopies : List AttribCopy
  config : CCPUMeshPackerV2

/-- The method `shrinkOutputBuffersSize` (lines 39-45). -/
def shrinkOutputBuffersSize (st : PackerState) : PackerState :=
  { st with
    m_allocParams :=
      { MDIDataBuffSupportedCnt := st.m_MDIDataAlctr.safe_shrink_size 0 1
        indexBuffSupportedCnt := st.m_idxBuffAlctr.safe_shrink_size 0 1
        vertexBuffSupportedByteSize := st.m_vtxBuffAlctr.safe_shrink_size 0 1 } }

/-- The method `instantiateDataStorage` (lines 67-72); `sizeofMDI` is
`sizeof(MDIStructType)`, `2` is `sizeof(uint16_t)`, the products are `size_t`. -/
def instantiateDataStorage (sizeofMDI : Nat) (st : PackerState) : PackerState :=
  { st with
    m_packerDataStore :=
      { MDIDataBuffer := some (st.m_allocParams.MDIDataBuffSupportedCnt * sizeofMDI % USIZE)
        indexBuffer := some (st.m_allocParams.indexBuffSupportedCnt * 2 % USIZE)
        vertexBuffer := some st.m_allocParams.vertexBuffSupportedByteSize } }

/-- The method `commit` on the packer state: the value returned and the state left,
in which the stores into the indirect-draw buffer and the copies into the vertex
buffer have been made; no other member is assigned. -/
def commitOn (st : PackerState) (rambIn : Nat → ReservedAllocationMeshBuffers)
    (mbs : List ICPUMeshBuffer) : Option (Nat × PackerState) :=
  (commit st.config rambIn mbs).map (fun r =>
    (r.1, { st with
      mdiStores := st.mdiStores ++ r.2.mdiStores
      attribCopies := st.attribCopies ++ r.2.attribCopies }))

/-- The `const` method `getDescriptorSetWritesForUTB` (lines 53-63): it returns what
the method of the base class, given here as `base`, returns, and leaves the state. -/
def getDescriptorSetWritesForUTB (base : PackerState → Nat × Nat) (st : PackerState) :
    (Nat × Nat) × PackerState :=
  (base st, st)

/-- A packer with capacities `10`, whose allocators each hold one allocation and
report the shrink sizes `3`, `4` and `5`. -/
def examplePackerState : PackerState :=
  { m_allocParams := ⟨10, 10, 10⟩
    m_MDIDataAlctr := ⟨[(0, 3)], fun _ _ => 3⟩
    m_idxBuffAlctr := ⟨[(1, 3)], fun _ _ => 4⟩
    m_vtxBuffAlctr := ⟨[(0, 5)], fun _ _ => 5⟩
    m_packerDataStore := ⟨none, none, none⟩
    mdiStores := []
    attribCopies := []
    config := examplePacker }

/-- C14, counterexample: `shrinkOutputBuffersSize` replaces the capacities
`(10, 10, 10)` by the shrink sizes `(3, 4, 5)` of the allocators. -/
theorem shrinkOutputBuffersSize_changes_capacities :
    examplePackerState.m_allocParams = ⟨10, 10, 10⟩ ∧
      (shrinkOutputBuffersSize examplePackerState).m_allocParams = ⟨3, 4, 5⟩ := by
  decide

/-- C14, amended: `commit`, `getDescriptorSetWritesForUTB` and `instantiateDataStorage`
leave the three capacities as they are; `shrinkOutputBuffersSize` sets each of them to
the value its allocator reports for `safe_shrink_size(0, 1)`. -/
theorem capacities_change_only_by_shrink (st : PackerState)
    (rambIn : Nat → ReservedAllocationMeshBuffers) (mbs : List ICPUMeshBuffer)
    (base : PackerState → Nat × Nat) (sizeofMDI : Nat) :
    (commitOn st rambIn mbs).map (fun r => r.2.m_allocParams) =
        (commitOn st rambIn mbs).map (fun _ => st.m_allocParams) ∧
      (getDescriptorSetWritesForUTB base st).2.m_allocParams = st.m_allocParams ∧
      (instantiateDataStorage sizeofMDI st).m_allocParams = st.m_allocParams ∧
      (shrinkOutputBuffersSize st).m_allocParams =
        ⟨st.m_MDIDataAlctr.safe_shrink_size 0 1, st.m_idxBuffAlctr.safe_shrink_size 0 1,
          st.m_vtxBuffAlctr.safe_shrink_size 0 1⟩ := by
  refine ⟨?_, rfl, rfl, rfl⟩
  simp only [commitOn, Option.map_map]
  rfl

/-- C16: after `shrinkOutputBuffersSize` and then `instantiateDataStorage`, the
indirect-draw buffer has `s_mdi * sizeof(MDIStructType)` bytes, the index buffer
`s_idx * 2` bytes and the vertex buffer `s_vtx` bytes, the `s` being the values the
allocators report for `safe_shrink_size(0, 1)` (the products fitting `size_t`); and
when each of these values is at least the end of every live allocation of its
address space, every live allocation lies inside its buffer. -/
theorem shrink_then_instantiate_fits (st : PackerState) (sizeofMDI : Nat)
    (hmdi : st.m_MDIDataAlctr.safe_shrink_size 0 1 * sizeofMDI < USIZE)
    (hidx : st.m_idxBuffAlctr.safe_shrink_size 0 1 * 2 < USIZE)
    (hlive1 : ∀ a ∈ st.m_MDIDataAlctr.live, a.1 + a.2 ≤ st.m_MDIDataAlctr.safe_shrink_size 0 1)
    (hlive2 : ∀ a ∈ st.m_idxBuffAlctr.live, a.1 + a.2 ≤ st.m_idxBuffAlctr.safe_shrink_size 0 1)
    (hlive3 : ∀ a ∈ st.m_vtxBuffAlctr.live, a.1 + a.2 ≤ st.m_vtxBuffAlctr.safe_shrink_size 0 1) :
    ∃ bm bi bv,
      (instantiateDataStorage sizeofMDI (shrinkOutputBuffersSize st)).m_packerDataStore =
        ⟨some bm, some bi, some bv⟩ ∧
      bm = st.m_MDIDataAlctr.safe_shrink_size 0 1 * sizeofMDI ∧
      bi = st.m_idxBuffAlctr.safe_shrink_size 0 1 * 2 ∧
      bv = st.m_vtxBuffAlctr.safe_shrink_size 0 1 ∧
      (∀ a ∈ st.m_MDIDataAlctr.live, (a.1 + a.2) * sizeofMDI ≤ bm) ∧
      (∀ a ∈ st.m_idxBuffAlctr.live, (a.1 + a.2) * 2 ≤ bi) ∧
      (∀ a ∈ st.m_vtxBuffAlctr.live, a.1 + a.2 ≤ bv) := by
  refine ⟨_, _, _, ?_, rfl, rfl, rfl, ?_, ?_, hlive3⟩
  · simp only [instantiateDataStorage, shrinkOutputBuffersSize, Nat.mod_eq_of_lt hmdi,
      Nat.mod_eq_of_lt hidx]
  · intro a ha
    exact Nat.mul_le_mul_right _ (hlive1 a ha)
  · intro a ha
    exact Nat.mul_le_mul_right _ (hlive2 a ha)

/-- Witness of C16: allocators with shrink sizes `3`, `4`, `5` and a 20-byte
indirect-draw structure. -/
theorem shrink_then_instantiate_fits_witness :
    (∀ a ∈ examplePackerState.m_idxBuffAlctr.live,
        a.1 + a.2 ≤ examplePackerState.m_idxBuffAlctr.safe_shrink_size 0 1) ∧
      ∃ bm bi bv,
        (instantiateDataStorage 20 (shrinkOutputBuffersSize examplePackerState)).m_packerDataStore =
          ⟨some bm, some bi, some bv⟩ ∧
        bm = examplePackerState.m_MDIDataAlctr.safe_shrink_size 0 1 * 20 ∧
        bi = examplePackerState.m_idxBuffAlctr.safe_shrink_size 0 1 * 2 ∧
        bv = examplePackerState.m_vtxBuffAlctr.safe_shrink_size 0 1 ∧
        (∀ a ∈ examplePackerState.m_MDIDataAlctr.live, (a.1 + a.2) * 20 ≤ bm) ∧
        (∀ a ∈ examplePackerState.m_idxBuffAlctr.live, (a.1 + a.2) * 2 ≤ bi) ∧
        (∀ a ∈ examplePackerState.m_vtxBuffAlctr.live, a.1 + a.2 ≤ bv) :=
  ⟨by decide,
    shrink_then_instantiate_fits examplePackerState 20 (by decide) (by decide) (by decide)
      (by decide) (by decide)⟩


/-! ## `CWhiteNoiseDither::get`: the Wang hash -/

/-- The lambda `getWangHash` of `CWhiteNoiseDither::get` (lines 30-41), computed in
`size_t` of `w` bits.  `localByteOffset` is the value of
`IImage::SBufferCopy::getLocalByteOffset(pixelCoord, bufferStridesHash)`; `channel`
is the `int32_t` argument, converted to `size_t` for the product. -/
def getWangHash (w : Nat) (localByteOffset : Nat) (channel : Int) : Nat :=
  let seed0 := localByteOffset % 2 ^ w * (channel % (2 ^ w : Int)).toNat % 2 ^ w
  let seed1 := (seed0 ^^^ 61) ^^^ (seed0 >>> 16)
  let seed2 := seed1 * 9 % 2 ^ w
  let seed3 := seed2 ^^^ (seed2 >>> 4)
  let seed4 := seed3 * 0x27d4eb2d % 2 ^ w
  seed4 ^^^ (seed4 >>> 15)

/-- The divisor `double(~0u)` of line 44. -/
def ditherDivisor : Nat := 4294967295

/-- C23 (the code at the failing input): with a 64-bit `size_t`, a zero byte offset
(or channel `0`) gives the hash `346819217770`, which exceeds the divisor
`2^32 - 1`: the value returned is about `80.75`, not in `[0, 1]`. -/
theorem getWangHash_exceeds_divisor :
    getWangHash 64 0 0 = 346819217770 ∧ ditherDivisor < getWangHash 64 0 0 ∧
      80 * ditherDivisor < getWangHash 64 0 0 := by
  decide


/-! ## `CElementTexture::addProperty` -/

/-- The texture types of `CElementTexture::Type`. -/
inductive TextureType where
  | INVALID
  | BITMAP
  | SCALE
  deriving DecidableEq, Repr

/-- The filter types of `Bitmap::FILTER_TYPE`. -/
inductive FILTER_TYPE where
  | EWA
  | TRILINEAR
  | NEAREST
  deriving DecidableEq, Repr

/-- The wrap modes of `Bitmap::WRAP_MODE`. -/
inductive WRAP_MODE where
  | REPEAT
  | MIRROR
  | CLAMP
  | ZERO
  | ONE
  deriving DecidableEq, Repr

/-- The value of a property: a float (its bits), a string, or a value of another
type of `SPropertyElementData::Type`. -/
inductive PropertyValue where
  | float (bits : Nat)
  | string (s : String)
  | other (tag : Nat)
  deriving DecidableEq, Repr

/-- A named property `SNamedPropertyElement`. -/
structure SNamedPropertyElement where
  name : String
  value : PropertyValue
  deriving DecidableEq, Repr

/-- The member `bitmap` of a texture element. -/
structure Bitmap where
  filename : Option SNamedPropertyElement
  wrapModeU : WRAP_MODE
  wrapModeV : WRAP_MODE
  gamma : Nat
  filterType : FILTER_TYPE
  maxAnisotropy : Nat
  uoffset : Nat
  voffset : Nat
  uscale : Nat
  vscale : Nat
  deriving DecidableEq, Repr

/-- A texture element: its type, the bitmap member and the scale factor (bits). -/
structure CElementTexture where
  type : TextureType
  bitmap : Bitmap
  scale : Nat
  deriving DecidableEq, Repr

/-- Key of the case-insensitive maps: the characters in lower case. -/
def lowerKey (s : String) : List Char := s.data.map Char.toLower

/-- The lambda `getWrapMode` (lines 110-125). -/
def getWrapMode (p : SNamedPropertyElement) : WRAP_MODE :=
  match p.value with
  | .string v =>
    if lowerKey v = lowerKey "repeat" then .REPEAT
    else if lowerKey v = lowerKey "mirror" then .MIRROR
    else if lowerKey v = lowerKey "clamp" then .CLAMP
    else if lowerKey v = lowerKey "zero" then .ZERO
    else if lowerKey v = lowerKey "one" then .ONE
    else .REPEAT
  | _ => .REPEAT

/-- The lookup `StringToType.find(..)` of `processFilterType` (lines 171-179): `none`
is `end()`. -/
def findFilterType (p : SNamedPropertyElement) : Option FILTER_TYPE :=
  match p.value with
  | .string v =>
    if lowerKey v = lowerKey "ewa" then some .EWA
    else if lowerKey v = lowerKey "trilinear" then some .TRILINEAR
    else if lowerKey v = lowerKey "nearest" then some .NEAREST
    else none
  | _ => none

/-- The lambda `processFilterType` for a `BITMAP` texture (lines 164-189): the new
bitmap and the value of `error`, or `none` when `found->second` is read with
`found == end()`, which is undefined.  The test of line 180 is `found != end()`. -/
def processFilterType (p : SNamedPropertyElement) (b : Bitmap) : Option (Bitmap × Bool) :=
  match findFilterType p with
  | some _ => some (b, true)
  | none => none

/-- A lambda made by `SET_PROPERTY_TEMPLATE(MEMBER, FLOAT, Bitmap)`: `set` assigns
the member. -/
def setFloatProperty (set : Bitmap → Nat → Bitmap) (p : SNamedPropertyElement) (b : Bitmap) :
    Option (Bitmap × Bool) :=
  match p.value with
  | .float bits => some (set b bits, false)
  | _ => some (b, true)

/-- The handler that `SetPropertyMap` associates with a property name, for a
`BITMAP` texture (lines 199-213); `none` is `end()`. -/
def setPropertyMap (name : String) :
    Option (SNamedPropertyElement → Bitmap → Option (Bitmap × Bool)) :=
  if lowerKey name = lowerKey "filename" then
    some (fun p b => some ({ b with filename := some p }, false))
  else if lowerKey name = lowerKey "wrapMode" then
    some (fun p b => some ({ b with wrapModeU := getWrapMode p, wrapModeV := getWrapMode p }, false))
  else if lowerKey name = lowerKey "wrapModeU" then
    some (fun p b => some ({ b with wrapModeU := getWrapMode p }, false))
  else if lowerKey name = lowerKey "wrapModeV" then
    some (fun p b => some ({ b with wrapModeV := getWrapMode p }, false))
  else if lowerKey name = lowerKey "gamma" then
    some (setFloatProperty (fun b v => { b with gamma := v }))
  else if lowerKey name = lowerKey "filterType" then some processFilterType
  else if lowerKey name = lowerKey "maxAnisotropy" then
    some (setFloatProperty (fun b v => { b with maxAnisotropy := v }))
  else if lowerKey name = lowerKey "uoffset" then
    some (setFloatProperty (fun b v => { b with uoffset := v }))
  else if lowerKey name = lowerKey "voffset" then
    some (setFloatProperty (fun b v => { b with voffset := v }))
  else if lowerKey name = lowerKey "uscale" then
    some (setFloatProperty (fun b v => { b with uscale := v }))
  else if lowerKey name = lowerKey "vscale" then
    some (setFloatProperty (fun b v => { b with vscale := v }))
  else none

/-- The method `CElementTexture::addProperty` (lines 58-226): the value returned and
the element afterwards, or `none` when the behaviour is undefined. -/
def addProperty (t : CElementTexture) (p : SNamedPropertyElement) :
    Option (Bool × CElementTexture) :=
  match t.type with
  | .SCALE =>
    match p.value with
    | .float bits => some (true, { t with scale := bits })
    | _ => some (false, t)
  | .BITMAP =>
    match setPropertyMap p.name with
    | none => some (false, t)
    | some handler =>
      match handler p t.bitmap with
      | some (b, error) => some (!error, { t with bitmap := b })
      | none => none
  | .INVALID =>
    match setPropertyMap p.name with
    | none => some (false, t)
    | some _ => some (false, t)

/-- A `BITMAP` texture element with the filter type `TRILINEAR`. -/
def exampleTexture : CElementTexture :=
  { type := .BITMAP
    bitmap := ⟨none, .REPEAT, .REPEAT, 0, .TRILINEAR, 0, 0, 0, 0, 0⟩
    scale := 0 }

/-- C20 (the code at the failing inputs): for a `BITMAP` texture whose filter type is
`TRILINEAR`, the property `filterType` with the string `ewa` (or `EWA`, or `nearest`)
makes `addProperty` return `false` and leaves the filter type `TRILINEAR`; with a
string outside the table the behaviour is undefined. -/
theorem addProperty_filterType_rejects_known_values :
    addProperty exampleTexture ⟨"filterType", .string "ewa"⟩ = some (false, exampleTexture) ∧
      addProperty exampleTexture ⟨"FILTERTYPE", .string "EWA"⟩ = some (false, exampleTexture) ∧
      addProperty exampleTexture ⟨"filterType", .string "nearest"⟩ = some (false, exampleTexture) ∧
      addProperty exampleTexture ⟨"filterType", .string "bilinear"⟩ = none := by
  decide


/-! ## `IAssetManager` -/

/-- An asset, as far as the manager looks at it: an identity, the index of its type
(`IAsset::typeFlagToIndex(getAssetType())`) and its cache key. -/
structure IAsset where
  id : Nat
  typeIx : Nat
  cacheKey : String
  deriving DecidableEq, Repr

/-- Modelled from the spec: the cache class `CConcurrentMultiObjectCache` is not among
the sources; a cache is the list of its (key, asset) pairs, several assets being
allowed under one key. -/
abbrev AssetCache := List (String × IAsset)

/-- Modelled from the spec: `findAndStoreRange(_key, readCnt, _out)` of the cache
class, not among the sources.  It stores the assets found under the key as far as
`readCnt` allows, reports how many it stored, and succeeds exactly when all of them
fitted. -/
def findAndStoreRange (cache : AssetCache) (key : String) (readCnt : Nat) : Bool × List IAsset :=
  (decide (((cache.filter (fun kv => kv.1 = key)).map Prod.snd).length ≤ readCnt),
    ((cache.filter (fun kv => kv.1 = key)).map Prod.snd).take readCnt)

/-- A loader: an identity, its associated file extensions, and its two methods as
functions of the file name. -/
structure IAssetLoader where
  id : Nat
  getAssociatedFileExtensions : List String
  isALoadableFileFormat : String → Bool
  loadAsset : String → Option IAsset

/-- State of the manager: the per-type asset caches and the members of `m_loaders`. -/
structure IAssetManager where
  m_assetCache : List AssetCache
  vector : List IAssetLoader
  assoc : List (String × IAssetLoader)

/-- Locals of `findAssets`: `availableSize`, `_inOutStorageSize`, `res` and what has
been stored through `_out`. -/
structure FindState where
  availableSize : Nat
  inOutStorageSize : Nat
  res : Bool
  out : List IAsset
  deriving DecidableEq, Repr

/-- Body of both loops of `findAssets` (lines 207-212, 219-223) for one type index. -/
def findStep (m : IAssetManager) (key : String) (typeIx : Nat) (st : FindState) : FindState :=
  let r := findAndStoreRange (m.m_assetCache.getD typeIx []) key st.availableSize
  { availableSize := (st.availableSize + USIZE - r.2.length) % USIZE
    inOutStorageSize := (st.inOutStorageSize + r.2.length) % USIZE
    res := r.1
    out := st.out ++ r.2 }

/-- The `while` loop over the zero-terminated array `_types` (lines 203-213), given
as the list of the type indices before the terminator. -/
def findTyped (m : IAssetManager) (key : String) : List Nat → FindState → FindState
  | [], st => st
  | t :: ts, st => if 0 < st.availableSize then findTyped m key ts (findStep m key t st) else st

/-- The method `findAssets(_inOutStorageSize, _out, _key, _types)` (lines 195-226):
the value returned, the count reported in `_inOutStorageSize`, the assets stored. -/
def findAssets (m : IAssetManager) (storageSize : Nat) (key : String)
    (types : Option (List Nat)) : Bool × Nat × List IAsset :=
  let st0 : FindState := ⟨storageSize % USIZE, 0, true, []⟩
  let st := match types with
    | some ts => findTyped m key ts st0
    | none => (List.range m.m_assetCache.length).foldl (fun st typeIx => findStep m key typeIx st) st0
  (st.res, st.inOutStorageSize, st.out)

/-- A manager with two caches: two assets under the key `k` in the first, none in the
second. -/
def exampleManager : IAssetManager :=
  { m_assetCache := [[("k", ⟨1, 0, "k"⟩), ("k", ⟨2, 0, "k"⟩)], []]
    vector := []
    assoc := [] }

/-- C19 (the code at the failing input): storage for one asset, no type list.  The
lookup in the first cache finds two assets and fails, the lookup in the second cache
succeeds with nothing left to store, and `findAssets` returns `true`. -/
theorem findAssets_forgets_failed_lookup :
    (findAndStoreRange (exampleManager.m_assetCache.getD 0 []) "k" 1).1 = false ∧
      findAssets exampleManager 1 "k" none = (true, 1, [⟨1, 0, "k"⟩]) := by
  decide

/-- The method `getAssetLoaderCount` (line 323). -/
def getAssetLoaderCount (m : IAssetManager) : Nat := m.vector.length % USIZE % U32

/-- The method `getAssetLoader` (lines 324-327); `none` past the end of the vector. -/
def getAssetLoader (m : IAssetManager) (idx : Nat) : Option IAssetLoader := m.vector.get? idx

/-- The method `addAssetLoader` (lines 330-339): the value returned and the state
afterwards. -/
def addAssetLoader (m : IAssetManager) (loader : IAssetLoader) : Nat × IAssetManager :=
  let m1 : IAssetManager :=
    { m with assoc := m.assoc ++ loader.getAssociatedFileExtensions.map (fun ext => (ext, loader)) }
  let m2 : IAssetManager := { m1 with vector := m1.vector ++ [loader] }
  ((m2.vector.length % USIZE + USIZE - 1) % USIZE % U32, m2)

/-- C17: as long as the number of loaders fits the `uint32_t` result,
`addAssetLoader` returns the loader count before the call, the count afterwards is one
larger, the loader at the returned index is the added one, and the loaders at the
smaller indices are the same as before. -/
theorem addAssetLoader_returns_index (m : IAssetManager) (loader : IAssetLoader)
    (hfit : m.vector.length + 1 < U32) :
    (addAssetLoader m loader).1 = getAssetLoaderCount m ∧
      getAssetLoaderCount (addAssetLoader m loader).2 = getAssetLoaderCount m + 1 ∧
      getAssetLoader (addAssetLoader m loader).2 (addAssetLoader m loader).1 = some loader ∧
      ∀ i, i < (addAssetLoader m loader).1 →
        getAssetLoader (addAssetLoader m loader).2 i = getAssetLoader m i ∧
        (getAssetLoader m i).isSome = true := by
  have h1 : (addAssetLoader m loader).1 = m.vector.length := by
    simp only [addAssetLoader, List.length_append, List.length_singleton, USIZE, U32] at *
    omega
  have h2 : getAssetLoaderCount m = m.vector.length := by
    simp only [getAssetLoaderCount, USIZE, U32] at *
    omega
  have h3 : (addAssetLoader m loader).2.vector = m.vector ++ [loader] := rfl
  refine ⟨by rw [h1, h2], ?_, ?_, ?_⟩
  · simp only [getAssetLoaderCount, h3, List.length_append, List.length_singleton, USIZE,
      U32] at *
    omega
  · rw [h1, getAssetLoader, h3]
    simp
  · intro i hi
    rw [h1] at hi
    simp only [getAssetLoader, h3]
    rw [List.get?_eq_getElem?, List.get?_eq_getElem?, List.getElem?_append_left hi]
    exact ⟨rfl, by simp [hi]⟩

/-- An STL loader that loads nothing. -/
def exampleLoader (id : Nat) : IAssetLoader :=
  { id := id
    getAssociatedFileExtensions := ["stl"]
    isALoadableFileFormat := fun _ => true
    loadAsset := fun _ => none }

/-- Witness of C17: a second loader is added to a manager holding one. -/
theorem addAssetLoader_returns_index_witness :
    (addAssetLoader { exampleManager with vector := [exampleLoader 7] } (exampleLoader 8)).1 =
        getAssetLoaderCount { exampleManager with vector := [exampleLoader 7] } ∧
      (addAssetLoader { exampleManager with vector := [exampleLoader 7] } (exampleLoader 8)).1 = 1 :=
  ⟨(addAssetLoader_returns_index { exampleManager with vector := [exampleLoader 7] }
      (exampleLoader 8) (by decide)).1, by decide⟩


/-- The two caching flags `getAssetInHierarchy` tests; their values are declared with
`IAssetLoader::E_CACHING_FLAGS`, outside the sources at hand. -/
structure CachingFlags where
  ECF_DONT_CACHE_TOP_LEVEL : Nat
  ECF_DUPLICATE_TOP_LEVEL : Nat

/-- The overload of `findAssets` that returns a vector (lines 227-249), without type
list: storage for as many assets as the caches hold, then the lookup. -/
def findAssetsVector (m : IAssetManager) (key : String) : List IAsset :=
  (findAssets m ((m.m_assetCache.map List.length).sum % USIZE) key none).2.2

/-- The function `getFileExt` (lines 416-423): what follows the last dot, in lower
case (the whole name when it has no dot). -/
def getFileExt (fileName : String) : List Char :=
  ((fileName.data.reverse.takeWhile (fun c => c != '.')).reverse).map Char.toLower

/-- A loop that tries loaders in turn (lines 135-139, 140-144): it stops at the first
loader that accepts the file and loads an asset; `calls` records the loaders asked. -/
def tryLoaders (fileName : String) : List IAssetLoader → List Nat → Option IAsset × List Nat
  | [], calls => (none, calls)
  | l :: ls, calls =>
    if l.isALoadableFileFormat fileName then
      match l.loadAsset fileName with
      | some a => (some a, calls ++ [l.id])
      | none => tryLoaders fileName ls (calls ++ [l.id])
    else tryLoaders fileName ls (calls ++ [l.id])

/-- The two loader loops of `getAssetInHierarchy` (lines 132-144): first the loaders
associated with the extension of the file, then, if no asset came out, all loaders. -/
def loadWithLoaders (m : IAssetManager) (fileName : String) : Option IAsset × List Nat :=
  let r := tryLoaders fileName
    ((m.assoc.filter (fun kv => kv.1.data = getFileExt fileName)).map Prod.snd) []
  match r.1 with
  | some a => (some a, r.2)
  | none => tryLoaders fileName m.vector r.2

/-- The method `insertAssetIntoCache` (lines 264-272), on the caches. -/
def insertAssetIntoCache (caches : List AssetCache) (a : IAsset) : List AssetCache :=
  caches.modify (fun c => c ++ [(a.cacheKey, a)]) a.typeIx

/-- What a call of `getAssetInHierarchy` leaves: the asset returned, the caches, and
the loaders it asked. -/
structure HierarchyResult where
  asset : Option IAsset
  caches : List AssetCache
  loaderCalls : List Nat
  deriving DecidableEq, Repr

/-- The method `getAssetInHierarchy(_file, _params, _hierarchyLevel, _override)` (lines
119-151); `none` when the shift count `_hierarchyLevel * 2` reaches 64, which is
undefined. -/
def getAssetInHierarchy (F : CachingFlags) (m : IAssetManager) (fileName : String)
    (cacheFlags level : Nat) : Option HierarchyResult :=
  if 64 ≤ level % U32 * 2 then none
  else
    let levelFlags := (cacheFlags % USIZE) >>> (level % U32 * 2)
    if levelFlags &&& F.ECF_DUPLICATE_TOP_LEVEL ≠ F.ECF_DUPLICATE_TOP_LEVEL ∧
        findAssetsVector m fileName ≠ [] then
      some ⟨(findAssetsVector m fileName).head?, m.m_assetCache, []⟩
    else
      match loadWithLoaders m fileName with
      | (some a, calls) =>
        if levelFlags &&& F.ECF_DONT_CACHE_TOP_LEVEL = 0 then
          some ⟨some { a with cacheKey := fileName },
            insertAssetIntoCache m.m_assetCache { a with cacheKey := fileName }, calls⟩
        else some ⟨some a, m.m_assetCache, calls⟩
      | (none, calls) => some ⟨none, m.m_assetCache, calls⟩

/-- C18: for a hierarchy level below 32, with `levelFlags` the cache flags shifted
right by twice the level: when `levelFlags` does not have all bits of
`ECF_DUPLICATE_TOP_LEVEL` and the caches hold an asset under the file name, the first
asset found is returned, no loader is asked and the caches are unchanged; when an
asset is loaded instead, it gets the file name as cache key and is inserted into the
cache of its type if the `ECF_DONT_CACHE_TOP_LEVEL` bit of `levelFlags` is clear, and
is returned as loaded, the caches unchanged, if that bit is set. -/
theorem getAssetInHierarchy_cache_policy (F : CachingFlags) (m : IAssetManager)
    (fileName : String) (cacheFlags level : Nat) (hlevel : level < 32) :
    (∀ a rest,
      (cacheFlags % USIZE) >>> (level * 2) &&& F.ECF_DUPLICATE_TOP_LEVEL ≠
        F.ECF_DUPLICATE_TOP_LEVEL →
      findAssetsVector m fileName = a :: rest →
      getAssetInHierarchy F m fileName cacheFlags level = some ⟨some a, m.m_assetCache, []⟩) ∧
    (∀ a calls,
      ((cacheFlags % USIZE) >>> (level * 2) &&& F.ECF_DUPLICATE_TOP_LEVEL =
          F.ECF_DUPLICATE_TOP_LEVEL ∨ findAssetsVector m fileName = []) →
      loadWithLoaders m fileName = (some a, calls) →
      ((cacheFlags % USIZE) >>> (level * 2) &&& F.ECF_DONT_CACHE_TOP_LEVEL = 0 →
        getAssetInHierarchy F m fileName cacheFlags level =
          some ⟨some { a with cacheKey := fileName },
            insertAssetIntoCache m.m_assetCache { a with cacheKey := fileName }, calls⟩) ∧
      ((cacheFlags % USIZE) >>> (level * 2) &&& F.ECF_DONT_CACHE_TOP_LEVEL ≠ 0 →
        getAssetInHierarchy F m fileName cacheFlags level =
          some ⟨some a, m.m_assetCache, calls⟩)) := by
  have hl : level % U32 = level := Nat.mod_eq_of_lt (by simp only [U32]; omega)
  have hshift : ¬ 64 ≤ level * 2 := by omega
  constructor
  · intro a rest hdup hfound
    simp only [getAssetInHierarchy, hl, if_neg hshift]
    rw [if_pos ⟨hdup, by rw [hfound]; exact List.cons_ne_nil _ _⟩, hfound]
    rfl
  · intro a calls hearly hload
    have hcond : ¬ ((cacheFlags % USIZE) >>> (level * 2) &&& F.ECF_DUPLICATE_TOP_LEVEL ≠
        F.ECF_DUPLICATE_TOP_LEVEL ∧ findAssetsVector m fileName ≠ []) := by
      rintro ⟨h1, h2⟩
      rcases hearly with h | h
      · exact h1 h
      · exact h2 h
    constructor
    · intro hbit
      simp only [getAssetInHierarchy, hl, if_neg hshift]
      rw [if_neg hcond, hload]
      simp only [hbit, if_true]
    · intro hbit
      simp only [getAssetInHierarchy, hl, if_neg hshift]
      rw [if_neg hcond, hload]
      simp only [hbit, if_false]

/-- The flag values used in the examples: bit `0` for "do not cache", bits `0` and `1`
for "duplicate". -/
def exampleFlags : CachingFlags := ⟨1, 3⟩

/-- A loader that loads every file as asset `9` of type `1`. -/
def loaderOfNine : IAssetLoader :=
  { id := 4
    getAssociatedFileExtensions := ["stl"]
    isALoadableFileFormat := fun _ => true
    loadAsset := fun _ => some ⟨9, 1, ""⟩ }

/-- Witness of C18: the manager whose first cache holds two assets under `k`; with
flags `0` the first is returned, and a file `m.stl` absent from the caches is loaded
by the registered loader and cached under its name. -/
theorem getAssetInHierarchy_cache_policy_witness :
    getAssetInHierarchy exampleFlags exampleManager "k" 0 0 =
        some ⟨some ⟨1, 0, "k"⟩, exampleManager.m_assetCache, []⟩ ∧
      getAssetInHierarchy exampleFlags { exampleManager with vector := [loaderOfNine] } "m.stl" 0 0 =
        some ⟨some ⟨9, 1, "m.stl"⟩,
          [[("k", ⟨1, 0, "k"⟩), ("k", ⟨2, 0, "k"⟩)], [("m.stl", ⟨9, 1, "m.stl"⟩)]], [4]⟩ :=
  ⟨(getAssetInHierarchy_cache_policy exampleFlags exampleManager "k" 0 0 (by decide)).1
      ⟨1, 0, "k"⟩ [⟨2, 0, "k"⟩] (by decide) (by decide),
    ((getAssetInHierarchy_cache_policy exampleFlags
      { exampleManager with vector := [loaderOfNine] } "m.stl" 0 0 (by decide)).2
      ⟨9, 1, ""⟩ [4] (Or.inr (by decide)) (by decide)).1 (by decide)⟩


/-! ## `CSTLMeshFileLoader::loadAsset` -/

/-- The X, Y, Z of a `core::vectorSIMDf`, each float given by its 32 bits. -/
structure vectorSIMDf where
  X : Nat
  Y : Nat
  Z : Nat
  deriving DecidableEq, Repr

/-- Negation of a float: the sign bit is flipped. -/
def negateFloat (bits : Nat) : Nat := bits ^^^ 0x80000000

/-- The method `getNextVector` (lines 210-232), applied to the three floats read
from the file: the last statement is `vec.X=-vec.X`. -/
def getNextVector (read : vectorSIMDf) : vectorSIMDf :=
  { read with X := negateFloat read.X }

/-- What one facet of the file holds: the normal, the three vertices in file order,
and (binary files) the 16-bit attribute. -/
structure Facet where
  normal : vectorSIMDf
  v0 : vectorSIMDf
  v1 : vectorSIMDf
  v2 : vectorSIMDf
  attrib : Nat
  deriving DecidableEq, Repr

/-- The functions `loadAsset` calls and that are defined elsewhere: the colour
conversion, the normal of the plane through three points, the normal quantisation. -/
structure STLHelpers where
  A1R5G5B5toA8R8G8B8 : Nat → Nat
  planeNormal : vectorSIMDf → vectorSIMDf → vectorSIMDf → vectorSIMDf
  quantizeNormal2_10_10_10 : vectorSIMDf → Nat

/-- The locals of `loadAsset` that the facet loop updates. -/
structure STLState where
  positions : List vectorSIMDf
  normals : List vectorSIMDf
  colors : List Nat
  hasColor : Bool
  attrib : Nat
  deriving DecidableEq, Repr

/-- A float compares equal to `0.0f`: all bits but the sign are zero. -/
def isZeroFloat (bits : Nat) : Bool := bits % 0x80000000 == 0

/-- One iteration of the facet loop that runs to its end (lines 72-157). -/
def facetStep (H : STLHelpers) (binary : Bool) (st : STLState) (f : Facet) : STLState :=
  let n := getNextVector f.normal
  let normals1 := st.normals ++ [n]
  let p0 := getNextVector f.v0
  let p1 := getNextVector f.v1
  let p2 := getNextVector f.v2
  let positions1 := st.positions ++ [p2, p1, p0]
  let attrib := if binary then f.attrib % U16 else st.attrib
  let coloured := st.hasColor && (attrib &&& 0x8000 != 0)
  let colors1 := if coloured then st.colors ++ [H.A1R5G5B5toA8R8G8B8 attrib] else []
  let normals2 :=
    if isZeroFloat n.X && isZeroFloat n.Y && isZeroFloat n.Z then
      normals1.dropLast ++ [H.planeNormal p2 p1 p0]
    else normals1
  { positions := positions1
    normals := normals2
    colors := colors1
    hasColor := coloured
    attrib := attrib }

/-- The facet loop over the facets of the file. -/
def facetLoop (H : STLHelpers) (binary : Bool) : STLState → List Facet → STLState
  | st, [] => st
  | st, f :: fs => facetLoop H binary (facetStep H binary st f) fs

/-- The locals before the facet loop: `hasColor` is set together with `binary`
(line 45). -/
def initSTL (binary : Bool) : STLState := ⟨[], [], [], binary, 0⟩

/-- A vertex as the fill loop writes it: position, quantised normal, and the colour
when `hasColor`. -/
structure STLVertex where
  position : vectorSIMDf
  normal : Nat
  color : Option Nat
  deriving DecidableEq, Repr

/-- The fill loop (lines 168-178) with `n` iterations left, the next one being `i`;
`none` when `normals[i/3]`, `positions[i]` or `colors[i/3]` is read past the end. -/
def fillLoop (H : STLHelpers) (st : STLState) : Nat → Nat → Nat → Option (List STLVertex)
  | 0, _, _ => some []
  | n + 1, i, normal =>
    match (if i % 3 = 0 then (st.normals.get? (i / 3)).map H.quantizeNormal2_10_10_10
        else some normal) with
    | none => none
    | some nrm =>
      match st.positions.get? i with
      | none => none
      | some p =>
        match (if st.hasColor then (st.colors.get? (i / 3)).map some else some none) with
        | none => none
        | some c => (fillLoop H st n (i + 1) nrm).map (fun vs => ⟨p, nrm, c⟩ :: vs)

/-- The local `vtxSize` (line 164), `sizeof(float)` being `4`. -/
def vtxSize (st : STLState) : Nat := if st.hasColor then 3 * 4 + 4 + 4 else 3 * 4 + 4

/-- The mesh buffer `loadAsset` builds from the facets it has read: the vertex size,
the vertices written and the index count. -/
structure STLMesh where
  vtxSize : Nat
  vertices : List STLVertex
  indexCount : Nat
  deriving DecidableEq, Repr

/-- The part of `loadAsset` after the header (lines 68-186) for a file whose facets
are all read: `none` if the fill loop reads past the end of a vector. -/
def loadAsset (H : STLHelpers) (binary : Bool) (facets : List Facet) : Option STLMesh :=
  let st := facetLoop H binary (initSTL binary) facets
  (fillLoop H st st.positions.length 0 0).map (fun vs =>
    { vtxSize := vtxSize st, vertices := vs, indexCount := st.positions.length })

/-- The three positions one iteration of the facet loop appends: the vertices of the
facet in reverse file order, each as `getNextVector` leaves it. -/
def facetPositions (f : Facet) : List vectorSIMDf :=
  [getNextVector f.v2, getNextVector f.v1, getNextVector f.v0]

/-- The positions all facets of a file append, in order. -/
def allPositions : List Facet → List vectorSIMDf
  | [] => []
  | f :: fs => facetPositions f ++ allPositions fs

/-- The relation between the sizes of the three vectors that the facet loop keeps. -/
def STLInv (st : STLState) : Prop :=
  st.positions.length = 3 * st.normals.length ∧
    (st.hasColor = true → st.colors.length = st.normals.length)

/-- A binary file of two facets, both with bit `0x8000` of the attribute set. -/
def exampleFacets : List Facet :=
  [ ⟨⟨0, 0, 0x3F800000⟩, ⟨1, 2, 3⟩, ⟨4, 5, 6⟩, ⟨7, 8, 9⟩, 0x8001⟩,
    ⟨⟨0, 0, 0⟩, ⟨11, 12, 13⟩, ⟨14, 15, 16⟩, ⟨17, 18, 19⟩, 0xFFFF⟩ ]

/-- Helper functions for the examples: the colour is the attribute, the plane normal
is the first point, the quantised normal is the X of the normal. -/
def exampleHelpers : STLHelpers :=
  { A1R5G5B5toA8R8G8B8 := fun a => a
    planeNormal := fun a _ _ => a
    quantizeNormal2_10_10_10 := fun n => n.X }

theorem facetStep_positions (H : STLHelpers) (b : Bool) (st : STLState) (f : Facet) :
    (facetStep H b st f).positions = st.positions ++ facetPositions f := rfl

theorem facetStep_normals_length (H : STLHelpers) (b : Bool) (st : STLState) (f : Facet) :
    (facetStep H b st f).normals.length = st.normals.length + 1 := by
  simp only [facetStep]
  split <;> simp

theorem facetStep_hasColor (H : STLHelpers) (b : Bool) (st : STLState) (f : Facet) :
    (facetStep H b st f).hasColor =
      (st.hasColor && ((if b then f.attrib % U16 else st.attrib) &&& 0x8000 != 0)) := rfl

theorem facetStep_inv (H : STLHelpers) (b : Bool) (st : STLState) (f : Facet)
    (h : STLInv st) : STLInv (facetStep H b st f) := by
  refine ⟨?_, ?_⟩
  · rw [facetStep_positions, facetStep_normals_length, List.length_append, h.1]
    simp only [facetPositions, List.length_cons, List.length_nil]
    omega
  · intro hc
    rw [facetStep_normals_length]
    have hc1 := hc
    rw [facetStep_hasColor, Bool.and_eq_true] at hc1
    have hlen := h.2 hc1.1
    have hcol : (facetStep H b st f).colors =
        st.colors ++ [H.A1R5G5B5toA8R8G8B8 (if b then f.attrib % U16 else st.attrib)] := by
      rw [facetStep_hasColor] at hc
      simp only [facetStep, hc, if_true]
    rw [hcol, List.length_append, hlen]
    rfl

theorem facetLoop_inv (H : STLHelpers) (b : Bool) :
    ∀ (fs : List Facet) (st : STLState), STLInv st → STLInv (facetLoop H b st fs)
  | [], _, h => h
  | f :: fs, st, h => facetLoop_inv H b fs (facetStep H b st f) (facetStep_inv H b st f h)

theorem initSTL_inv (b : Bool) : STLInv (initSTL b) :=
  ⟨rfl, fun _ => rfl⟩

theorem facetLoop_positions (H : STLHelpers) (b : Bool) :
    ∀ (fs : List Facet) (st : STLState),
      (facetLoop H b st fs).positions = st.positions ++ allPositions fs
  | [], st => by simp [facetLoop, allPositions]
  | f :: fs, st => by
    rw [facetLoop, facetLoop_positions H b fs, facetStep_positions, allPositions,
      List.append_assoc]

theorem facetLoop_normals_length (H : STLHelpers) (b : Bool) :
    ∀ (fs : List Facet) (st : STLState),
      (facetLoop H b st fs).normals.length = st.normals.length + fs.length
  | [], st => by simp [facetLoop]
  | f :: fs, st => by
    rw [facetLoop, facetLoop_normals_length H b fs, facetStep_normals_length,
      List.length_cons]
    omega

theorem facetLoop_hasColor (H : STLHelpers) :
    ∀ (fs : List Facet) (st : STLState),
      (facetLoop H true st fs).hasColor = true ↔
        st.hasColor = true ∧ ∀ f ∈ fs, f.attrib % U16 &&& 0x8000 ≠ 0
  | [], st => by simp [facetLoop]
  | f :: fs, st => by
    rw [facetLoop, facetLoop_hasColor H fs, facetStep_hasColor]
    simp only [if_true, Bool.and_eq_true, bne_iff_ne, ne_eq, List.mem_cons, forall_eq_or_imp]
    tauto

theorem facetLoop_hasColor_false (H : STLHelpers) (b : Bool) :
    ∀ (fs : List Facet) (st : STLState),
      st.hasColor = false → (facetLoop H b st fs).hasColor = false
  | [], _, h => h
  | f :: fs, st, h =>
    facetLoop_hasColor_false H b fs (facetStep H b st f) (by rw [facetStep_hasColor, h]; rfl)

theorem allPositions_length : ∀ fs : List Facet, (allPositions fs).length = 3 * fs.length
  | [] => rfl
  | f :: fs => by
    rw [allPositions, List.length_append, allPositions_length fs, List.length_cons]
    simp only [facetPositions, List.length_cons, List.length_nil]
    omega

theorem allPositions_get : ∀ (fs : List Facet) (f : Nat) (F : Facet) (k : Nat), k < 3 →
    fs.get? f = some F → (allPositions fs).get? (3 * f + k) = (facetPositions F).get? k
  | [], f, F, k, _, h => by simp at h
  | G :: fs, 0, F, k, hk, h => by
    simp only [List.get?_cons_zero, Option.some.injEq] at h
    subst h
    simp only [allPositions, Nat.mul_zero, Nat.zero_add, List.get?_eq_getElem?]
    exact List.getElem?_append_left (by simpa [facetPositions] using hk)
  | G :: fs, f + 1, F, k, hk, h => by
    simp only [List.get?_cons_succ] at h
    have ih := allPositions_get fs f F k hk h
    simp only [allPositions, List.get?_eq_getElem?] at *
    rw [List.getElem?_append_right (by simp [facetPositions]; omega), ← ih]
    congr 1
    simp [facetPositions]
    omega

theorem fillLoop_ok (H : STLHelpers) (st : STLState) (hinv : STLInv st) :
    ∀ (n i normal : Nat), i + n = st.positions.length →
      ∃ vs, fillLoop H st n i normal = some vs ∧ vs.length = n ∧
        ∀ k, k < n → (vs.get? k).map STLVertex.position = st.positions.get? (i + k)
  | 0, _, _, _ => ⟨[], rfl, rfl, fun k hk => absurd hk (Nat.not_lt_zero k)⟩
  | n + 1, i, normal, h => by
    have hi : i < st.positions.length := by omega
    have hn : i / 3 < st.normals.length := by
      have := hinv.1
      omega
    obtain ⟨p, hp⟩ : ∃ p, st.positions.get? i = some p := ⟨_, List.get?_eq_get hi⟩
    obtain ⟨nv, hnv⟩ : ∃ nv, st.normals.get? (i / 3) = some nv := ⟨_, List.get?_eq_get hn⟩
    obtain ⟨nrm, hnrm⟩ : ∃ nrm,
        (if i % 3 = 0 then (st.normals.get? (i / 3)).map H.quantizeNormal2_10_10_10
          else some normal) = some nrm := by
      split
      · exact ⟨_, by rw [hnv]; rfl⟩
      · exact ⟨_, rfl⟩
    obtain ⟨c, hc⟩ : ∃ c,
        (if st.hasColor then (st.colors.get? (i / 3)).map some else some none) = some c := by
      split
      · rename_i hcol
        have hlt : i / 3 < st.colors.length := by rw [hinv.2 hcol]; exact hn
        exact ⟨_, by rw [List.get?_eq_get hlt]; rfl⟩
      · exact ⟨_, rfl⟩
    obtain ⟨vs, hvs, hlen, hpos⟩ := fillLoop_ok H st hinv n (i + 1) nrm (by omega)
    refine ⟨⟨p, nrm, c⟩ :: vs, ?_, by simp [hlen], ?_⟩
    · rw [fillLoop, hnrm]
      simp only [hp, hc, hvs]
      rfl
    · intro k hk
      cases k with
      | zero =>
        rw [Nat.add_zero, hp]
        rfl
      | succ k =>
        have hk1 := hpos k (by omega)
        simp only [List.get?_cons_succ]
        rw [hk1]
        congr 1
        omega

/-- C21: after every number `k` of completed iterations of the facet loop,
`positions.size() == 3 * normals.size()`, and `colors.size() == normals.size()` if
`hasColor` is still true; at the end `hasColor` is true exactly when the file is
binary and every facet's 16-bit attribute has bit `0x8000` set; the fill loop reads
`normals[i/3]` and, when `hasColor`, `colors[i/3]` inside the vectors for every
`i < positions.size()` and runs to its end; and the vertex size is `20` with colour
and `16` without. -/
theorem loadAsset_facet_loop_invariant (H : STLHelpers) (binary : Bool) (facets : List Facet) :
    (∀ k, (facetLoop H binary (initSTL binary) (facets.take k)).positions.length =
          3 * (facetLoop H binary (initSTL binary) (facets.take k)).normals.length ∧
        ((facetLoop H binary (initSTL binary) (facets.take k)).hasColor = true →
          (facetLoop H binary (initSTL binary) (facets.take k)).colors.length =
            (facetLoop H binary (initSTL binary) (facets.take k)).normals.length)) ∧
      ((facetLoop H binary (initSTL binary) facets).hasColor = true ↔
        binary = true ∧ ∀ f ∈ facets, f.attrib % U16 &&& 0x8000 ≠ 0) ∧
      (∀ i, i < (facetLoop H binary (initSTL binary) facets).positions.length →
        i / 3 < (facetLoop H binary (initSTL binary) facets).normals.length ∧
        ((facetLoop H binary (initSTL binary) facets).hasColor = true →
          i / 3 < (facetLoop H binary (initSTL binary) facets).colors.length)) ∧
      (∃ vs, fillLoop H (facetLoop H binary (initSTL binary) facets)
          (facetLoop H binary (initSTL binary) facets).positions.length 0 0 = some vs ∧
        vs.length = (facetLoop H binary (initSTL binary) facets).positions.length) ∧
      vtxSize (facetLoop H binary (initSTL binary) facets) =
        (if (facetLoop H binary (initSTL binary) facets).hasColor then 20 else 16) := by
  have hinv := facetLoop_inv H binary facets _ (initSTL_inv binary)
  refine ⟨fun k => facetLoop_inv H binary (facets.take k) _ (initSTL_inv binary), ?_, ?_, ?_, rfl⟩
  · cases binary with
    | true =>
      rw [facetLoop_hasColor]
      simp [initSTL]
    | false =>
      rw [facetLoop_hasColor_false H false facets _ rfl]
      simp
  · intro i hi
    have h1 := hinv.1
    refine ⟨by omega, fun hc => ?_⟩
    rw [hinv.2 hc]
    omega
  · obtain ⟨vs, h1, h2, _⟩ := fillLoop_ok H _ hinv _ 0 0 (Nat.zero_add _)
    exact ⟨vs, h1, h2⟩

/-- Witness of C21: a binary file of two coloured facets gives six positions, two
normals, two colours and 20-byte vertices. -/
theorem loadAsset_facet_loop_invariant_witness :
    ((facetLoop exampleHelpers true (initSTL true) exampleFacets).hasColor = true ↔
        true = true ∧ ∀ f ∈ exampleFacets, f.attrib % U16 &&& 0x8000 ≠ 0) ∧
      (facetLoop exampleHelpers true (initSTL true) exampleFacets).positions.length = 6 ∧
      (facetLoop exampleHelpers true (initSTL true) exampleFacets).normals.length = 2 ∧
      (facetLoop exampleHelpers true (initSTL true) exampleFacets).colors = [0x8001, 0xFFFF] ∧
      vtxSize (facetLoop exampleHelpers true (initSTL true) exampleFacets) = 20 :=
  ⟨(loadAsset_facet_loop_invariant exampleHelpers true exampleFacets).2.1, by decide, by decide,
    by decide, by decide⟩

/-- C22: a file whose `n` facets are all read gives a mesh buffer with index count
`3n` and `3n` vertices, and the facet `f` with file vertices `v0`, `v1`, `v2` gives the
vertices `3f`, `3f+1`, `3f+2` the positions of `v2`, `v1`, `v0`, each with the sign of
X flipped and Y, Z as read. -/
theorem loadAsset_reverses_winding (H : STLHelpers) (binary : Bool) (facets : List Facet) :
    ∃ mesh, loadAsset H binary facets = some mesh ∧
      mesh.indexCount = 3 * facets.length ∧
      mesh.vertices.length = 3 * facets.length ∧
      ∀ f F, facets.get? f = some F →
        (mesh.vertices.get? (3 * f)).map STLVertex.position =
            some ⟨negateFloat F.v2.X, F.v2.Y, F.v2.Z⟩ ∧
          (mesh.vertices.get? (3 * f + 1)).map STLVertex.position =
            some ⟨negateFloat F.v1.X, F.v1.Y, F.v1.Z⟩ ∧
          (mesh.vertices.get? (3 * f + 2)).map STLVertex.position =
            some ⟨negateFloat F.v0.X, F.v0.Y, F.v0.Z⟩ := by
  have hinv := facetLoop_inv H binary facets _ (initSTL_inv binary)
  have hpos : (facetLoop H binary (initSTL binary) facets).positions = allPositions facets := by
    rw [facetLoop_positions]
    rfl
  have hlen : (facetLoop H binary (initSTL binary) facets).positions.length =
      3 * facets.length := by
    rw [hpos, allPositions_length]
  obtain ⟨vs, h1, h2, h3⟩ := fillLoop_ok H _ hinv _ 0 0 (Nat.zero_add _)
  refine ⟨_, by simp only [loadAsset, h1]; rfl, hlen, by rw [← hlen]; exact h2, ?_⟩
  intro f F hF
  have hf : f < facets.length := by
    rcases Nat.lt_or_ge f facets.length with h | h
    · exact h
    · rw [List.get?_eq_none.2 h] at hF
      cases hF
  have e0 := h3 (3 * f) (by omega)
  have e1 := h3 (3 * f + 1) (by omega)
  have e2 := h3 (3 * f + 2) (by omega)
  rw [Nat.zero_add, hpos] at e0 e1 e2
  have g0 := allPositions_get facets f F 0 (by decide) hF
  rw [Nat.add_zero] at g0
  rw [g0] at e0
  rw [allPositions_get facets f F 1 (by decide) hF] at e1
  rw [allPositions_get facets f F 2 (by decide) hF] at e2
  exact ⟨e0, e1, e2⟩

/-- Witness of C22: the binary file of two facets gives index count `6`, and the
second facet, with vertices `(11,12,13)`, `(14,15,16)`, `(17,18,19)`, gives vertex `3`
the position of `(17,18,19)` with the sign bit of X set. -/
theorem loadAsset_reverses_winding_witness :
    (loadAsset exampleHelpers true exampleFacets).map (fun m => m.indexCount) = some 6 ∧
      (loadAsset exampleHelpers true exampleFacets).map
          (fun m => (m.vertices.get? 3).map STLVertex.position) =
        some (some ⟨2147483665, 18, 19⟩) ∧
      ∃ mesh, loadAsset exampleHelpers true exampleFacets = some mesh ∧
        mesh.indexCount = 3 * exampleFacets.length :=
  ⟨by decide, by decide,
    (loadAsset_reverses_winding exampleHelpers true exampleFacets).imp
      (fun _ h => ⟨h.1, h.2.1⟩)⟩

end Nabla
